import Mathlib

/-!
# PingPongDelay: a verification development of the delay unit

Shallow embedding of `PingPongDelayUnit` (src/PingPongDelayUnit.h, src/PingPongDelayUnit.cpp)
and of the parameter, display and block-processing methods of `PingPongDelayEffect`
(src/PingPongDelayEffect.h, src/PingPongDelayEffect.cpp).

Modelling conventions
* `float` and `double` values are rationals (`ℚ`).  The arithmetic on samples, gains and
  quotients is the exact one: no rounding, no NaN and no infinity.  Division is the division of
  `ℚ`.
* Where `GetSample` computes the delay length, a `float` result is cast to `int`, and there the
  rounding decides the integer: `delaySamples` rounds every `double` result to binary64
  (`toDouble`) and every `float` result to binary32 (`toFloat`), to nearest, ties to even, as
  the source does when each operation is evaluated in the precision of its type.
* The section `Binary32` embeds the unit once more with every `float` a binary32 value
  (`Float32`): a finite number, an infinity or a NaN, every operation rounded.  It covers what
  the exact arithmetic leaves out: an indeterminate member holding any bit pattern, and
  absorption.
* `int` values are unbounded integers (`Int`); signed overflow is undefined in C++, so the model
  describes the executions in which every `int` result fits its type.
* The cast `(int)x` of a float is truncation toward zero (`toInt`); `%` on `int` is the truncated
  remainder (`Int.tmod`).
* A buffer pointer (`float*`) is the map from an index to the content of that cell.  The cells
  `0 .. bufferSize_ - 1` are the allocated ones.
* `timeInfo_` points to a record owned by the host, which may change between two calls; the
  record read during a call is an explicit argument of `GetSample`.
* A member function that mutates the object returns the new object.
-/

namespace PingPongDelay

/-- The cast `(int)x` of C++: truncation toward zero. -/
def toInt (x : ℚ) : Int := if 0 ≤ x then ⌊x⌋ else ⌈x⌉

/-- Rounding of a rational to the nearest integer, a tie going to the even integer. -/
def roundHalfEven (x : ℚ) : Int :=
  if x - (⌊x⌋ : ℚ) < 1 / 2 then ⌊x⌋
  else if 1 / 2 < x - (⌊x⌋ : ℚ) then ⌊x⌋ + 1
  else if ⌊x⌋ % 2 = 0 then ⌊x⌋ else ⌊x⌋ + 1

/-- Rounding of a rational to a binary floating-point format with `precision` significand bits
and least exponent `emin`, to nearest, ties to even (the rounding of IEEE 754 arithmetic).  With
`e` the exponent of `x` (at least `emin`: below it the values are subnormal), the values of the
format around `x` are the multiples of `2 ^ (e - (precision - 1))`.  The exponent is not bounded
above. -/
def roundBinary (precision : Nat) (emin : Int) (x : ℚ) : ℚ :=
  if x = 0 then 0
  else
    let e : Int := max (Int.log 2 |x|) emin
    let ulp : ℚ := (2 : ℚ) ^ (e - ((precision : Int) - 1))
    (roundHalfEven (x / ulp) : ℚ) * ulp

/-- The value of type `float` (binary32) nearest to `x`: the result of a `float` operation, or
of a conversion to `float`, whose exact result is `x`. -/
def toFloat (x : ℚ) : ℚ := roundBinary 24 (-126) x

/-- The value of type `double` (binary64) nearest to `x`. -/
def toDouble (x : ℚ) : ℚ := roundBinary 53 (-1022) x

/-- The type `StereoSample`, a `pair<float, float>`: `first` is left, `second` is right. -/
structure StereoSample where
  first : ℚ
  second : ℚ
deriving DecidableEq

/-- The two fields of the host's `VstTimeInfo` that the unit reads. -/
structure VstTimeInfo where
  sampleRate : ℚ
  tempo : ℚ
deriving DecidableEq

/-- Constant `minAsyncDelayMs_`. -/
def minAsyncDelayMs_ : Int := 10

/-- Constant `maxAsyncDelayMs_`. -/
def maxAsyncDelayMs_ : Int := 2000

/-- Constant `syncDelayRatioCount_`. -/
def syncDelayRatioCount_ : Int := 7

/-- Table `syncDelayRatios_`: the quotients as the initialiser writes them (`1.0f / 3.0f` is
`1 / 3`); the `float` stored is the rounding of the quotient, applied where the table is read. -/
def syncDelayRatios_ : List ℚ := [1 / 4, 1 / 3, 1 / 2, 2 / 3, 1, 3 / 2, 2]

/-- Table `syncDelayRatioStrings_`. -/
def syncDelayRatioStrings_ : List String := ["1/4", "1/3", "1/2", "2/3", "1", "3/2", "2"]

/-- Constant `minFeedback_`. -/
def minFeedback_ : ℚ := 0

/-- Constant `maxFeedback_` (`0.8f`). -/
def maxFeedback_ : ℚ := 8 / 10

/-- Constant `sInMin_`. -/
def sInMin_ : Int := 60

/-- Constant `msInS_`. -/
def msInS_ : Int := 1000

/-- Indexing `table[i]` of a constant table with an `int` index; an index outside the table
(undefined in C++) reads the default. -/
def tableAt {α : Type} (table : List α) (i : Int) (dflt : α) : α :=
  if 0 ≤ i then table.getD i.toNat dflt else dflt

/-- The data members of class `PingPongDelayUnit` (without the pointer `timeInfo_`). -/
structure PingPongDelayUnit where
  bufferSize_ : Int
  delayParam_ : ℚ
  feedbackParam_ : ℚ
  panoramaParam_ : ℚ
  wetParam_ : ℚ
  syncParam_ : ℚ
  asyncDelayMs_ : Int
  syncDelayRatioIndex_ : Int
  feedback_ : ℚ
  panoramaParamC_ : ℚ
  primaryPanningQuotient_ : ℚ
  secondaryPanningQuotient_ : ℚ
  wetParamC_ : ℚ
  isAsync_ : Bool
  bufferCursor_ : Int
  leftBuffer_ : Int → ℚ
  rightBuffer_ : Int → ℚ

/-- The assignment `buffer[i] = v`. -/
def writeAt (buffer : Int → ℚ) (i : Int) (v : ℚ) : Int → ℚ :=
  fun j => if j = i then v else buffer j

/-- Overload `Corresponding(float, int, int)`. -/
def Corresponding (param : ℚ) (min max : Int) : Int :=
  if param = 1 then max
  else
    let range : Int := max - min + 1
    toInt ((param * (range : ℚ)) + (min : ℚ))

/-- Overload `Corresponding(float, float, float)`. -/
def CorrespondingF (param min max : ℚ) : ℚ :=
  let range : ℚ := max - min
  (range * param) + min

namespace PingPongDelayUnit

/-- Method `GetDelayParam`. -/
def GetDelayParam (u : PingPongDelayUnit) : ℚ := u.delayParam_

/-- Method `SetDelayParam`. -/
def SetDelayParam (u : PingPongDelayUnit) (delayParam : ℚ) : PingPongDelayUnit :=
  { u with
    delayParam_ := delayParam
    asyncDelayMs_ := Corresponding delayParam minAsyncDelayMs_ maxAsyncDelayMs_
    syncDelayRatioIndex_ := Corresponding delayParam 0 (syncDelayRatioCount_ - 1) }

/-- Method `GetAsyncDelayMs`. -/
def GetAsyncDelayMs (u : PingPongDelayUnit) : Int := u.asyncDelayMs_

/-- Method `GetSyncDelayRatio`. -/
def GetSyncDelayRatio (u : PingPongDelayUnit) : String :=
  tableAt syncDelayRatioStrings_ u.syncDelayRatioIndex_ ""

/-- Method `GetFeedbackParam`. -/
def GetFeedbackParam (u : PingPongDelayUnit) : ℚ := u.feedbackParam_

/-- Method `SetFeedbackParam`. -/
def SetFeedbackParam (u : PingPongDelayUnit) (feedbackParam : ℚ) : PingPongDelayUnit :=
  { u with
    feedbackParam_ := feedbackParam
    feedback_ := CorrespondingF feedbackParam minFeedback_ maxFeedback_ }

/-- Method `GetFeedback`. -/
def GetFeedback (u : PingPongDelayUnit) : ℚ := u.feedback_

/-- Method `GetPanoramaParam`. -/
def GetPanoramaParam (u : PingPongDelayUnit) : ℚ := u.panoramaParam_

/-- Method `SetPanoramaParam`.  The secondary quotient is computed from the primary quotient
stored before the call, then the primary one from the new secondary one. -/
def SetPanoramaParam (u : PingPongDelayUnit) (panoramaParam : ℚ) : PingPongDelayUnit :=
  let secondary : ℚ := |1 / 2 - u.primaryPanningQuotient_|
  { u with
    panoramaParam_ := panoramaParam
    panoramaParamC_ := 1 - panoramaParam
    secondaryPanningQuotient_ := secondary
    primaryPanningQuotient_ := 1 - secondary }

/-- Method `GetWetParam`. -/
def GetWetParam (u : PingPongDelayUnit) : ℚ := u.wetParam_

/-- Method `SetWetParam`. -/
def SetWetParam (u : PingPongDelayUnit) (wetParam : ℚ) : PingPongDelayUnit :=
  { u with
    wetParam_ := wetParam
    wetParamC_ := 1 - wetParam }

/-- Method `GetSyncParam`. -/
def GetSyncParam (u : PingPongDelayUnit) : ℚ := u.syncParam_

/-- Method `SetSyncParam`. -/
def SetSyncParam (u : PingPongDelayUnit) (syncParam : ℚ) : PingPongDelayUnit :=
  { u with
    syncParam_ := syncParam
    isAsync_ := decide (syncParam = 0) }

/-- Method `IsAsync`. -/
def IsAsync (u : PingPongDelayUnit) : Bool := u.isAsync_

/-- Method `IncrementBufferCursor`. -/
def IncrementBufferCursor (u : PingPongDelayUnit) : PingPongDelayUnit :=
  if u.bufferCursor_ ≠ u.bufferSize_ - 1 then
    { u with bufferCursor_ := u.bufferCursor_ + 1 }
  else
    { u with bufferCursor_ := 0 }

/-- Method `BufferModulo`. -/
def BufferModulo (u : PingPongDelayUnit) (cursorIndex : Int) : Int :=
  (cursorIndex.tmod u.bufferSize_ + u.bufferSize_).tmod u.bufferSize_

/-- The local `delaySamples` of `GetSample`: the first block of the method.  The fields of the
transport record are of type `double`: each quotient is a `double` division whose result is
narrowed to the `float` local; each product is a `float` multiplication (an `int` operand
converted to `float`); the cast truncates. -/
def delaySamples (u : PingPongDelayUnit) (timeInfo : VstTimeInfo) : Int :=
  if u.IsAsync then
    let msSamples : ℚ := toFloat (toDouble (timeInfo.sampleRate / (msInS_ : ℚ)))
    toInt (toFloat (toFloat (u.asyncDelayMs_ : ℚ) * msSamples))
  else
    let beatsPerSec : ℚ := toFloat (toDouble (timeInfo.tempo / (sInMin_ : ℚ)))
    let samplesPerBeat : ℚ := toFloat (toDouble (timeInfo.sampleRate / beatsPerSec))
    toInt (toFloat
      (samplesPerBeat * toFloat (tableAt syncDelayRatios_ u.syncDelayRatioIndex_ 0)))

/-- Method `GetSample`: the new object and the returned sample. -/
def GetSample (u : PingPongDelayUnit) (timeInfo : VstTimeInfo) (input : StereoSample) :
    PingPongDelayUnit × StereoSample :=
  let delaySamples : Int := u.delaySamples timeInfo
  let semiDelayedCursor : Int := u.BufferModulo (u.bufferCursor_ - delaySamples)
  let fullDelayedCursor : Int := u.BufferModulo (u.bufferCursor_ - (delaySamples * 2))
  let leftBuffer : Int → ℚ :=
    writeAt u.leftBuffer_ u.bufferCursor_
      ((input.first + u.leftBuffer_ fullDelayedCursor) * u.feedback_)
  let rightBuffer : Int → ℚ :=
    writeAt u.rightBuffer_ u.bufferCursor_
      ((input.second + u.rightBuffer_ fullDelayedCursor) * u.feedback_)
  let left : ℚ := (u.wetParamC_ * input.first) +
    (u.wetParam_ * ((u.panoramaParamC_ *
        (u.primaryPanningQuotient_ * leftBuffer semiDelayedCursor +
          u.secondaryPanningQuotient_ * rightBuffer semiDelayedCursor)) +
      (u.panoramaParam_ *
        (u.secondaryPanningQuotient_ * leftBuffer fullDelayedCursor +
          u.primaryPanningQuotient_ * rightBuffer fullDelayedCursor))))
  let right : ℚ := (u.wetParamC_ * input.second) +
    (u.wetParam_ * ((u.panoramaParam_ *
        (u.primaryPanningQuotient_ * leftBuffer semiDelayedCursor +
          u.secondaryPanningQuotient_ * rightBuffer semiDelayedCursor)) +
      (u.panoramaParamC_ *
        (u.secondaryPanningQuotient_ * leftBuffer fullDelayedCursor +
          u.primaryPanningQuotient_ * rightBuffer fullDelayedCursor))))
  (IncrementBufferCursor { u with leftBuffer_ := leftBuffer, rightBuffer_ := rightBuffer },
    { first := left, second := right })

/-- The constructor.  Before the five setter calls the float members hold indeterminate values;
only `primaryPanningQuotient_` is read before it is written (by `SetPanoramaParam`), so its
indeterminate value is the argument `primaryGarbage`.  Here that value is a finite number and
the quotients are computed from it exactly; `Binary32.PingPongDelayUnit.new` is the constructor
over any content of that storage (an infinity and a NaN included) with the rounding of
`float`. -/
def new (bufferSize : Int) (delayParam feedbackParam panoramaParam wetParam syncParam : ℚ)
    (primaryGarbage : ℚ) : PingPongDelayUnit :=
  let u : PingPongDelayUnit :=
    { bufferSize_ := bufferSize
      delayParam_ := 0
      feedbackParam_ := 0
      panoramaParam_ := 0
      wetParam_ := 0
      syncParam_ := 0
      asyncDelayMs_ := 0
      syncDelayRatioIndex_ := 0
      feedback_ := 0
      panoramaParamC_ := 0
      primaryPanningQuotient_ := primaryGarbage
      secondaryPanningQuotient_ := 0
      wetParamC_ := 0
      isAsync_ := false
      bufferCursor_ := 0
      leftBuffer_ := fun _ => 0
      rightBuffer_ := fun _ => 0 }
  ((((u.SetDelayParam delayParam).SetFeedbackParam feedbackParam).SetPanoramaParam
    panoramaParam).SetWetParam wetParam).SetSyncParam syncParam

/-- A call of a public mutating method, with its arguments (for `GetSample`: the transport
record read during the call and the input sample). -/
inductive Call where
  | setDelay (delayParam : ℚ)
  | setFeedback (feedbackParam : ℚ)
  | setPanorama (panoramaParam : ℚ)
  | setWet (wetParam : ℚ)
  | setSync (syncParam : ℚ)
  | getSample (timeInfo : VstTimeInfo) (input : StereoSample)

/-- The object after one call. -/
def step (u : PingPongDelayUnit) : Call → PingPongDelayUnit
  | .setDelay p => u.SetDelayParam p
  | .setFeedback p => u.SetFeedbackParam p
  | .setPanorama p => u.SetPanoramaParam p
  | .setWet p => u.SetWetParam p
  | .setSync p => u.SetSyncParam p
  | .getSample ti input => (u.GetSample ti input).1

/-- The object after a sequence of calls, first call first. -/
def run (u : PingPongDelayUnit) (calls : List Call) : PingPongDelayUnit :=
  calls.foldl step u

/-- A unit used to instantiate the theorems: capacity 4, delay 10 ms, feedback gain 0.4,
panorama 0.25, wet 0.5, async, after one processed sample at 100 samples per second. -/
def demoUnit : PingPongDelayUnit :=
  ((new 4 0 (1 / 2) (1 / 4) (1 / 2) 0 (3 / 4)).GetSample ⟨100, 120⟩ ⟨1, 2⟩).1

/-- Whether a call is a `GetSample` call. -/
def Call.isGetSample : Call → Bool
  | .getSample _ _ => true
  | _ => false

/-- The samples returned by the `GetSample` calls of a sequence of calls, in order. -/
def outputs (u : PingPongDelayUnit) : List Call → List StereoSample
  | [] => []
  | .getSample ti input :: calls =>
    (u.GetSample ti input).2 :: outputs (u.GetSample ti input).1 calls
  | .setDelay p :: calls => outputs (u.SetDelayParam p) calls
  | .setFeedback p :: calls => outputs (u.SetFeedbackParam p) calls
  | .setPanorama p :: calls => outputs (u.SetPanoramaParam p) calls
  | .setWet p :: calls => outputs (u.SetWetParam p) calls
  | .setSync p :: calls => outputs (u.SetSyncParam p) calls

/-- The object after `GetSample` processed the frames `0 .. n - 1` of the stream `input`, the
transport record being `timeInfo` at every call and no setter being called in between. -/
def afterFrames (u : PingPongDelayUnit) (timeInfo : VstTimeInfo) (input : Nat → StereoSample) :
    Nat → PingPongDelayUnit
  | 0 => u
  | n + 1 => ((afterFrames u timeInfo input n).GetSample timeInfo (input n)).1

/-- The sample `GetSample` returns for frame `n` of the stream `input` (frames `0 .. n - 1`
processed before). -/
def outputAt (u : PingPongDelayUnit) (timeInfo : VstTimeInfo) (input : Nat → StereoSample)
    (n : Nat) : StereoSample :=
  ((afterFrames u timeInfo input n).GetSample timeInfo (input n)).2

/-- The two samples (left, right) that the call for frame `n` of the stream `input` stores in the
buffers at the cursor. -/
def writtenAt (u : PingPongDelayUnit) (timeInfo : VstTimeInfo) (input : Nat → StereoSample)
    (n : Nat) : StereoSample :=
  { first := (afterFrames u timeInfo input (n + 1)).leftBuffer_
      (afterFrames u timeInfo input n).bufferCursor_
    second := (afterFrames u timeInfo input (n + 1)).rightBuffer_
      (afterFrames u timeInfo input n).bufferCursor_ }

/-- The unit impulse: `(1, 1)` at frame 0 and `(0, 0)` afterwards. -/
def impulse (n : Nat) : StereoSample :=
  if n = 0 then ⟨1, 1⟩ else ⟨0, 0⟩

end PingPongDelayUnit

/-! ### The effect (src/PingPongDelayEffect.h, src/PingPongDelayEffect.cpp)

Of class `PingPongDelayEffect` the member `unit_` is modelled; the program name and the editor
(whose `setParameter` only moves the controls of the window) are not.  The channel arrays of
`processReplacing` are maps from an index to a sample, like the buffers of the unit, the input
arrays being distinct from the output arrays or identical to them. -/

/-- Enumerator `DelayParam` of `PingPongDelayParameter`. -/
def DelayParam : Int := 0

/-- Enumerator `FeedbackParam`. -/
def FeedbackParam : Int := 1

/-- Enumerator `PanoramaParam`. -/
def PanoramaParam : Int := 2

/-- Enumerator `WetParam`. -/
def WetParam : Int := 3

/-- Enumerator `SyncParam`. -/
def SyncParam : Int := 4

/-- Constant `offLabel_`. -/
def offLabel_ : String := "Off"

/-- Constant `onLabel_`. -/
def onLabel_ : String := "On"

/-- Modelled from the spec: the constant `kVstMaxParamStrLen` of the VST SDK is not in the
sources; it is the length limit of a display text (8 in the SDK), longer than every text this
effect displays. -/
def kVstMaxParamStrLen : Nat := 8

/-- Modelled from the spec: the helper `vst_strncpy` of the VST SDK is not in the sources; the
text stored is the source string, cut to `maxLen` characters. -/
def vst_strncpy (src : String) (maxLen : Nat) : String :=
  String.mk (src.data.take maxLen)

/-- Modelled from the spec: the helper `int2string` of the VST SDK is not in the sources; the
text stored is the integer value in decimal digits, cut to `maxLen` characters. -/
def int2string (value : Int) (maxLen : Nat) : String :=
  vst_strncpy (toString value) maxLen

/-- The member `unit_` of class `PingPongDelayEffect`. -/
structure PingPongDelayEffect where
  unit_ : PingPongDelayUnit

namespace PingPongDelayEffect

/-- The loop `while(--sampleFrames >= 0)` of `processReplacing`; `pos` is the number of frames by
which the four channel pointers were advanced. -/
def processReplacingLoop (timeInfo : VstTimeInfo) (leftInput rightInput : Int → ℚ)
    (sampleFrames : Int) (pos : Int) (unit : PingPongDelayUnit)
    (leftOutput rightOutput : Int → ℚ) : PingPongDelayUnit × (Int → ℚ) × (Int → ℚ) :=
  if sampleFrames - 1 ≥ 0 then
    let r := unit.GetSample timeInfo ⟨leftInput pos, rightInput pos⟩
    processReplacingLoop timeInfo leftInput rightInput (sampleFrames - 1) (pos + 1) r.1
      (writeAt leftOutput pos r.2.first) (writeAt rightOutput pos r.2.second)
  else
    (unit, leftOutput, rightOutput)
termination_by sampleFrames.toNat
decreasing_by omega

/-- Method `processReplacing`: the new effect and the two output channels.  The transport
record is `timeInfo` during the whole block. -/
def processReplacing (e : PingPongDelayEffect) (timeInfo : VstTimeInfo)
    (leftInput rightInput leftOutput rightOutput : Int → ℚ) (sampleFrames : Int) :
    PingPongDelayEffect × (Int → ℚ) × (Int → ℚ) :=
  let r := processReplacingLoop timeInfo leftInput rightInput sampleFrames 0 e.unit_
    leftOutput rightOutput
  ({ e with unit_ := r.1 }, r.2.1, r.2.2)

/-- Method `setParameter` (the call that moves the control of the editor is not modelled). -/
def setParameter (e : PingPongDelayEffect) (index : Int) (value : ℚ) : PingPongDelayEffect :=
  if index = DelayParam then { e with unit_ := e.unit_.SetDelayParam value }
  else if index = FeedbackParam then { e with unit_ := e.unit_.SetFeedbackParam value }
  else if index = PanoramaParam then { e with unit_ := e.unit_.SetPanoramaParam value }
  else if index = WetParam then { e with unit_ := e.unit_.SetWetParam value }
  else if index = SyncParam then { e with unit_ := e.unit_.SetSyncParam value }
  else e

/-- Method `getParameter`. -/
def getParameter (e : PingPongDelayEffect) (index : Int) : ℚ :=
  if index = DelayParam then e.unit_.GetDelayParam
  else if index = FeedbackParam then e.unit_.GetFeedbackParam
  else if index = PanoramaParam then e.unit_.GetPanoramaParam
  else if index = WetParam then e.unit_.GetWetParam
  else if index = SyncParam then e.unit_.GetSyncParam
  else 0

/-- Method `getParameterDisplay`: the content of `text` after the call, `text` being its content
before.  The SDK helper `float2string`, which is not in the sources, is a parameter. -/
def getParameterDisplay (float2string : ℚ → Nat → String) (e : PingPongDelayEffect)
    (index : Int) (text : String) : String :=
  if index = DelayParam then
    if e.unit_.IsAsync then int2string e.unit_.GetAsyncDelayMs kVstMaxParamStrLen
    else vst_strncpy e.unit_.GetSyncDelayRatio kVstMaxParamStrLen
  else if index = FeedbackParam then float2string e.unit_.GetFeedback kVstMaxParamStrLen
  else if index = PanoramaParam then float2string e.unit_.GetPanoramaParam kVstMaxParamStrLen
  else if index = WetParam then float2string e.unit_.GetWetParam kVstMaxParamStrLen
  else if index = SyncParam then
    if e.unit_.IsAsync then vst_strncpy offLabel_ kVstMaxParamStrLen
    else vst_strncpy onLabel_ kVstMaxParamStrLen
  else text

end PingPongDelayEffect

/-- The value of a decimal digit. -/
def digitValue (c : Char) : Option Nat :=
  if c.isDigit then some (c.toNat - 48) else none

/-- The natural number a non-empty list of decimal digits denotes, after the digits `acc`. -/
def digitsValue : List Char → Nat → Option Nat
  | [], acc => some acc
  | c :: cs, acc =>
    match digitValue c with
    | some d => digitsValue cs (10 * acc + d)
    | none => none

/-- The fraction a ratio text denotes: `"a"` is `a / 1` and `"a/b"` is `a / b`, as the pair of
the numerator and the denominator. -/
def denotedRatio (s : String) : Option (Nat × Nat) :=
  match s.data.span (fun c => c != '/') with
  | ([], _) => none
  | (num, []) => (digitsValue num 0).map (fun a => (a, 1))
  | (_, [_]) => none
  | (num, _ :: den) =>
    match digitsValue num 0, digitsValue den 0 with
    | some a, some b => some (a, b)
    | _, _ => none

end PingPongDelay

/-! ### The unit in binary32

The class `PingPongDelayUnit` once more, every `float` being a binary32 value (`Float32`) and
every `float` operation rounding its exact result.  The members, the methods and the constructor
are those of the exact embedding above, in the same order; the transport record holds finite
values and the delay length is computed as in `PingPongDelayUnit.delaySamples`. -/

namespace PingPongDelay

/-- A value of the type `float` (IEEE 754 binary32): a finite number, an infinity or a NaN.  The
sign of a zero and the payload of a NaN are not represented. -/
inductive Float32 where
  | finite (value : ℚ)
  | infinity (negative : Bool)
  | nan
deriving DecidableEq

namespace Float32

/-- The largest finite binary32 value, `(2 - 2 ^ (-23)) * 2 ^ 127`. -/
def maxFinite : ℚ := (2 ^ 24 - 1) * 2 ^ 104

/-- The binary32 result of an operation whose exact result is `x`: the nearest value, or the
infinity of the sign of `x` when the nearest value exceeds the largest finite one. -/
def ofRat (x : ℚ) : Float32 :=
  if maxFinite < |toFloat x| then infinity (decide (x < 0)) else finite (toFloat x)

/-- The conversion of an `int` to `float`. -/
def ofInt (n : Int) : Float32 := ofRat (n : ℚ)

/-- Unary minus. -/
def neg : Float32 → Float32
  | finite a => finite (-a)
  | infinity s => infinity (!s)
  | nan => nan

/-- Operator `+` of `float`: a NaN operand gives NaN, and so do two infinities of opposite
signs. -/
def add : Float32 → Float32 → Float32
  | finite a, finite b => ofRat (a + b)
  | finite _, infinity s => infinity s
  | infinity s, finite _ => infinity s
  | infinity s, infinity t => if s = t then infinity s else nan
  | nan, _ => nan
  | _, nan => nan

/-- Operator `-` of `float`. -/
def sub (a b : Float32) : Float32 := add a (neg b)

/-- Operator `*` of `float`: a NaN operand gives NaN, and so does zero times an infinity. -/
def mul : Float32 → Float32 → Float32
  | finite a, finite b => ofRat (a * b)
  | finite a, infinity s => if a = 0 then nan else infinity (xor (decide (a < 0)) s)
  | infinity s, finite b => if b = 0 then nan else infinity (xor s (decide (b < 0)))
  | infinity s, infinity t => infinity (xor s t)
  | nan, _ => nan
  | _, nan => nan

/-- Function `fabs`. -/
def fabs : Float32 → Float32
  | finite a => finite |a|
  | infinity _ => infinity false
  | nan => nan

/-- Operator `==` of `float`: false when an operand is a NaN. -/
def eq : Float32 → Float32 → Bool
  | finite a, finite b => decide (a = b)
  | infinity s, infinity t => decide (s = t)
  | _, _ => false

/-- The cast `(int)x` of a `float`: truncation toward zero; the cast of an infinity or of a NaN
(undefined in C++) gives 0. -/
def toInt : Float32 → Int
  | finite a => PingPongDelay.toInt a
  | _ => 0

instance : Add Float32 := ⟨add⟩

instance : Sub Float32 := ⟨sub⟩

instance : Mul Float32 := ⟨mul⟩

end Float32

namespace Binary32

/-- The type `StereoSample`, a `pair<float, float>`. -/
structure StereoSample where
  first : Float32
  second : Float32
deriving DecidableEq

/-- The data members of class `PingPongDelayUnit` (without the pointer `timeInfo_`). -/
structure PingPongDelayUnit where
  bufferSize_ : Int
  delayParam_ : Float32
  feedbackParam_ : Float32
  panoramaParam_ : Float32
  wetParam_ : Float32
  syncParam_ : Float32
  asyncDelayMs_ : Int
  syncDelayRatioIndex_ : Int
  feedback_ : Float32
  panoramaParamC_ : Float32
  primaryPanningQuotient_ : Float32
  secondaryPanningQuotient_ : Float32
  wetParamC_ : Float32
  isAsync_ : Bool
  bufferCursor_ : Int
  leftBuffer_ : Int → Float32
  rightBuffer_ : Int → Float32

/-- Constant `minFeedback_` (`0.0f`). -/
def minFeedback_ : Float32 := Float32.finite 0

/-- Constant `maxFeedback_` (`0.8f`). -/
def maxFeedback_ : Float32 := Float32.ofRat (8 / 10)

/-- The assignment `buffer[i] = v`. -/
def writeAt (buffer : Int → Float32) (i : Int) (v : Float32) : Int → Float32 :=
  fun j => if j = i then v else buffer j

/-- Overload `Corresponding(float, int, int)`. -/
def Corresponding (param : Float32) (min max : Int) : Int :=
  if Float32.eq param (Float32.finite 1) then max
  else
    let range : Int := max - min + 1
    Float32.toInt ((param * Float32.ofInt range) + Float32.ofInt min)

/-- Overload `Corresponding(float, float, float)`. -/
def CorrespondingF (param min max : Float32) : Float32 :=
  let range : Float32 := max - min
  (range * param) + min

namespace PingPongDelayUnit

/-- Method `SetDelayParam`. -/
def SetDelayParam (u : PingPongDelayUnit) (delayParam : Float32) : PingPongDelayUnit :=
  { u with
    delayParam_ := delayParam
    asyncDelayMs_ := Corresponding delayParam minAsyncDelayMs_ maxAsyncDelayMs_
    syncDelayRatioIndex_ := Corresponding delayParam 0 (syncDelayRatioCount_ - 1) }

/-- Method `SetFeedbackParam`. -/
def SetFeedbackParam (u : PingPongDelayUnit) (feedbackParam : Float32) : PingPongDelayUnit :=
  { u with
    feedbackParam_ := feedbackParam
    feedback_ := CorrespondingF feedbackParam minFeedback_ maxFeedback_ }

/-- Method `SetPanoramaParam`. -/
def SetPanoramaParam (u : PingPongDelayUnit) (panoramaParam : Float32) : PingPongDelayUnit :=
  let secondary : Float32 := Float32.fabs (Float32.finite (1 / 2) - u.primaryPanningQuotient_)
  { u with
    panoramaParam_ := panoramaParam
    panoramaParamC_ := Float32.ofInt 1 - panoramaParam
    secondaryPanningQuotient_ := secondary
    primaryPanningQuotient_ := Float32.ofInt 1 - secondary }

/-- Method `SetWetParam`. -/
def SetWetParam (u : PingPongDelayUnit) (wetParam : Float32) : PingPongDelayUnit :=
  { u with
    wetParam_ := wetParam
    wetParamC_ := Float32.ofInt 1 - wetParam }

/-- Method `SetSyncParam`. -/
def SetSyncParam (u : PingPongDelayUnit) (syncParam : Float32) : PingPongDelayUnit :=
  { u with
    syncParam_ := syncParam
    isAsync_ := Float32.eq syncParam (Float32.finite 0) }

/-- Method `IsAsync`. -/
def IsAsync (u : PingPongDelayUnit) : Bool := u.isAsync_

/-- Method `IncrementBufferCursor`. -/
def IncrementBufferCursor (u : PingPongDelayUnit) : PingPongDelayUnit :=
  if u.bufferCursor_ ≠ u.bufferSize_ - 1 then
    { u with bufferCursor_ := u.bufferCursor_ + 1 }
  else
    { u with bufferCursor_ := 0 }

/-- Method `BufferModulo`. -/
def BufferModulo (u : PingPongDelayUnit) (cursorIndex : Int) : Int :=
  (cursorIndex.tmod u.bufferSize_ + u.bufferSize_).tmod u.bufferSize_

/-- The local `delaySamples` of `GetSample`: the first block of the method. -/
def delaySamples (u : PingPongDelayUnit) (timeInfo : VstTimeInfo) : Int :=
  if u.IsAsync then
    let msSamples : ℚ := toFloat (toDouble (timeInfo.sampleRate / (msInS_ : ℚ)))
    PingPongDelay.toInt (toFloat (toFloat (u.asyncDelayMs_ : ℚ) * msSamples))
  else
    let beatsPerSec : ℚ := toFloat (toDouble (timeInfo.tempo / (sInMin_ : ℚ)))
    let samplesPerBeat : ℚ := toFloat (toDouble (timeInfo.sampleRate / beatsPerSec))
    PingPongDelay.toInt (toFloat
      (samplesPerBeat * toFloat (tableAt syncDelayRatios_ u.syncDelayRatioIndex_ 0)))

/-- Method `GetSample`: the new object and the returned sample. -/
def GetSample (u : PingPongDelayUnit) (timeInfo : VstTimeInfo) (input : StereoSample) :
    PingPongDelayUnit × StereoSample :=
  let delaySamples : Int := u.delaySamples timeInfo
  let semiDelayedCursor : Int := u.BufferModulo (u.bufferCursor_ - delaySamples)
  let fullDelayedCursor : Int := u.BufferModulo (u.bufferCursor_ - (delaySamples * 2))
  let leftBuffer : Int → Float32 :=
    writeAt u.leftBuffer_ u.bufferCursor_
      ((input.first + u.leftBuffer_ fullDelayedCursor) * u.feedback_)
  let rightBuffer : Int → Float32 :=
    writeAt u.rightBuffer_ u.bufferCursor_
      ((input.second + u.rightBuffer_ fullDelayedCursor) * u.feedback_)
  let left : Float32 := (u.wetParamC_ * input.first) +
    (u.wetParam_ * ((u.panoramaParamC_ *
        (u.primaryPanningQuotient_ * leftBuffer semiDelayedCursor +
          u.secondaryPanningQuotient_ * rightBuffer semiDelayedCursor)) +
      (u.panoramaParam_ *
        (u.secondaryPanningQuotient_ * leftBuffer fullDelayedCursor +
          u.primaryPanningQuotient_ * rightBuffer fullDelayedCursor))))
  let right : Float32 := (u.wetParamC_ * input.second) +
    (u.wetParam_ * ((u.panoramaParam_ *
        (u.primaryPanningQuotient_ * leftBuffer semiDelayedCursor +
          u.secondaryPanningQuotient_ * rightBuffer semiDelayedCursor)) +
      (u.panoramaParamC_ *
        (u.secondaryPanningQuotient_ * leftBuffer fullDelayedCursor +
          u.primaryPanningQuotient_ * rightBuffer fullDelayedCursor))))
  (IncrementBufferCursor { u with leftBuffer_ := leftBuffer, rightBuffer_ := rightBuffer },
    { first := left, second := right })

/-- The constructor.  `memset` zeroes the buffers; before the five setter calls the `float`
members hold whatever the storage of the object held, and `SetPanoramaParam` reads
`primaryPanningQuotient_` before any assignment to it: that content, any binary32 value, is the
argument `primaryGarbage`.  The other members are assigned before they are read. -/
def new (bufferSize : Int) (delayParam feedbackParam panoramaParam wetParam syncParam : Float32)
    (primaryGarbage : Float32) : PingPongDelayUnit :=
  let u : PingPongDelayUnit :=
    { bufferSize_ := bufferSize
      delayParam_ := Float32.finite 0
      feedbackParam_ := Float32.finite 0
      panoramaParam_ := Float32.finite 0
      wetParam_ := Float32.finite 0
      syncParam_ := Float32.finite 0
      asyncDelayMs_ := 0
      syncDelayRatioIndex_ := 0
      feedback_ := Float32.finite 0
      panoramaParamC_ := Float32.finite 0
      primaryPanningQuotient_ := primaryGarbage
      secondaryPanningQuotient_ := Float32.finite 0
      wetParamC_ := Float32.finite 0
      isAsync_ := false
      bufferCursor_ := 0
      leftBuffer_ := fun _ => Float32.finite 0
      rightBuffer_ := fun _ => Float32.finite 0 }
  ((((u.SetDelayParam delayParam).SetFeedbackParam feedbackParam).SetPanoramaParam
    panoramaParam).SetWetParam wetParam).SetSyncParam syncParam

end PingPongDelayUnit

end Binary32

end PingPongDelay

/-! ## Lemmas shared by the theorems -/

namespace PingPongDelay

/-- The exponent of a non-zero rational: `e` when `2 ^ e ≤ |x| < 2 ^ (e + 1)`. -/
theorem log_two_abs_eq (x : ℚ) (e : Int) (hlo : (2 : ℚ) ^ e ≤ |x|)
    (hhi : |x| < (2 : ℚ) ^ (e + 1)) : Int.log 2 |x| = e := by
  have hpos : (0 : ℚ) < |x| := lt_of_lt_of_le (by positivity) hlo
  apply le_antisymm
  · have h := (Int.lt_zpow_iff_log_lt (R := ℚ) (b := 2) (by norm_num) hpos (x := e + 1)).1
      (by simpa using hhi)
    omega
  · exact (Int.zpow_le_iff_le_log (R := ℚ) (b := 2) (by norm_num) hpos).1 (by simpa using hlo)

/-- Evaluation of a rounding: with the exponent `e` of `x` in the normal range, the result is
the multiple of the unit in the last place that `roundHalfEven` selects. -/
theorem roundBinary_eq (precision : Nat) (emin : Int) (x : ℚ) (e n : Int)
    (hlo : (2 : ℚ) ^ e ≤ |x|) (hhi : |x| < (2 : ℚ) ^ (e + 1)) (hemin : emin ≤ e)
    (hn : roundHalfEven (x / (2 : ℚ) ^ (e - ((precision : Int) - 1))) = n) :
    roundBinary precision emin x = (n : ℚ) * (2 : ℚ) ^ (e - ((precision : Int) - 1)) := by
  have hpos : (0 : ℚ) < |x| := lt_of_lt_of_le (by positivity) hlo
  have hx : x ≠ 0 := abs_pos.mp hpos
  unfold roundBinary
  rw [if_neg hx]
  simp only [log_two_abs_eq x e hlo hhi, max_eq_left hemin, hn]

/-- Evaluation of a rounding to `float`. -/
theorem toFloat_eq (x : ℚ) (e n : Int) (hlo : (2 : ℚ) ^ e ≤ |x|)
    (hhi : |x| < (2 : ℚ) ^ (e + 1)) (hemin : -126 ≤ e)
    (hn : roundHalfEven (x / (2 : ℚ) ^ (e - 23)) = n) :
    toFloat x = (n : ℚ) * (2 : ℚ) ^ (e - 23) :=
  roundBinary_eq 24 (-126) x e n hlo hhi hemin hn

/-- Evaluation of a rounding to `double`. -/
theorem toDouble_eq (x : ℚ) (e n : Int) (hlo : (2 : ℚ) ^ e ≤ |x|)
    (hhi : |x| < (2 : ℚ) ^ (e + 1)) (hemin : -1022 ≤ e)
    (hn : roundHalfEven (x / (2 : ℚ) ^ (e - 52)) = n) :
    toDouble x = (n : ℚ) * (2 : ℚ) ^ (e - 52) :=
  roundBinary_eq 53 (-1022) x e n hlo hhi hemin hn

/-- The async delay length for 10 ms at 100 samples per second. -/
theorem asyncDelay_10_100 :
    toInt (toFloat (toFloat (10 : ℚ) * toFloat (toDouble ((100 : ℚ) / 1000)))) = 1 := by
  have h1 : toDouble ((100 : ℚ) / 1000) =
      3602879701896397 / 36028797018963968 := by
    rw [toDouble_eq ((100 : ℚ) / 1000) (-4)
      (7205759403792794)
      (by rw [abs_of_pos (by norm_num)]; norm_num)
      (by rw [abs_of_pos (by norm_num)]; norm_num) (by norm_num) (by norm_num [roundHalfEven])]
    norm_num
  have h2 : toFloat (3602879701896397 / 36028797018963968) =
      13421773 / 134217728 := by
    rw [toFloat_eq (3602879701896397 / 36028797018963968) (-4)
      (13421773)
      (by rw [abs_of_pos (by norm_num)]; norm_num)
      (by rw [abs_of_pos (by norm_num)]; norm_num) (by norm_num) (by norm_num [roundHalfEven])]
    norm_num
  have h3 : toFloat ((10 : ℚ)) =
      10 := by
    rw [toFloat_eq ((10 : ℚ)) (3)
      (10485760)
      (by rw [abs_of_pos (by norm_num)]; norm_num)
      (by rw [abs_of_pos (by norm_num)]; norm_num) (by norm_num) (by norm_num [roundHalfEven])]
    norm_num
  have h4 : toFloat ((10 : ℚ) * (13421773 / 134217728)) =
      1 := by
    rw [toFloat_eq ((10 : ℚ) * (13421773 / 134217728)) (0)
      (8388608)
      (by rw [abs_of_pos (by norm_num)]; norm_num)
      (by rw [abs_of_pos (by norm_num)]; norm_num) (by norm_num) (by norm_num [roundHalfEven])]
    norm_num
  rw [h1, h2, h3, h4]
  norm_num [toInt]

/-- The async delay length for 10 ms at 200 samples per second. -/
theorem asyncDelay_10_200 :
    toInt (toFloat (toFloat (10 : ℚ) * toFloat (toDouble ((200 : ℚ) / 1000)))) = 2 := by
  have h1 : toDouble ((200 : ℚ) / 1000) =
      3602879701896397 / 18014398509481984 := by
    rw [toDouble_eq ((200 : ℚ) / 1000) (-3)
      (7205759403792794)
      (by rw [abs_of_pos (by norm_num)]; norm_num)
      (by rw [abs_of_pos (by norm_num)]; norm_num) (by norm_num) (by norm_num [roundHalfEven])]
    norm_num
  have h2 : toFloat (3602879701896397 / 18014398509481984) =
      13421773 / 67108864 := by
    rw [toFloat_eq (3602879701896397 / 18014398509481984) (-3)
      (13421773)
      (by rw [abs_of_pos (by norm_num)]; norm_num)
      (by rw [abs_of_pos (by norm_num)]; norm_num) (by norm_num) (by norm_num [roundHalfEven])]
    norm_num
  have h3 : toFloat ((10 : ℚ)) =
      10 := by
    rw [toFloat_eq ((10 : ℚ)) (3)
      (10485760)
      (by rw [abs_of_pos (by norm_num)]; norm_num)
      (by rw [abs_of_pos (by norm_num)]; norm_num) (by norm_num) (by norm_num [roundHalfEven])]
    norm_num
  have h4 : toFloat ((10 : ℚ) * (13421773 / 67108864)) =
      2 := by
    rw [toFloat_eq ((10 : ℚ) * (13421773 / 67108864)) (1)
      (8388608)
      (by rw [abs_of_pos (by norm_num)]; norm_num)
      (by rw [abs_of_pos (by norm_num)]; norm_num) (by norm_num) (by norm_num [roundHalfEven])]
    norm_num
  rw [h1, h2, h3, h4]
  norm_num [toInt]

/-- The async delay length for 10 ms at 400 samples per second. -/
theorem asyncDelay_10_400 :
    toInt (toFloat (toFloat (10 : ℚ) * toFloat (toDouble ((400 : ℚ) / 1000)))) = 4 := by
  have h1 : toDouble ((400 : ℚ) / 1000) =
      3602879701896397 / 9007199254740992 := by
    rw [toDouble_eq ((400 : ℚ) / 1000) (-2)
      (7205759403792794)
      (by rw [abs_of_pos (by norm_num)]; norm_num)
      (by rw [abs_of_pos (by norm_num)]; norm_num) (by norm_num) (by norm_num [roundHalfEven])]
    norm_num
  have h2 : toFloat (3602879701896397 / 9007199254740992) =
      13421773 / 33554432 := by
    rw [toFloat_eq (3602879701896397 / 9007199254740992) (-2)
      (13421773)
      (by rw [abs_of_pos (by norm_num)]; norm_num)
      (by rw [abs_of_pos (by norm_num)]; norm_num) (by norm_num) (by norm_num [roundHalfEven])]
    norm_num
  have h3 : toFloat ((10 : ℚ)) =
      10 := by
    rw [toFloat_eq ((10 : ℚ)) (3)
      (10485760)
      (by rw [abs_of_pos (by norm_num)]; norm_num)
      (by rw [abs_of_pos (by norm_num)]; norm_num) (by norm_num) (by norm_num [roundHalfEven])]
    norm_num
  have h4 : toFloat ((10 : ℚ) * (13421773 / 33554432)) =
      4 := by
    rw [toFloat_eq ((10 : ℚ) * (13421773 / 33554432)) (2)
      (8388608)
      (by rw [abs_of_pos (by norm_num)]; norm_num)
      (by rw [abs_of_pos (by norm_num)]; norm_num) (by norm_num) (by norm_num [roundHalfEven])]
    norm_num
  rw [h1, h2, h3, h4]
  norm_num [toInt]

/-- The async delay length for 10 ms at 44100 samples per second. -/
theorem asyncDelay_10_44100 :
    toInt (toFloat (toFloat (10 : ℚ) * toFloat (toDouble ((44100 : ℚ) / 1000)))) = 441 := by
  have h1 : toDouble ((44100 : ℚ) / 1000) =
      6206523236469965 / 140737488355328 := by
    rw [toDouble_eq ((44100 : ℚ) / 1000) (5)
      (6206523236469965)
      (by rw [abs_of_pos (by norm_num)]; norm_num)
      (by rw [abs_of_pos (by norm_num)]; norm_num) (by norm_num) (by norm_num [roundHalfEven])]
    norm_num
  have h2 : toFloat (6206523236469965 / 140737488355328) =
      5780275 / 131072 := by
    rw [toFloat_eq (6206523236469965 / 140737488355328) (5)
      (11560550)
      (by rw [abs_of_pos (by norm_num)]; norm_num)
      (by rw [abs_of_pos (by norm_num)]; norm_num) (by norm_num) (by norm_num [roundHalfEven])]
    norm_num
  have h3 : toFloat ((10 : ℚ)) =
      10 := by
    rw [toFloat_eq ((10 : ℚ)) (3)
      (10485760)
      (by rw [abs_of_pos (by norm_num)]; norm_num)
      (by rw [abs_of_pos (by norm_num)]; norm_num) (by norm_num) (by norm_num [roundHalfEven])]
    norm_num
  have h4 : toFloat ((10 : ℚ) * (5780275 / 131072)) =
      441 := by
    rw [toFloat_eq ((10 : ℚ) * (5780275 / 131072)) (8)
      (14450688)
      (by rw [abs_of_pos (by norm_num)]; norm_num)
      (by rw [abs_of_pos (by norm_num)]; norm_num) (by norm_num) (by norm_num [roundHalfEven])]
    norm_num
  rw [h1, h2, h3, h4]
  norm_num [toInt]

/-- The async delay length for 90 ms at 44100 samples per second. -/
theorem asyncDelay_90_44100 :
    toInt (toFloat (toFloat (90 : ℚ) * toFloat (toDouble ((44100 : ℚ) / 1000)))) = 3968 := by
  have h1 : toDouble ((44100 : ℚ) / 1000) =
      6206523236469965 / 140737488355328 := by
    rw [toDouble_eq ((44100 : ℚ) / 1000) (5)
      (6206523236469965)
      (by rw [abs_of_pos (by norm_num)]; norm_num)
      (by rw [abs_of_pos (by norm_num)]; norm_num) (by norm_num) (by norm_num [roundHalfEven])]
    norm_num
  have h2 : toFloat (6206523236469965 / 140737488355328) =
      5780275 / 131072 := by
    rw [toFloat_eq (6206523236469965 / 140737488355328) (5)
      (11560550)
      (by rw [abs_of_pos (by norm_num)]; norm_num)
      (by rw [abs_of_pos (by norm_num)]; norm_num) (by norm_num) (by norm_num [roundHalfEven])]
    norm_num
  have h3 : toFloat ((90 : ℚ)) =
      90 := by
    rw [toFloat_eq ((90 : ℚ)) (6)
      (11796480)
      (by rw [abs_of_pos (by norm_num)]; norm_num)
      (by rw [abs_of_pos (by norm_num)]; norm_num) (by norm_num) (by norm_num [roundHalfEven])]
    norm_num
  have h4 : toFloat ((90 : ℚ) * (5780275 / 131072)) =
      16257023 / 4096 := by
    rw [toFloat_eq ((90 : ℚ) * (5780275 / 131072)) (11)
      (16257023)
      (by rw [abs_of_pos (by norm_num)]; norm_num)
      (by rw [abs_of_pos (by norm_num)]; norm_num) (by norm_num) (by norm_num [roundHalfEven])]
    norm_num
  rw [h1, h2, h3, h4]
  norm_num [toInt]

/-- The synced delay length at tempo 120, 44100 samples per second and ratio 1. -/
theorem syncDelay_120_44100 :
    toInt (toFloat (toFloat (toDouble ((44100 : ℚ) / toFloat (toDouble ((120 : ℚ) / 60)))) *
      toFloat (1 : ℚ))) = 22050 := by
  have h1 : toDouble ((120 : ℚ) / 60) =
      2 := by
    rw [toDouble_eq ((120 : ℚ) / 60) (1)
      (4503599627370496)
      (by rw [abs_of_pos (by norm_num)]; norm_num)
      (by rw [abs_of_pos (by norm_num)]; norm_num) (by norm_num) (by norm_num [roundHalfEven])]
    norm_num
  have h2 : toFloat (2) =
      2 := by
    rw [toFloat_eq (2) (1)
      (8388608)
      (by rw [abs_of_pos (by norm_num)]; norm_num)
      (by rw [abs_of_pos (by norm_num)]; norm_num) (by norm_num) (by norm_num [roundHalfEven])]
    norm_num
  have h3 : toDouble ((44100 : ℚ) / (2)) =
      22050 := by
    rw [toDouble_eq ((44100 : ℚ) / (2)) (14)
      (6061057848115200)
      (by rw [abs_of_pos (by norm_num)]; norm_num)
      (by rw [abs_of_pos (by norm_num)]; norm_num) (by norm_num) (by norm_num [roundHalfEven])]
    norm_num
  have h4 : toFloat (22050) =
      22050 := by
    rw [toFloat_eq (22050) (14)
      (11289600)
      (by rw [abs_of_pos (by norm_num)]; norm_num)
      (by rw [abs_of_pos (by norm_num)]; norm_num) (by norm_num) (by norm_num [roundHalfEven])]
    norm_num
  have h5 : toFloat ((1 : ℚ)) =
      1 := by
    rw [toFloat_eq ((1 : ℚ)) (0)
      (8388608)
      (by rw [abs_of_pos (by norm_num)]; norm_num)
      (by rw [abs_of_pos (by norm_num)]; norm_num) (by norm_num) (by norm_num [roundHalfEven])]
    norm_num
  have h6 : toFloat ((22050 : ℚ) * (1)) =
      22050 := by
    rw [toFloat_eq ((22050 : ℚ) * (1)) (14)
      (11289600)
      (by rw [abs_of_pos (by norm_num)]; norm_num)
      (by rw [abs_of_pos (by norm_num)]; norm_num) (by norm_num) (by norm_num [roundHalfEven])]
    norm_num
  rw [h1, h2, h3, h4, h5, h6]
  norm_num [toInt]

/-- The synced delay length at tempo 128, 48000 samples per second and ratio 1. -/
theorem syncDelay_128_48000 :
    toInt (toFloat (toFloat (toDouble ((48000 : ℚ) / toFloat (toDouble ((128 : ℚ) / 60)))) *
      toFloat (1 : ℚ))) = 22499 := by
  have h1 : toDouble ((128 : ℚ) / 60) =
      4803839602528529 / 2251799813685248 := by
    rw [toDouble_eq ((128 : ℚ) / 60) (1)
      (4803839602528529)
      (by rw [abs_of_pos (by norm_num)]; norm_num)
      (by rw [abs_of_pos (by norm_num)]; norm_num) (by norm_num) (by norm_num [roundHalfEven])]
    norm_num
  have h2 : toFloat (4803839602528529 / 2251799813685248) =
      8947849 / 4194304 := by
    rw [toFloat_eq (4803839602528529 / 2251799813685248) (1)
      (8947849)
      (by rw [abs_of_pos (by norm_num)]; norm_num)
      (by rw [abs_of_pos (by norm_num)]; norm_num) (by norm_num) (by norm_num [roundHalfEven])]
    norm_num
  have h3 : toDouble ((48000 : ℚ) / (8947849 / 4194304)) =
      6184752583680017 / 274877906944 := by
    rw [toDouble_eq ((48000 : ℚ) / (8947849 / 4194304)) (14)
      (6184752583680017)
      (by rw [abs_of_pos (by norm_num)]; norm_num)
      (by rw [abs_of_pos (by norm_num)]; norm_num) (by norm_num) (by norm_num [roundHalfEven])]
    norm_num
  have h4 : toFloat (6184752583680017 / 274877906944) =
      11519999 / 512 := by
    rw [toFloat_eq (6184752583680017 / 274877906944) (14)
      (11519999)
      (by rw [abs_of_pos (by norm_num)]; norm_num)
      (by rw [abs_of_pos (by norm_num)]; norm_num) (by norm_num) (by norm_num [roundHalfEven])]
    norm_num
  have h5 : toFloat ((1 : ℚ)) =
      1 := by
    rw [toFloat_eq ((1 : ℚ)) (0)
      (8388608)
      (by rw [abs_of_pos (by norm_num)]; norm_num)
      (by rw [abs_of_pos (by norm_num)]; norm_num) (by norm_num) (by norm_num [roundHalfEven])]
    norm_num
  have h6 : toFloat ((11519999 / 512 : ℚ) * (1)) =
      11519999 / 512 := by
    rw [toFloat_eq ((11519999 / 512 : ℚ) * (1)) (14)
      (11519999)
      (by rw [abs_of_pos (by norm_num)]; norm_num)
      (by rw [abs_of_pos (by norm_num)]; norm_num) (by norm_num) (by norm_num [roundHalfEven])]
    norm_num
  rw [h1, h2, h3, h4, h5, h6]
  norm_num [toInt]

/-- The nearest integer is within one half. -/
theorem roundHalfEven_sub_le (x : ℚ) : |((roundHalfEven x : Int) : ℚ) - x| ≤ 1 / 2 := by
  have h1 : ((⌊x⌋ : Int) : ℚ) ≤ x := Int.floor_le x
  have h2 : x < ((⌊x⌋ : Int) : ℚ) + 1 := Int.lt_floor_add_one x
  unfold roundHalfEven
  rw [abs_le]
  split_ifs with ha hb hc
  · constructor <;> linarith
  · push_cast; constructor <;> linarith
  · constructor <;> linarith
  · push_cast; constructor <;> linarith

/-- The relative error of a rounding in the normal range is at most `2 ^ (-precision)`. -/
theorem roundBinary_sub_le (precision : Nat) (emin : Int) (x : ℚ)
    (hx : x = 0 ∨ (2 : ℚ) ^ emin ≤ |x|) :
    |roundBinary precision emin x - x| ≤ |x| * (2 : ℚ) ^ (-(precision : Int)) := by
  rcases eq_or_ne x 0 with h0 | h0
  · subst h0
    simp [roundBinary]
  · have hlo : (2 : ℚ) ^ emin ≤ |x| := by
      rcases hx with h | h
      · exact absurd h h0
      · exact h
    have hpos : (0 : ℚ) < |x| := abs_pos.mpr h0
    have he : emin ≤ Int.log 2 |x| :=
      (Int.zpow_le_iff_le_log (R := ℚ) (b := 2) (by norm_num) hpos).1 (by simpa using hlo)
    have hle : (2 : ℚ) ^ Int.log 2 |x| ≤ |x| := by
      simpa using Int.zpow_log_le_self (R := ℚ) (b := 2) (by norm_num) hpos
    unfold roundBinary
    rw [if_neg h0]
    simp only [max_eq_left he]
    have hu : (0 : ℚ) < (2 : ℚ) ^ (Int.log 2 |x| - ((precision : Int) - 1)) := by positivity
    have hsplit : (2 : ℚ) ^ (Int.log 2 |x| - ((precision : Int) - 1)) =
        2 * ((2 : ℚ) ^ Int.log 2 |x| * (2 : ℚ) ^ (-(precision : Int))) := by
      rw [show Int.log 2 |x| - ((precision : Int) - 1) =
        1 + (Int.log 2 |x| + -(precision : Int)) by ring,
        zpow_add₀ (two_ne_zero), zpow_add₀ (two_ne_zero), zpow_one]
    have hr := roundHalfEven_sub_le (x / (2 : ℚ) ^ (Int.log 2 |x| - ((precision : Int) - 1)))
    have hfac : ((roundHalfEven (x / (2 : ℚ) ^ (Int.log 2 |x| - ((precision : Int) - 1))) : Int)
          : ℚ) * (2 : ℚ) ^ (Int.log 2 |x| - ((precision : Int) - 1)) - x =
        (((roundHalfEven (x / (2 : ℚ) ^ (Int.log 2 |x| - ((precision : Int) - 1))) : Int) : ℚ) -
          x / (2 : ℚ) ^ (Int.log 2 |x| - ((precision : Int) - 1))) *
          (2 : ℚ) ^ (Int.log 2 |x| - ((precision : Int) - 1)) := by
      field_simp
    rw [hfac, abs_mul, abs_of_pos hu]
    have hp : (0 : ℚ) < (2 : ℚ) ^ (-(precision : Int)) := by positivity
    calc |((roundHalfEven (x / (2 : ℚ) ^ (Int.log 2 |x| - ((precision : Int) - 1))) : Int) : ℚ) -
            x / (2 : ℚ) ^ (Int.log 2 |x| - ((precision : Int) - 1))| *
          (2 : ℚ) ^ (Int.log 2 |x| - ((precision : Int) - 1))
        ≤ 1 / 2 * (2 : ℚ) ^ (Int.log 2 |x| - ((precision : Int) - 1)) :=
          mul_le_mul_of_nonneg_right hr (le_of_lt hu)
      _ = (2 : ℚ) ^ Int.log 2 |x| * (2 : ℚ) ^ (-(precision : Int)) := by rw [hsplit]; ring
      _ ≤ |x| * (2 : ℚ) ^ (-(precision : Int)) := mul_le_mul_of_nonneg_right hle (le_of_lt hp)

/-- Truncation moves by at most one when the argument moves by less than one. -/
theorem toInt_sub_le (a b : ℚ) (h : |a - b| < 1) : |toInt a - toInt b| ≤ 1 := by
  rw [abs_lt] at h
  obtain ⟨h1, h2⟩ := h
  have fa1 := Int.floor_le a
  have fa2 := Int.lt_floor_add_one a
  have fb1 := Int.floor_le b
  have fb2 := Int.lt_floor_add_one b
  have ca1 := Int.le_ceil a
  have ca2 := Int.ceil_lt_add_one a
  have cb1 := Int.le_ceil b
  have cb2 := Int.ceil_lt_add_one b
  rw [abs_le]
  unfold toInt
  split_ifs with ha hb hb
  · constructor
    · have : ((⌊b⌋ : Int) : ℚ) < ((⌊a⌋ : Int) : ℚ) + 2 := by linarith
      have : ⌊b⌋ < ⌊a⌋ + 2 := by exact_mod_cast this
      omega
    · have : ((⌊a⌋ : Int) : ℚ) < ((⌊b⌋ : Int) : ℚ) + 2 := by linarith
      have : ⌊a⌋ < ⌊b⌋ + 2 := by exact_mod_cast this
      omega
  · push_neg at hb
    have hb0 : ⌈b⌉ ≤ 0 := Int.ceil_le.mpr (by exact_mod_cast le_of_lt hb)
    have hbm : (-1 : ℚ) < b := by linarith
    have hb1 : -1 < ⌈b⌉ := by
      have : ((-1 : Int) : ℚ) < ((⌈b⌉ : Int) : ℚ) := by push_cast; linarith
      exact_mod_cast this
    have ha0 : 0 ≤ ⌊a⌋ := Int.floor_nonneg.mpr ha
    have ha1 : ⌊a⌋ < 1 := by
      have : ((⌊a⌋ : Int) : ℚ) < ((1 : Int) : ℚ) := by push_cast; linarith
      exact_mod_cast this
    constructor <;> omega
  · push_neg at ha
    have ha0 : ⌈a⌉ ≤ 0 := Int.ceil_le.mpr (by exact_mod_cast le_of_lt ha)
    have ham : (-1 : ℚ) < a := by linarith
    have ha1 : -1 < ⌈a⌉ := by
      have : ((-1 : Int) : ℚ) < ((⌈a⌉ : Int) : ℚ) := by push_cast; linarith
      exact_mod_cast this
    have hb0 : 0 ≤ ⌊b⌋ := Int.floor_nonneg.mpr hb
    have hb1 : ⌊b⌋ < 1 := by
      have : ((⌊b⌋ : Int) : ℚ) < ((1 : Int) : ℚ) := by push_cast; linarith
      exact_mod_cast this
    constructor <;> omega
  · constructor
    · have : ((⌈b⌉ : Int) : ℚ) < ((⌈a⌉ : Int) : ℚ) + 2 := by linarith
      have : ⌈b⌉ < ⌈a⌉ + 2 := by exact_mod_cast this
      omega
    · have : ((⌈a⌉ : Int) : ℚ) < ((⌈b⌉ : Int) : ℚ) + 2 := by linarith
      have : ⌈a⌉ < ⌈b⌉ + 2 := by exact_mod_cast this
      omega


/-- The error of a product of two approximations. -/
theorem abs_mul_sub_mul_le (x y x0 y0 dx dy X Y : ℚ) (hx : |x - x0| ≤ dx)
    (hy : |y - y0| ≤ dy) (hX : |x0| ≤ X) (hY : |y| ≤ Y) :
    |x * y - x0 * y0| ≤ dx * Y + X * dy := by
  have h : x * y - x0 * y0 = (x - x0) * y + x0 * (y - y0) := by ring
  rw [h]
  calc |(x - x0) * y + x0 * (y - y0)| ≤ |(x - x0) * y| + |x0 * (y - y0)| := abs_add _ _
    _ = |x - x0| * |y| + |x0| * |y - y0| := by rw [abs_mul, abs_mul]
    _ ≤ dx * Y + X * dy :=
      add_le_add (mul_le_mul hx hY (abs_nonneg _) (le_trans (abs_nonneg _) hx))
        (mul_le_mul hX hy (abs_nonneg _) (le_trans (abs_nonneg _) hX))

/-- Rounding to `float`, for a value that is zero or of magnitude at least `2 ^ (-126)`: the
error is at most `|x| / 2 ^ 24`. -/
theorem toFloat_sub_le (x : ℚ) (hx : x = 0 ∨ (1 : ℚ) / 2 ^ 126 ≤ |x|) :
    |toFloat x - x| ≤ |x| / 16777216 := by
  have h := roundBinary_sub_le 24 (-126) x (by
    rcases hx with h | h
    · exact Or.inl h
    · right
      have e2 : (2 : ℚ) ^ (-126 : Int) = 1 / 2 ^ 126 := by norm_num
      rw [e2]
      exact h)
  have e : (2 : ℚ) ^ (-((24 : Nat) : Int)) = 1 / 16777216 := by norm_num
  rw [e] at h
  rw [div_eq_mul_one_div]
  exact h

/-- Rounding to `double`, for a value of magnitude at least `2 ^ (-1022)` (or zero): the error
is at most `|x| / 2 ^ 53`. -/
theorem toDouble_sub_le (x : ℚ) (hx : x = 0 ∨ (1 : ℚ) / 2 ^ 1022 ≤ |x|) :
    |toDouble x - x| ≤ |x| / 9007199254740992 := by
  have h := roundBinary_sub_le 53 (-1022) x (by
    rcases hx with h | h
    · exact Or.inl h
    · right
      have e2 : (2 : ℚ) ^ (-1022 : Int) = 1 / 2 ^ 1022 := by norm_num
      rw [e2]
      exact h)
  have e : (2 : ℚ) ^ (-((53 : Nat) : Int)) = 1 / 9007199254740992 := by norm_num
  rw [e] at h
  rw [div_eq_mul_one_div]
  exact h

/-- For a delay of 0 to 2000 ms and a sample rate of 1 to 1000000 samples per second, the
async delay length computed in single precision is within one sample of
`ms * (sampleRate / 1000)` truncated. -/
theorem asyncDelay_near (ms : Int) (sr : ℚ) (hms0 : 0 ≤ ms) (hms1 : ms ≤ 2000)
    (hsr0 : 1 ≤ sr) (hsr1 : sr ≤ 1000000) :
    |toInt (toFloat (toFloat (ms : ℚ) * toFloat (toDouble (sr / 1000)))) -
      toInt ((ms : ℚ) * (sr / 1000))| ≤ 1 := by
  apply toInt_sub_le
  have ha0 : (1 : ℚ) / 1000 ≤ sr / 1000 := by
    apply div_le_div_of_nonneg_right hsr0 (by norm_num)
  have ha1 : sr / 1000 ≤ 1000 := by
    rw [div_le_iff₀ (by norm_num)]; linarith
  generalize sr / 1000 = a at ha0 ha1 ⊢
  have hapos : 0 < a := by linarith
  have haabs : |a| = a := abs_of_pos hapos
  -- the quotient, rounded to double
  have hd := toDouble_sub_le a (Or.inr (by
    rw [haabs]
    refine le_trans ?_ ha0
    rw [div_le_div_iff₀ (by positivity) (by norm_num)]
    calc (1 : ℚ) * 1000 ≤ 2 ^ 10 := by norm_num
      _ ≤ 1 * 2 ^ 1022 := by
        rw [one_mul]
        exact pow_le_pow_right₀ (by norm_num) (by norm_num)))
  rw [haabs, abs_le] at hd
  generalize toDouble a = ad at hd ⊢
  have had0 : (1 : ℚ) / 2000 ≤ ad := by linarith [hd.1]
  have had1 : ad ≤ 1001 := by linarith [hd.2]
  have hadabs : |ad| = ad := abs_of_pos (by linarith)
  -- narrowed to float
  have hf := toFloat_sub_le ad (Or.inr (by
    rw [hadabs]
    refine le_trans ?_ had0
    rw [div_le_div_iff₀ (by positivity) (by norm_num)]
    calc (1 : ℚ) * 2000 ≤ 2 ^ 11 := by norm_num
      _ ≤ 1 * 2 ^ 126 := by
        rw [one_mul]
        exact pow_le_pow_right₀ (by norm_num) (by norm_num)))
  rw [hadabs, abs_le] at hf
  generalize toFloat ad = m at hf ⊢
  have hm0 : (1 : ℚ) / 4000 ≤ m := by linarith [hf.1]
  have hm1 : m ≤ 1002 := by linarith [hf.2]
  have hmabs : |m| ≤ 1002 := by rw [abs_le]; constructor <;> linarith
  have hma : |m - a| ≤ 1 / 16000 := by
    rw [abs_le]; constructor <;> linarith [hf.1, hf.2, hd.1, hd.2]
  -- the delay in ms, converted to float
  have hM0 : (0 : ℚ) ≤ (ms : ℚ) := by exact_mod_cast hms0
  have hM1 : (ms : ℚ) ≤ 2000 := by exact_mod_cast hms1
  have hMabs : |(ms : ℚ)| = (ms : ℚ) := abs_of_nonneg hM0
  have hMcase : (ms : ℚ) = 0 ∨ (1 : ℚ) ≤ (ms : ℚ) := by
    rcases eq_or_lt_of_le hms0 with h | h
    · left; rw [← h]; simp
    · right; exact_mod_cast h
  have hc := toFloat_sub_le (ms : ℚ) (by
    rcases hMcase with h | h
    · exact Or.inl h
    · right
      rw [hMabs]
      refine le_trans ?_ h
      rw [div_le_one (by positivity)]
      exact one_le_pow₀ (by norm_num))
  rw [hMabs, abs_le] at hc
  have hmf0 : toFloat (ms : ℚ) = 0 ∨ (1 : ℚ) / 2 ≤ toFloat (ms : ℚ) := by
    rcases hMcase with h | h
    · left
      rw [h] at hc ⊢
      linarith [hc.1, hc.2]
    · right; linarith [hc.1]
  generalize toFloat (ms : ℚ) = mf at hc hmf0 ⊢
  have hmf1 : mf ≤ 2001 := by linarith [hc.2]
  have hmfn : 0 ≤ mf := by
    rcases hmf0 with h | h <;> linarith
  have hmfM : |mf - (ms : ℚ)| ≤ 1 / 8000 := by
    rw [abs_le]; constructor <;> linarith [hc.1, hc.2]
  -- the product, rounded to float
  have hPn : 0 ≤ mf * m := mul_nonneg hmfn (by linarith)
  have hP1 : mf * m ≤ 2001 * 1002 := mul_le_mul hmf1 hm1 (by linarith) (by norm_num)
  have hPabs : |mf * m| = mf * m := abs_of_nonneg hPn
  have hp := toFloat_sub_le (mf * m) (by
    rcases hmf0 with h | h
    · left; rw [h, zero_mul]
    · right
      rw [hPabs]
      have h8 : (1 : ℚ) / 8000 ≤ mf * m := by
        calc (1 : ℚ) / 8000 = 1 / 2 * (1 / 4000) := by norm_num
          _ ≤ mf * m := mul_le_mul h hm0 (by norm_num) hmfn
      refine le_trans ?_ h8
      rw [div_le_div_iff₀ (by positivity) (by norm_num)]
      calc (1 : ℚ) * 8000 ≤ 2 ^ 13 := by norm_num
        _ ≤ 1 * 2 ^ 126 := by
          rw [one_mul]
          exact pow_le_pow_right₀ (by norm_num) (by norm_num))
  rw [hPabs] at hp
  have hprod := abs_mul_sub_mul_le mf m (ms : ℚ) a (1 / 8000) (1 / 16000) 2000 1002 hmfM hma
    (by rw [hMabs]; exact hM1) hmabs
  have htri : |toFloat (mf * m) - (ms : ℚ) * a| ≤
      |toFloat (mf * m) - mf * m| + |mf * m - (ms : ℚ) * a| := abs_sub_le _ _ _
  have hpb : |toFloat (mf * m) - mf * m| ≤ 2001 * 1002 / 16777216 :=
    le_trans hp (div_le_div_of_nonneg_right hP1 (by norm_num))
  calc |toFloat (mf * m) - (ms : ℚ) * a|
      ≤ 2001 * 1002 / 16777216 + (1 / 8000 * 1002 + 2000 * (1 / 16000)) :=
        le_trans htri (add_le_add hpb hprod)
    _ < 1 := by norm_num


/-- For a tempo of 20 to 1000 beats per minute, a sample rate of 1 to 200000 samples per second
and a ratio of 1/4 to 2, the synced delay length computed in single precision is within one
sample of `(sampleRate / (tempo / 60)) * ratio` truncated. -/
theorem syncDelay_near (tempo sr r : ℚ) (ht0 : 20 ≤ tempo) (ht1 : tempo ≤ 1000)
    (hs0 : 1 ≤ sr) (hs1 : sr ≤ 200000) (hr0 : 1 / 4 ≤ r) (hr1 : r ≤ 2) :
    |toInt (toFloat (toFloat (toDouble (sr / toFloat (toDouble (tempo / 60)))) * toFloat r)) -
      toInt ((sr / (tempo / 60)) * r)| ≤ 1 := by
  apply toInt_sub_le
  have hsmall : ∀ c : ℚ, (1 : ℚ) / 1024 ≤ c → (1 : ℚ) / 2 ^ 126 ≤ c ∧ (1 : ℚ) / 2 ^ 1022 ≤ c := by
    intro c hc
    have h1 : (1 : ℚ) / 2 ^ 126 ≤ 1 / 1024 := by
      rw [div_le_div_iff₀ (by positivity) (by norm_num)]
      calc (1 : ℚ) * 1024 = 2 ^ 10 := by norm_num
        _ ≤ 1 * 2 ^ 126 := by
          rw [one_mul]
          exact pow_le_pow_right₀ (by norm_num) (by norm_num)
    have h2 : (1 : ℚ) / 2 ^ 1022 ≤ 1 / 1024 := by
      rw [div_le_div_iff₀ (by positivity) (by norm_num)]
      calc (1 : ℚ) * 1024 = 2 ^ 10 := by norm_num
        _ ≤ 1 * 2 ^ 1022 := by
          rw [one_mul]
          exact pow_le_pow_right₀ (by norm_num) (by norm_num)
    exact ⟨le_trans h1 hc, le_trans h2 hc⟩
  -- the beats per second
  have hta : (1 : ℚ) / 3 ≤ tempo / 60 := by
    rw [le_div_iff₀ (by norm_num)]; linarith
  have htb : tempo / 60 ≤ 50 / 3 := by
    rw [div_le_iff₀ (by norm_num)]; linarith
  generalize tempo / 60 = t at hta htb ⊢
  have htpos : 0 < t := by linarith
  have htabs : |t| = t := abs_of_pos htpos
  have hd := toDouble_sub_le t (Or.inr (by rw [htabs]; exact (hsmall t (by linarith)).2))
  rw [htabs, abs_le] at hd
  generalize toDouble t = td at hd ⊢
  have htdpos : 0 < td := by linarith [hd.1]
  have htdabs : |td| = td := abs_of_pos htdpos
  have hf := toFloat_sub_le td (Or.inr (by
    rw [htdabs]; exact (hsmall td (by linarith [hd.1])).1))
  rw [htdabs, abs_le] at hf
  generalize toFloat td = b at hf ⊢
  have hb0 : (1 - 1 / 8000000) * t ≤ b := by linarith [hd.1, hf.1]
  have hb1 : b ≤ (1 + 1 / 8000000) * t := by linarith [hd.2, hf.2]
  have hbpos : 0 < b := by linarith
  -- the samples per beat
  have hq0a : (3 : ℚ) / 50 ≤ sr / t := by
    rw [le_div_iff₀ htpos]; linarith
  have hq0b : sr / t ≤ 600000 := by
    rw [div_le_iff₀ htpos]; linarith
  have hq0t : sr / t * t = sr := div_mul_cancel₀ sr (ne_of_gt htpos)
  generalize sr / t = q0 at hq0a hq0b hq0t ⊢
  have hq0n : 0 ≤ q0 := by linarith
  have hqa : q0 * (1 - 1 / 8000000) ≤ sr / b := by
    rw [le_div_iff₀ hbpos, ← hq0t, mul_assoc]
    apply mul_le_mul_of_nonneg_left _ hq0n
    linarith
  have hqb : sr / b ≤ q0 * (1 + 2 / 8000000) := by
    rw [div_le_iff₀ hbpos, ← hq0t, mul_assoc]
    apply mul_le_mul_of_nonneg_left _ hq0n
    linarith
  generalize sr / b = q at hqa hqb ⊢
  have hqlo : (1 : ℚ) / 20 ≤ q := by linarith
  have hqhi : q ≤ 600001 := by linarith
  have hqabs : |q| = q := abs_of_pos (by linarith)
  have hqd := toDouble_sub_le q (Or.inr (by rw [hqabs]; exact (hsmall q (by linarith)).2))
  rw [hqabs, abs_le] at hqd
  generalize toDouble q = qd at hqd ⊢
  have hqdabs : |qd| = qd := abs_of_pos (by linarith [hqd.1])
  have hsf := toFloat_sub_le qd (Or.inr (by
    rw [hqdabs]; exact (hsmall qd (by linarith [hqd.1])).1))
  rw [hqdabs, abs_le] at hsf
  generalize toFloat qd = s at hsf ⊢
  have hs0' : (1 : ℚ) / 25 ≤ s := by linarith [hqd.1, hsf.1]
  have hsq : |s - q0| ≤ 23 / 100 := by
    rw [abs_le]; constructor <;> linarith [hqd.1, hqd.2, hsf.1, hsf.2]
  -- the ratio
  have hrabs : |r| = r := abs_of_pos (by linarith)
  have hrf := toFloat_sub_le r (Or.inr (by rw [hrabs]; exact (hsmall r (by linarith)).1))
  rw [hrabs, abs_le] at hrf
  generalize toFloat r = rf at hrf ⊢
  have hrf0 : (1 : ℚ) / 5 ≤ rf := by linarith [hrf.1]
  have hrf1 : rf ≤ 2001 / 1000 := by linarith [hrf.2]
  have hrfabs : |rf| ≤ 2001 / 1000 := by rw [abs_le]; constructor <;> linarith
  have hrfr : |rf - r| ≤ 1 / 8000000 := by
    rw [abs_le]; constructor <;> linarith [hrf.1, hrf.2]
  -- the product
  have hsn : 0 ≤ s := by linarith
  have hs1' : s ≤ 600002 := by
    have := (abs_le.mp hsq).2
    linarith
  have hPlo : (1 : ℚ) / 125 ≤ s * rf := by
    calc (1 : ℚ) / 125 = 1 / 25 * (1 / 5) := by norm_num
      _ ≤ s * rf := mul_le_mul hs0' hrf0 (by norm_num) hsn
  have hPhi : s * rf ≤ 600002 * (2001 / 1000) := mul_le_mul hs1' hrf1 (by linarith) (by norm_num)
  have hPabs : |s * rf| = s * rf := abs_of_pos (by linarith)
  have hp := toFloat_sub_le (s * rf) (Or.inr (by
    rw [hPabs]; exact (hsmall (s * rf) (by linarith)).1))
  rw [hPabs] at hp
  have hprod := abs_mul_sub_mul_le s rf q0 r (23 / 100) (1 / 8000000) 600000 (2001 / 1000)
    hsq hrfr (by rw [abs_of_nonneg hq0n]; exact hq0b) hrfabs
  have htri : |toFloat (s * rf) - q0 * r| ≤
      |toFloat (s * rf) - s * rf| + |s * rf - q0 * r| := abs_sub_le _ _ _
  have hpb : |toFloat (s * rf) - s * rf| ≤ 600002 * (2001 / 1000) / 16777216 :=
    le_trans hp (div_le_div_of_nonneg_right hPhi (by norm_num))
  calc |toFloat (s * rf) - q0 * r|
      ≤ 600002 * (2001 / 1000) / 16777216 +
          (23 / 100 * (2001 / 1000) + 600000 * (1 / 8000000)) :=
        le_trans htri (add_le_add hpb hprod)
    _ < 1 := by norm_num

namespace PingPongDelayUnit

/-- The delay length in async mode. -/
theorem delaySamples_of_isAsync (u : PingPongDelayUnit) (ti : VstTimeInfo)
    (ha : u.isAsync_ = true) :
    u.delaySamples ti =
      toInt (toFloat (toFloat (u.asyncDelayMs_ : ℚ) * toFloat (toDouble (ti.sampleRate / 1000)))) := by
  simp [delaySamples, IsAsync, ha, msInS_]

/-- The delay length in synced mode. -/
theorem delaySamples_of_not_isAsync (u : PingPongDelayUnit) (ti : VstTimeInfo)
    (ha : u.isAsync_ = false) :
    u.delaySamples ti =
      toInt (toFloat (toFloat (toDouble (ti.sampleRate / toFloat (toDouble (ti.tempo / 60)))) *
        toFloat (tableAt syncDelayRatios_ u.syncDelayRatioIndex_ 0))) := by
  simp [delaySamples, IsAsync, ha, sInMin_]

/-- An engine constructed with sync parameter 0 is in async mode. -/
theorem new_isAsync (N : Int) (d f p w g : ℚ) : (new N d f p w 0 g).isAsync_ = true := by
  simp [PingPongDelayUnit.new, SetSyncParam]

/-- An engine constructed with delay parameter 0 has a delay of 10 ms. -/
theorem new_asyncDelayMs (N : Int) (f p w s g : ℚ) : (new N 0 f p w s g).asyncDelayMs_ = 10 := by
  norm_num [PingPongDelayUnit.new, SetSyncParam, SetWetParam, SetPanoramaParam,
    SetFeedbackParam, SetDelayParam, Corresponding, toInt, minAsyncDelayMs_, maxAsyncDelayMs_]

theorem neg_lt_tmod (x n : Int) (h : 0 < n) : -n < x.tmod n := by
  rcases le_or_lt 0 x with hx | hx
  · have := Int.tmod_nonneg n hx
    omega
  · obtain ⟨m, rfl⟩ := Int.eq_negSucc_of_lt_zero hx
    obtain ⟨k, rfl⟩ := Int.eq_ofNat_of_zero_le (le_of_lt h)
    have hk : 0 < k := by exact_mod_cast h
    have := Nat.mod_lt (m + 1) hk
    show -(k : Int) < -((((m + 1) % k : Nat)) : Int)
    omega

/-- For a positive buffer size `BufferModulo` is the non-negative remainder. -/
theorem BufferModulo_eq_emod (u : PingPongDelayUnit) (h : 0 < u.bufferSize_) (x : Int) :
    u.BufferModulo x = x % u.bufferSize_ := by
  unfold BufferModulo
  have h1 := neg_lt_tmod x u.bufferSize_ h
  have h2 := Int.tmod_add_tdiv x u.bufferSize_
  rw [Int.tmod_eq_emod (by omega) (by omega)]
  have h3 : x.tmod u.bufferSize_ + u.bufferSize_ =
      x + u.bufferSize_ * (1 - x.tdiv u.bufferSize_) := by
    rw [mul_sub, mul_one]; omega
  rw [h3, Int.add_mul_emod_self_left]

theorem IncrementBufferCursor_eq (u : PingPongDelayUnit) :
    u.IncrementBufferCursor =
      { u with bufferCursor_ :=
          if u.bufferCursor_ ≠ u.bufferSize_ - 1 then u.bufferCursor_ + 1 else 0 } := by
  unfold IncrementBufferCursor
  split <;> simp [*]

/-- The object after `GetSample`, field by field. -/
theorem GetSample_fst (u : PingPongDelayUnit) (ti : VstTimeInfo) (inp : StereoSample) :
    (u.GetSample ti inp).1 =
      { u with
        leftBuffer_ := writeAt u.leftBuffer_ u.bufferCursor_
          ((inp.first + u.leftBuffer_ (u.BufferModulo (u.bufferCursor_ - u.delaySamples ti * 2)))
            * u.feedback_)
        rightBuffer_ := writeAt u.rightBuffer_ u.bufferCursor_
          ((inp.second + u.rightBuffer_ (u.BufferModulo (u.bufferCursor_ - u.delaySamples ti * 2)))
            * u.feedback_)
        bufferCursor_ :=
          if u.bufferCursor_ ≠ u.bufferSize_ - 1 then u.bufferCursor_ + 1 else 0 } := by
  simp only [GetSample, IncrementBufferCursor_eq]

/-- The members of `demoUnit`, evaluated. -/
theorem demoUnit_eq : demoUnit =
    { bufferSize_ := 4, delayParam_ := 0, feedbackParam_ := 1 / 2, panoramaParam_ := 1 / 4,
      wetParam_ := 1 / 2, syncParam_ := 0, asyncDelayMs_ := 10, syncDelayRatioIndex_ := 0,
      feedback_ := 2 / 5, panoramaParamC_ := 3 / 4, primaryPanningQuotient_ := 3 / 4,
      secondaryPanningQuotient_ := 1 / 4, wetParamC_ := 1 / 2, isAsync_ := true,
      bufferCursor_ := 1, leftBuffer_ := writeAt (fun _ => 0) 0 (2 / 5),
      rightBuffer_ := writeAt (fun _ => 0) 0 (4 / 5) } := by
  have h : |(1 : ℚ) / 4| = 1 / 4 := abs_of_nonneg (by norm_num)
  norm_num [demoUnit, GetSample_fst, PingPongDelayUnit.new, SetDelayParam, SetFeedbackParam,
    SetPanoramaParam, SetWetParam, SetSyncParam, CorrespondingF, minFeedback_, maxFeedback_,
    Corresponding, toInt, minAsyncDelayMs_, maxAsyncDelayMs_, syncDelayRatioCount_, h]

theorem demoUnit_bufferSize : demoUnit.bufferSize_ = 4 := by
  rw [demoUnit_eq]

theorem demoUnit_bufferCursor : demoUnit.bufferCursor_ = 1 := by
  rw [demoUnit_eq]

theorem demoUnit_bufferSize_pos : 0 < demoUnit.bufferSize_ := by
  rw [demoUnit_bufferSize]; decide

/-- At 400 samples per second the delay of `demoUnit` is 4 samples, its capacity. -/
theorem demoUnit_delaySamples_400 : demoUnit.delaySamples ⟨400, 120⟩ = 4 := by
  rw [delaySamples_of_isAsync demoUnit _ (by rw [demoUnit_eq]), demoUnit_eq]
  simp only [Int.cast_ofNat]
  exact asyncDelay_10_400

/-- At 100 samples per second the delay of `demoUnit` is 1 sample. -/
theorem demoUnit_delaySamples_100 : demoUnit.delaySamples ⟨100, 120⟩ = 1 := by
  rw [delaySamples_of_isAsync demoUnit _ (by rw [demoUnit_eq]), demoUnit_eq]
  simp only [Int.cast_ofNat]
  exact asyncDelay_10_100

/-! ## The processing method -/

/-- C1: for a positive capacity, `GetSample` returns
`left = wetC*inL + wet*(panC*(q1*L[semi] + q2*R[semi]) + pan*(q2*L[full] + q1*R[full]))` and
`right = wetC*inR + wet*(pan*(q1*L[semi] + q2*R[semi]) + panC*(q2*L[full] + q1*R[full]))`, where
`semi = (cursor - delaySamples) mod capacity`, `full = (cursor - 2*delaySamples) mod capacity`
and `L`, `R` are the buffers of the object after the call; in them the cell at the old cursor
holds the sample written by this call, so that is the value read when `semi` or `full` equals
the cursor. -/
theorem GetSample_output (u : PingPongDelayUnit) (ti : VstTimeInfo) (inp : StereoSample)
    (hcap : 0 < u.bufferSize_) :
    let semi : Int := (u.bufferCursor_ - u.delaySamples ti) % u.bufferSize_
    let full : Int := (u.bufferCursor_ - 2 * u.delaySamples ti) % u.bufferSize_
    let L : Int → ℚ := (u.GetSample ti inp).1.leftBuffer_
    let R : Int → ℚ := (u.GetSample ti inp).1.rightBuffer_
    (u.GetSample ti inp).2.first =
        u.wetParamC_ * inp.first +
          u.wetParam_ * (u.panoramaParamC_ *
              (u.primaryPanningQuotient_ * L semi + u.secondaryPanningQuotient_ * R semi) +
            u.panoramaParam_ *
              (u.secondaryPanningQuotient_ * L full + u.primaryPanningQuotient_ * R full)) ∧
      (u.GetSample ti inp).2.second =
        u.wetParamC_ * inp.second +
          u.wetParam_ * (u.panoramaParam_ *
              (u.primaryPanningQuotient_ * L semi + u.secondaryPanningQuotient_ * R semi) +
            u.panoramaParamC_ *
              (u.secondaryPanningQuotient_ * L full + u.primaryPanningQuotient_ * R full)) ∧
      L u.bufferCursor_ = (inp.first + u.leftBuffer_ full) * u.feedback_ ∧
      R u.bufferCursor_ = (inp.second + u.rightBuffer_ full) * u.feedback_ := by
  intro semi full L R
  have hs : u.BufferModulo (u.bufferCursor_ - u.delaySamples ti) = semi :=
    BufferModulo_eq_emod u hcap _
  have hf : u.BufferModulo (u.bufferCursor_ - u.delaySamples ti * 2) = full := by
    rw [BufferModulo_eq_emod u hcap, mul_comm]
  have hL : L = writeAt u.leftBuffer_ u.bufferCursor_
      ((inp.first + u.leftBuffer_ full) * u.feedback_) := by
    simp only [L, GetSample_fst, hf]
  have hR : R = writeAt u.rightBuffer_ u.bufferCursor_
      ((inp.second + u.rightBuffer_ full) * u.feedback_) := by
    simp only [R, GetSample_fst, hf]
  refine ⟨?_, ?_, ?_, ?_⟩
  · rw [hL, hR]; simp only [GetSample, hs, hf]
  · rw [hL, hR]; simp only [GetSample, hs, hf]
  · rw [hL]; simp [writeAt]
  · rw [hR]; simp [writeAt]

/-- C1 at `demoUnit` (capacity 4, cursor 1) with a delay of 4 samples: both delayed cursors
meet the cursor, the samples read are the ones this call wrote (1.2 and 2), and the left output
is `0.5*3 + 0.5*(0.75*(0.75*1.2 + 0.25*2) + 0.25*(0.25*1.2 + 0.75*2)) = 2.25`. -/
theorem GetSample_output_witness :
    0 < demoUnit.bufferSize_ ∧ (demoUnit.GetSample ⟨400, 120⟩ ⟨3, 5⟩).2.first = 9 / 4 := by
  refine ⟨demoUnit_bufferSize_pos, ?_⟩
  rw [(GetSample_output demoUnit ⟨400, 120⟩ ⟨3, 5⟩ demoUnit_bufferSize_pos).1, GetSample_fst,
    demoUnit_delaySamples_400, BufferModulo_eq_emod _ demoUnit_bufferSize_pos, demoUnit_eq]
  norm_num [writeAt]

/-- C2: for a positive capacity, the object after `GetSample` is the object before it with the
cursor changed and with each buffer changed at the old cursor only, where the new content is
`(input[channel] + old buffer[channel][full]) * feedback_` with
`full = (cursor - 2*delaySamples) mod capacity`; every other cell, the capacity and every raw
and derived parameter member are the old ones. -/
theorem GetSample_frame (u : PingPongDelayUnit) (ti : VstTimeInfo) (inp : StereoSample)
    (hcap : 0 < u.bufferSize_) :
    let full : Int := (u.bufferCursor_ - 2 * u.delaySamples ti) % u.bufferSize_
    let v : PingPongDelayUnit := (u.GetSample ti inp).1
    v = { u with
          leftBuffer_ := v.leftBuffer_
          rightBuffer_ := v.rightBuffer_
          bufferCursor_ := v.bufferCursor_ } ∧
      v.leftBuffer_ u.bufferCursor_ = (inp.first + u.leftBuffer_ full) * u.feedback_ ∧
      v.rightBuffer_ u.bufferCursor_ = (inp.second + u.rightBuffer_ full) * u.feedback_ ∧
      (∀ i : Int, i ≠ u.bufferCursor_ →
        v.leftBuffer_ i = u.leftBuffer_ i ∧ v.rightBuffer_ i = u.rightBuffer_ i) ∧
      v.bufferSize_ = u.bufferSize_ ∧
      v.delayParam_ = u.delayParam_ ∧ v.feedbackParam_ = u.feedbackParam_ ∧
      v.panoramaParam_ = u.panoramaParam_ ∧ v.wetParam_ = u.wetParam_ ∧
      v.syncParam_ = u.syncParam_ ∧
      v.asyncDelayMs_ = u.asyncDelayMs_ ∧ v.syncDelayRatioIndex_ = u.syncDelayRatioIndex_ ∧
      v.feedback_ = u.feedback_ ∧ v.panoramaParamC_ = u.panoramaParamC_ ∧
      v.primaryPanningQuotient_ = u.primaryPanningQuotient_ ∧
      v.secondaryPanningQuotient_ = u.secondaryPanningQuotient_ ∧
      v.wetParamC_ = u.wetParamC_ ∧ v.isAsync_ = u.isAsync_ := by
  intro full v
  have hf : u.BufferModulo (u.bufferCursor_ - u.delaySamples ti * 2) = full := by
    rw [BufferModulo_eq_emod u hcap, mul_comm]
  have hv := GetSample_fst u ti inp
  rw [hf] at hv
  refine ⟨?_, ?_, ?_, ?_, ?_⟩
  · simp only [v, hv]
  · simp only [v, hv, writeAt, if_true]
  · simp only [v, hv, writeAt, if_true]
  · intro i hi
    simp only [v, hv, writeAt, if_neg hi, and_self]
  · simp only [v, hv, and_self]

/-- C2 at `demoUnit` (cursor 1, feedback gain 0.4) with a delay of 1 sample and input (3, 5):
the left cell at the cursor becomes `(3 + 0) * 0.4 = 1.2` and the left cell 0 keeps 0.4. -/
theorem GetSample_frame_witness :
    0 < demoUnit.bufferSize_ ∧
      (demoUnit.GetSample ⟨100, 120⟩ ⟨3, 5⟩).1.leftBuffer_ 1 = 6 / 5 ∧
      (demoUnit.GetSample ⟨100, 120⟩ ⟨3, 5⟩).1.leftBuffer_ 0 = 2 / 5 := by
  have h := GetSample_frame demoUnit ⟨100, 120⟩ ⟨3, 5⟩ demoUnit_bufferSize_pos
  refine ⟨demoUnit_bufferSize_pos, ?_, ?_⟩
  · have h1 := h.2.1
    rw [demoUnit_bufferCursor] at h1
    rw [h1, demoUnit_delaySamples_100, demoUnit_eq]
    norm_num [writeAt]
  · rw [(h.2.2.2.1 0 (by rw [demoUnit_bufferCursor]; decide)).1, demoUnit_eq]
    norm_num [writeAt]

/-- A property that holds of an object and that every call preserves holds after any sequence
of calls. -/
theorem run_invariant (P : PingPongDelayUnit → Prop)
    (hstep : ∀ (u : PingPongDelayUnit) (c : Call), P u → P (step u c)) :
    ∀ (calls : List Call) (u : PingPongDelayUnit), P u → P (run u calls) := by
  intro calls
  induction calls with
  | nil => intro u hu; exact hu
  | cons c cs ih => intro u hu; exact ih (step u c) (hstep u c hu)

/-- After construction and any calls the mode flag is `syncParam_ == 0.0f`. -/
theorem isAsync_run_new (bufferSize : Int) (d f p w s g : ℚ) (calls : List Call) :
    (run (new bufferSize d f p w s g) calls).isAsync_ =
      decide ((run (new bufferSize d f p w s g) calls).syncParam_ = 0) := by
  apply run_invariant (fun u => u.isAsync_ = decide (u.syncParam_ = 0))
  · intro u c hu
    cases c <;>
      simp [step, SetDelayParam, SetFeedbackParam, SetPanoramaParam, SetWetParam, SetSyncParam,
        GetSample_fst, hu]
  · simp [PingPongDelayUnit.new, SetSyncParam]

/-- C3 as stated fails: with a delay of 90 ms (delay parameter 83/2048) in async mode at 44100
samples per second, the delay length `GetSample` uses is 3968 where
`asyncDelayMs_ * (sampleRate / 1000)` truncated to an integer is 3969: the quotient 44.1
narrowed to `float` is 44.09999847..., and the `float` product 3968.99975... is below 3969. -/
theorem delaySamples_async_not_exact :
    (new 10000 (83 / 2048) 0 (1 / 2) 1 0 (1 / 2)).syncParam_ = 0 ∧
      (new 10000 (83 / 2048) 0 (1 / 2) 1 0 (1 / 2)).asyncDelayMs_ = 90 ∧
      (new 10000 (83 / 2048) 0 (1 / 2) 1 0 (1 / 2)).delaySamples ⟨44100, 120⟩ = 3968 ∧
      toInt (((new 10000 (83 / 2048) 0 (1 / 2) 1 0 (1 / 2)).asyncDelayMs_ : ℚ) *
        ((⟨44100, 120⟩ : VstTimeInfo).sampleRate / 1000)) = 3969 ∧
      (new 10000 (83 / 2048) 0 (1 / 2) 1 0 (1 / 2)).delaySamples ⟨44100, 120⟩ ≠
        toInt (((new 10000 (83 / 2048) 0 (1 / 2) 1 0 (1 / 2)).asyncDelayMs_ : ℚ) *
          ((⟨44100, 120⟩ : VstTimeInfo).sampleRate / 1000)) := by
  have hm : (new 10000 (83 / 2048) 0 (1 / 2) 1 0 (1 / 2)).asyncDelayMs_ = 90 := by
    norm_num [PingPongDelayUnit.new, SetSyncParam, SetWetParam, SetPanoramaParam,
      SetFeedbackParam, SetDelayParam, Corresponding, toInt, minAsyncDelayMs_, maxAsyncDelayMs_]
  have hd : (new 10000 (83 / 2048) 0 (1 / 2) 1 0 (1 / 2)).delaySamples ⟨44100, 120⟩ = 3968 := by
    rw [delaySamples_of_isAsync _ _ (new_isAsync _ _ _ _ _ _), hm]
    simp only [Int.cast_ofNat]
    exact asyncDelay_90_44100
  have he : toInt (((new 10000 (83 / 2048) 0 (1 / 2) 1 0 (1 / 2)).asyncDelayMs_ : ℚ) *
      ((⟨44100, 120⟩ : VstTimeInfo).sampleRate / 1000)) = 3969 := by
    rw [hm]
    norm_num [toInt]
  refine ⟨rfl, hm, hd, he, ?_⟩
  rw [hd, he]
  decide

/-- C3: in every state reached from construction whose sync parameter is 0 (async mode), the
delay length `GetSample` uses is the product of `asyncDelayMs_` and `sampleRate / 1000`
computed in single precision and truncated to an integer, with the sample rate of the transport
record read at that call: the quotient is narrowed to `float`, the product is a `float`
product; after `SetDelayParam(0)` the delay is 10 ms, and at 44100 samples per second the delay
length is 441 samples.  For a delay of at most 2000 ms and a sample rate of 1 to 1000000
samples per second the delay length is within one sample of `asyncDelayMs_ * (sampleRate /
1000)` truncated to an integer. -/
theorem delaySamples_async (bufferSize : Int) (d f p w s g : ℚ) (calls : List Call)
    (ti : VstTimeInfo) (hsync : (run (new bufferSize d f p w s g) calls).syncParam_ = 0) :
    let u : PingPongDelayUnit := run (new bufferSize d f p w s g) calls
    u.delaySamples ti =
        toInt (toFloat (toFloat (u.asyncDelayMs_ : ℚ) *
          toFloat (toDouble (ti.sampleRate / 1000)))) ∧
      (u.SetDelayParam 0).asyncDelayMs_ = 10 ∧
      (u.SetDelayParam 0).delaySamples ⟨44100, ti.tempo⟩ = 441 ∧
      (0 ≤ u.asyncDelayMs_ → u.asyncDelayMs_ ≤ 2000 → 1 ≤ ti.sampleRate →
        ti.sampleRate ≤ 1000000 →
        |u.delaySamples ti - toInt ((u.asyncDelayMs_ : ℚ) * (ti.sampleRate / 1000))| ≤ 1) := by
  intro u
  have hmode : u.isAsync_ = true := by
    have := isAsync_run_new bufferSize d f p w s g calls
    simp only [u, this, hsync, decide_True]
  have hm : (u.SetDelayParam 0).asyncDelayMs_ = 10 := by
    norm_num [SetDelayParam, Corresponding, toInt, minAsyncDelayMs_, maxAsyncDelayMs_]
  refine ⟨delaySamples_of_isAsync u ti hmode, hm, ?_, ?_⟩
  · rw [delaySamples_of_isAsync _ _ (show (u.SetDelayParam 0).isAsync_ = true from hmode), hm]
    simp only [Int.cast_ofNat]
    exact asyncDelay_10_44100
  · intro h0 h1 h2 h3
    rw [delaySamples_of_isAsync u ti hmode]
    exact asyncDelay_near u.asyncDelayMs_ ti.sampleRate h0 h1 h2 h3

/-- C3 in the scenario of the specification: capacity 10000, delay parameter 0, async. -/
theorem delaySamples_async_witness :
    (run (new 10000 0 0 (1 / 2) 1 0 (1 / 2)) []).syncParam_ = 0 ∧
      ((run (new 10000 0 0 (1 / 2) 1 0 (1 / 2)) []).SetDelayParam 0).delaySamples
        ⟨44100, 120⟩ = 441 :=
  ⟨by simp [run, PingPongDelayUnit.new, SetSyncParam],
    (delaySamples_async 10000 0 0 (1 / 2) 1 0 (1 / 2) [] ⟨44100, 120⟩
      (by simp [run, PingPongDelayUnit.new, SetSyncParam])).2.2.1⟩

/-- C4 as stated fails: in synced mode at tempo 128 and 48000 samples per second with the ratio
1 (index 4, delay parameter 0.625), the delay length `GetSample` uses is 22499 where
`(sampleRate / (tempo / 60)) * ratioTable[4]` truncated to an integer is 22500: the beats per
second narrowed to `float` are 2.13333344..., and the samples per beat 22499.998.... -/
theorem delaySamples_synced_not_exact :
    (new 10000 (5 / 8) 0 (1 / 2) 1 1 (1 / 2)).syncParam_ ≠ 0 ∧
      (new 10000 (5 / 8) 0 (1 / 2) 1 1 (1 / 2)).syncDelayRatioIndex_ = 4 ∧
      (new 10000 (5 / 8) 0 (1 / 2) 1 1 (1 / 2)).delaySamples ⟨48000, 128⟩ = 22499 ∧
      toInt (((⟨48000, 128⟩ : VstTimeInfo).sampleRate /
          ((⟨48000, 128⟩ : VstTimeInfo).tempo / 60)) *
        tableAt [1 / 4, 1 / 3, 1 / 2, 2 / 3, 1, 3 / 2, 2]
          (new 10000 (5 / 8) 0 (1 / 2) 1 1 (1 / 2)).syncDelayRatioIndex_ 0) = 22500 ∧
      (new 10000 (5 / 8) 0 (1 / 2) 1 1 (1 / 2)).delaySamples ⟨48000, 128⟩ ≠
        toInt (((⟨48000, 128⟩ : VstTimeInfo).sampleRate /
            ((⟨48000, 128⟩ : VstTimeInfo).tempo / 60)) *
          tableAt [1 / 4, 1 / 3, 1 / 2, 2 / 3, 1, 3 / 2, 2]
            (new 10000 (5 / 8) 0 (1 / 2) 1 1 (1 / 2)).syncDelayRatioIndex_ 0) := by
  have h4 : Int.toNat 4 = 4 := rfl
  have hs : (new 10000 (5 / 8) 0 (1 / 2) 1 1 (1 / 2)).syncParam_ ≠ 0 := by
    show (1 : ℚ) ≠ 0
    norm_num
  have ha : (new 10000 (5 / 8) 0 (1 / 2) 1 1 (1 / 2)).isAsync_ = false := by
    simp [PingPongDelayUnit.new, SetSyncParam]
  have hi : (new 10000 (5 / 8) 0 (1 / 2) 1 1 (1 / 2)).syncDelayRatioIndex_ = 4 := by
    norm_num [PingPongDelayUnit.new, SetSyncParam, SetWetParam, SetPanoramaParam,
      SetFeedbackParam, SetDelayParam, Corresponding, toInt, syncDelayRatioCount_]
  have ht : tableAt syncDelayRatios_ 4 0 = 1 := by
    norm_num [tableAt, syncDelayRatios_, h4]
  have ht2 : tableAt [(1 : ℚ) / 4, 1 / 3, 1 / 2, 2 / 3, 1, 3 / 2, 2] 4 0 = 1 := ht
  have hd : (new 10000 (5 / 8) 0 (1 / 2) 1 1 (1 / 2)).delaySamples ⟨48000, 128⟩ = 22499 := by
    rw [delaySamples_of_not_isAsync _ _ ha, hi, ht]
    exact syncDelay_128_48000
  have he : toInt (((⟨48000, 128⟩ : VstTimeInfo).sampleRate /
        ((⟨48000, 128⟩ : VstTimeInfo).tempo / 60)) *
      tableAt [1 / 4, 1 / 3, 1 / 2, 2 / 3, 1, 3 / 2, 2]
        (new 10000 (5 / 8) 0 (1 / 2) 1 1 (1 / 2)).syncDelayRatioIndex_ 0) = 22500 := by
    rw [hi, ht2]
    norm_num [toInt]
  refine ⟨hs, hi, hd, he, ?_⟩
  rw [hd, he]
  decide

/-- C4: in every state reached from construction whose sync parameter is not 0 (synced mode),
for a positive tempo and sample rate, the delay length `GetSample` uses is
`(sampleRate / (tempo / 60)) * ratioTable[syncDelayRatioIndex_]` computed in single precision
and truncated to an integer: the beats per second `tempo / 60` and the samples per beat are
quotients narrowed to `float`, the table entry is a `float`, and the product is a `float`
product, with `ratioTable = {1/4, 1/3, 1/2, 2/3, 1, 3/2, 2}` (for an index in `0..6` the value
looked up is that entry of the table); with tempo 120, sample rate 44100 and index 4 it is
22050.  For an index in `0..6`, a tempo of 20 to 1000 beats per minute and a sample rate of 1
to 200000 samples per second the delay length is within one sample of
`(sampleRate / (tempo / 60)) * ratioTable[syncDelayRatioIndex_]` truncated to an integer.  The
two positivity hypotheses delimit the claim: the proof does not need them, the division of `ℚ`
being total. -/
theorem delaySamples_synced (bufferSize : Int) (d f p w s g : ℚ) (calls : List Call)
    (ti : VstTimeInfo) (hsync : (run (new bufferSize d f p w s g) calls).syncParam_ ≠ 0)
    (_htempo : 0 < ti.tempo) (_hrate : 0 < ti.sampleRate) :
    let u : PingPongDelayUnit := run (new bufferSize d f p w s g) calls
    let ratioTable : List ℚ := [1 / 4, 1 / 3, 1 / 2, 2 / 3, 1, 3 / 2, 2]
    u.delaySamples ti =
        toInt (toFloat
          (toFloat (toDouble (ti.sampleRate / toFloat (toDouble (ti.tempo / 60)))) *
            toFloat (tableAt ratioTable u.syncDelayRatioIndex_ 0))) ∧
      (0 ≤ u.syncDelayRatioIndex_ → u.syncDelayRatioIndex_ < 7 →
        ratioTable[u.syncDelayRatioIndex_.toNat]? =
          some (tableAt ratioTable u.syncDelayRatioIndex_ 0)) ∧
      (u.syncDelayRatioIndex_ = 4 → ti.tempo = 120 → ti.sampleRate = 44100 →
        u.delaySamples ti = 22050) ∧
      (0 ≤ u.syncDelayRatioIndex_ → u.syncDelayRatioIndex_ < 7 → 20 ≤ ti.tempo →
        ti.tempo ≤ 1000 → 1 ≤ ti.sampleRate → ti.sampleRate ≤ 200000 →
        |u.delaySamples ti -
          toInt ((ti.sampleRate / (ti.tempo / 60)) *
            tableAt ratioTable u.syncDelayRatioIndex_ 0)| ≤ 1) := by
  intro u ratioTable
  have hmode : u.isAsync_ = false := by
    have := isAsync_run_new bufferSize d f p w s g calls
    simp only [u, this, hsync, decide_False]
  have hmain : u.delaySamples ti =
      toInt (toFloat
        (toFloat (toDouble (ti.sampleRate / toFloat (toDouble (ti.tempo / 60)))) *
          toFloat (tableAt ratioTable u.syncDelayRatioIndex_ 0))) :=
    delaySamples_of_not_isAsync u ti hmode
  refine ⟨hmain, ?_, ?_, ?_⟩
  · intro h0 h7
    obtain ⟨k, hk⟩ := Int.eq_ofNat_of_zero_le h0
    have hk7 : k < 7 := by omega
    rw [hk]
    interval_cases k <;> simp [tableAt, ratioTable]
  · intro hi ht hr
    have h4 : Int.toNat 4 = 4 := rfl
    have ht4 : tableAt ratioTable 4 0 = 1 := by
      norm_num [tableAt, ratioTable, h4]
    rw [hmain, hi, ht, hr, ht4]
    exact syncDelay_120_44100
  · intro h0 h7 ht0 ht1 hs0 hs1
    have hr : 1 / 4 ≤ tableAt ratioTable u.syncDelayRatioIndex_ 0 ∧
        tableAt ratioTable u.syncDelayRatioIndex_ 0 ≤ 2 := by
      obtain ⟨k, hk⟩ := Int.eq_ofNat_of_zero_le h0
      have hk7 : k < 7 := by omega
      have t2 : Int.toNat 2 = 2 := rfl
      have t3 : Int.toNat 3 = 3 := rfl
      have t4 : Int.toNat 4 = 4 := rfl
      have t5 : Int.toNat 5 = 5 := rfl
      have t6 : Int.toNat 6 = 6 := rfl
      rw [hk]
      interval_cases k <;> norm_num [tableAt, ratioTable, t2, t3, t4, t5, t6]
    rw [hmain]
    exact syncDelay_near ti.tempo ti.sampleRate _ ht0 ht1 hs0 hs1 hr.1 hr.2

/-- C4 at tempo 120 and 44100 samples per second, with delay parameter 4/7 (ratio index 4). -/
theorem delaySamples_synced_witness :
    (run (new 10000 (4 / 7) 0 (1 / 2) 1 1 (1 / 2)) []).syncParam_ ≠ 0 ∧
      (0 : ℚ) < (⟨44100, 120⟩ : VstTimeInfo).tempo ∧
      (0 : ℚ) < (⟨44100, 120⟩ : VstTimeInfo).sampleRate ∧
      (run (new 10000 (4 / 7) 0 (1 / 2) 1 1 (1 / 2)) []).delaySamples ⟨44100, 120⟩ = 22050 :=
  ⟨by simp [run, PingPongDelayUnit.new, SetSyncParam], by norm_num, by norm_num,
    (delaySamples_synced 10000 (4 / 7) 0 (1 / 2) 1 1 (1 / 2) [] ⟨44100, 120⟩
      (by simp [run, PingPongDelayUnit.new, SetSyncParam]) (by norm_num) (by norm_num)).2.2.1
      (by norm_num [run, PingPongDelayUnit.new, SetSyncParam, SetWetParam, SetPanoramaParam,
        SetFeedbackParam, SetDelayParam, Corresponding, toInt, syncDelayRatioCount_])
      rfl rfl⟩

end PingPongDelayUnit

/-- For a non-negative upper bound the integer mapping stays in the closed output interval. -/
theorem Corresponding_mem_of_nonneg (p : ℚ) (min max : Int) (h0 : 0 ≤ p) (h1 : p ≤ 1)
    (hle : min ≤ max) (hmax : 0 ≤ max) :
    min ≤ Corresponding p min max ∧ Corresponding p min max ≤ max := by
  unfold Corresponding
  split_ifs with hp
  · exact ⟨hle, le_refl _⟩
  · have hp1 : p < 1 := lt_of_le_of_ne h1 hp
    have hr : (0 : ℚ) < ((max - min + 1 : Int) : ℚ) := by
      have : (0 : Int) < max - min + 1 := by omega
      exact_mod_cast this
    have hlo : (min : ℚ) ≤ p * ((max - min + 1 : Int) : ℚ) + (min : ℚ) := by
      have := mul_nonneg h0 (le_of_lt hr)
      linarith
    have hhi : p * ((max - min + 1 : Int) : ℚ) + (min : ℚ) < ((max + 1 : Int) : ℚ) := by
      have h2 : p * ((max - min + 1 : Int) : ℚ) < 1 * ((max - min + 1 : Int) : ℚ) :=
        mul_lt_mul_of_pos_right hp1 hr
      have h3 : ((max + 1 : Int) : ℚ) = ((max - min + 1 : Int) : ℚ) + (min : ℚ) := by
        push_cast; ring
      rw [h3]; linarith
    simp only [toInt]
    split_ifs with hv
    · constructor
      · exact Int.le_floor.mpr hlo
      · have : ⌊p * ((max - min + 1 : Int) : ℚ) + (min : ℚ)⌋ < max + 1 :=
          Int.floor_lt.mpr hhi
        omega
    · push_neg at hv
      constructor
      · have h4 : (min : ℚ) ≤ ((⌈p * ((max - min + 1 : Int) : ℚ) + (min : ℚ)⌉ : Int) : ℚ) :=
          le_trans hlo (Int.le_ceil _)
        exact_mod_cast h4
      · have h5 : ⌈p * ((max - min + 1 : Int) : ℚ) + (min : ℚ)⌉ ≤ 0 :=
          Int.ceil_le.mpr (by exact_mod_cast le_of_lt hv)
        omega

/-- C5: the integer `Corresponding` is documented to return a value of `[min, max]` for a
parameter of `[0, 1]`, but `Corresponding(0.75, -3, -1)` is `(int)(0.75 * 3 + (-3)) =
(int)(-0.75) = 0`, above `max = -1`: the cast truncates toward zero and is not the floor on a
negative value. -/
theorem Corresponding_negative_interval :
    Corresponding (3 / 4) (-3) (-1) = 0 ∧
      ¬ ((-3 : Int) ≤ Corresponding (3 / 4) (-3) (-1) ∧ Corresponding (3 / 4) (-3) (-1) ≤ -1) := by
  have h : Corresponding (3 / 4) (-3) (-1) = 0 := by
    norm_num [Corresponding, toInt]
  rw [h]
  decide

namespace PingPongDelayUnit

/-- C6: for a delay parameter `p` of `[0, 1]`, after `SetDelayParam(p)` the async delay is in
`[10, 2000]` and the ratio index in `[0, 6]`, so below the length (7) of the ratio table and of
the ratio-string table; `p = 0` gives `(10, 0)` and `p = 1` gives `(2000, 6)`. -/
theorem SetDelayParam_in_bounds (u : PingPongDelayUnit) (p : ℚ) (h0 : 0 ≤ p) (h1 : p ≤ 1) :
    (10 ≤ (u.SetDelayParam p).asyncDelayMs_ ∧ (u.SetDelayParam p).asyncDelayMs_ ≤ 2000) ∧
      (0 ≤ (u.SetDelayParam p).syncDelayRatioIndex_ ∧
        (u.SetDelayParam p).syncDelayRatioIndex_ ≤ 6) ∧
      (u.SetDelayParam p).syncDelayRatioIndex_ < (syncDelayRatios_.length : Int) ∧
      (u.SetDelayParam p).syncDelayRatioIndex_ < (syncDelayRatioStrings_.length : Int) ∧
      ((u.SetDelayParam 0).asyncDelayMs_ = 10 ∧ (u.SetDelayParam 0).syncDelayRatioIndex_ = 0) ∧
      ((u.SetDelayParam 1).asyncDelayMs_ = 2000 ∧
        (u.SetDelayParam 1).syncDelayRatioIndex_ = 6) := by
  have ha := Corresponding_mem_of_nonneg p minAsyncDelayMs_ maxAsyncDelayMs_ h0 h1
    (by decide) (by decide)
  have hi := Corresponding_mem_of_nonneg p 0 (syncDelayRatioCount_ - 1) h0 h1
    (by decide) (by decide)
  simp only [minAsyncDelayMs_, maxAsyncDelayMs_, syncDelayRatioCount_] at ha hi
  have hlen1 : (syncDelayRatios_.length : Int) = 7 := rfl
  have hlen2 : (syncDelayRatioStrings_.length : Int) = 7 := rfl
  refine ⟨ha, ?_, ?_, ?_, ?_, ?_⟩
  · simp only [SetDelayParam, syncDelayRatioCount_]; omega
  · simp only [SetDelayParam, syncDelayRatioCount_, hlen1]; omega
  · simp only [SetDelayParam, syncDelayRatioCount_, hlen2]; omega
  · norm_num [SetDelayParam, Corresponding, toInt, minAsyncDelayMs_, maxAsyncDelayMs_,
      syncDelayRatioCount_]
  · norm_num [SetDelayParam, Corresponding, toInt, minAsyncDelayMs_, maxAsyncDelayMs_,
      syncDelayRatioCount_]

/-- C6 at the middle of the range. -/
theorem SetDelayParam_in_bounds_witness :
    (0 : ℚ) ≤ 1 / 2 ∧ (1 / 2 : ℚ) ≤ 1 ∧
      (10 ≤ (demoUnit.SetDelayParam (1 / 2)).asyncDelayMs_ ∧
        (demoUnit.SetDelayParam (1 / 2)).asyncDelayMs_ ≤ 2000) :=
  ⟨by norm_num, by norm_num,
    (SetDelayParam_in_bounds demoUnit (1 / 2) (by norm_num) (by norm_num)).1⟩

/-- In exact arithmetic, with a finite value `g` in the storage of `primaryPanningQuotient_` at
construction: in every state reached from construction by any sequence of setter and
`GetSample` calls, `wetParamC_ + wetParam_ = 1`, `panoramaParamC_ + panoramaParam_ = 1` and
`primaryPanningQuotient_ + secondaryPanningQuotient_ = 1`. -/
theorem complements_sum_to_one (bufferSize : Int) (d f p w s g : ℚ) (calls : List Call) :
    (run (new bufferSize d f p w s g) calls).wetParamC_ +
        (run (new bufferSize d f p w s g) calls).wetParam_ = 1 ∧
      (run (new bufferSize d f p w s g) calls).panoramaParamC_ +
        (run (new bufferSize d f p w s g) calls).panoramaParam_ = 1 ∧
      (run (new bufferSize d f p w s g) calls).primaryPanningQuotient_ +
        (run (new bufferSize d f p w s g) calls).secondaryPanningQuotient_ = 1 := by
  apply run_invariant (fun u => u.wetParamC_ + u.wetParam_ = 1 ∧
    u.panoramaParamC_ + u.panoramaParam_ = 1 ∧
    u.primaryPanningQuotient_ + u.secondaryPanningQuotient_ = 1)
  · intro u c hu
    cases c <;>
      simp [step, SetDelayParam, SetFeedbackParam, SetPanoramaParam, SetWetParam, SetSyncParam,
        GetSample_fst, hu]
  · simp [PingPongDelayUnit.new, SetDelayParam, SetFeedbackParam, SetPanoramaParam, SetWetParam,
      SetSyncParam]


/-- Calls other than `SetSyncParam` keep the mode flag. -/
theorem isAsync_run_of_no_setSync (calls : List Call)
    (hno : ∀ c ∈ calls, ∀ x : ℚ, c ≠ Call.setSync x) (u : PingPongDelayUnit) :
    (run u calls).isAsync_ = u.isAsync_ := by
  induction calls generalizing u with
  | nil => rfl
  | cons c cs ih =>
    have hc := hno c (List.mem_cons_self c cs)
    have hcs : ∀ c' ∈ cs, ∀ x : ℚ, c' ≠ Call.setSync x :=
      fun c' h' => hno c' (List.mem_cons_of_mem c h')
    show (run (step u c) cs).isAsync_ = u.isAsync_
    rw [ih hcs (step u c)]
    cases c with
    | setSync x => exact absurd rfl (hc x)
    | setDelay x => rfl
    | setFeedback x => rfl
    | setPanorama x => rfl
    | setWet x => rfl
    | getSample ti inp => simp [step, GetSample_fst]

/-- C9: after `SetSyncParam(s)`, `IsAsync()` is true exactly when `s = 0`, and any other value
gives synced mode; the mode stays the one of the most recent `SetSyncParam` through any calls
that are not `SetSyncParam`, and the delay length of the next `GetSample` is computed by the
async formula when `s = 0` and by the synced formula otherwise (the two formulas of
`delaySamples`, in single precision). -/
theorem SetSyncParam_selects_mode (u : PingPongDelayUnit) (s : ℚ) :
    ((u.SetSyncParam s).IsAsync = true ↔ s = 0) ∧
      (s ≠ 0 → (u.SetSyncParam s).IsAsync = false) ∧
      (∀ calls : List Call, (∀ c ∈ calls, ∀ x : ℚ, c ≠ Call.setSync x) →
        ∀ ti : VstTimeInfo,
          (run (u.SetSyncParam s) calls).IsAsync = decide (s = 0) ∧
          (run (u.SetSyncParam s) calls).delaySamples ti =
            if s = 0 then
              toInt (toFloat (toFloat ((run (u.SetSyncParam s) calls).asyncDelayMs_ : ℚ) *
                toFloat (toDouble (ti.sampleRate / 1000))))
            else
              toInt (toFloat
                (toFloat (toDouble (ti.sampleRate / toFloat (toDouble (ti.tempo / 60)))) *
                  toFloat (tableAt syncDelayRatios_
                    (run (u.SetSyncParam s) calls).syncDelayRatioIndex_ 0)))) := by
  refine ⟨?_, ?_, ?_⟩
  · simp [SetSyncParam, IsAsync]
  · intro hs; simp [SetSyncParam, IsAsync, hs]
  · intro calls hno ti
    have hflag : (run (u.SetSyncParam s) calls).isAsync_ = decide (s = 0) := by
      rw [isAsync_run_of_no_setSync calls hno]; rfl
    refine ⟨hflag, ?_⟩
    unfold delaySamples IsAsync
    rw [hflag]
    by_cases hs : s = 0
    · simp [hs, msInS_]
    · simp [hs, sInMin_]

/-- C9 for a very small non-zero parameter. -/
theorem SetSyncParam_selects_mode_witness :
    (demoUnit.SetSyncParam (1 / 1000000)).IsAsync = false :=
  (SetSyncParam_selects_mode demoUnit (1 / 1000000)).2.1 (by norm_num)

/-- C10: for a capacity of at least 1, in every state reached from construction the capacity is
the constructed one and the cursor is in `[0, capacity)`, and a `GetSample` call sets the cursor
to `(cursor + 1) mod capacity`. -/
theorem cursor_in_capacity (bufferSize : Int) (d f p w s g : ℚ) (calls : List Call)
    (hcap : 1 ≤ bufferSize) :
    (run (new bufferSize d f p w s g) calls).bufferSize_ = bufferSize ∧
      0 ≤ (run (new bufferSize d f p w s g) calls).bufferCursor_ ∧
      (run (new bufferSize d f p w s g) calls).bufferCursor_ < bufferSize ∧
      ∀ (ti : VstTimeInfo) (inp : StereoSample),
        ((run (new bufferSize d f p w s g) calls).GetSample ti inp).1.bufferCursor_ =
          ((run (new bufferSize d f p w s g) calls).bufferCursor_ + 1) % bufferSize := by
  have hinv : (run (new bufferSize d f p w s g) calls).bufferSize_ = bufferSize ∧
      0 ≤ (run (new bufferSize d f p w s g) calls).bufferCursor_ ∧
      (run (new bufferSize d f p w s g) calls).bufferCursor_ < bufferSize := by
    apply run_invariant (fun u => u.bufferSize_ = bufferSize ∧ 0 ≤ u.bufferCursor_ ∧
      u.bufferCursor_ < bufferSize)
    · intro u c hu
      obtain ⟨h1, h2, h3⟩ := hu
      cases c with
      | setDelay x => exact ⟨h1, h2, h3⟩
      | setFeedback x => exact ⟨h1, h2, h3⟩
      | setPanorama x => exact ⟨h1, h2, h3⟩
      | setWet x => exact ⟨h1, h2, h3⟩
      | setSync x => exact ⟨h1, h2, h3⟩
      | getSample ti inp =>
        simp only [step, GetSample_fst]
        refine ⟨h1, ?_, ?_⟩
        · split_ifs <;> omega
        · split_ifs with hne
          · omega
          · omega
    · exact ⟨rfl, le_refl 0, by show (0 : Int) < bufferSize; omega⟩
  obtain ⟨h1, h2, h3⟩ := hinv
  refine ⟨h1, h2, h3, ?_⟩
  intro ti inp
  simp only [GetSample_fst, h1]
  split_ifs with hne
  · rw [Int.emod_eq_of_lt (by omega) (by omega)]
  · push_neg at hne
    have : (run (new bufferSize d f p w s g) calls).bufferCursor_ + 1 = bufferSize := by omega
    rw [this, Int.emod_self]

/-- C10 at capacity 2 after two processed samples and a parameter change. -/
theorem cursor_in_capacity_witness :
    (1 : Int) ≤ 2 ∧
      (run (new 2 0 0 0 0 0 0) [Call.getSample ⟨100, 120⟩ ⟨1, 1⟩,
        Call.getSample ⟨100, 120⟩ ⟨0, 0⟩, Call.setWet 1]).bufferCursor_ < 2 :=
  ⟨by decide, (cursor_in_capacity 2 0 0 0 0 0 0 _ (by decide)).2.2.1⟩

end PingPongDelayUnit
end PingPongDelay

/-! ## Streams of frames -/

namespace PingPongDelay

namespace PingPongDelayUnit

/-- The sample returned by `GetSample`, with the delayed reads made in the buffers of the object
after the call. -/
theorem GetSample_snd (u : PingPongDelayUnit) (ti : VstTimeInfo) (inp : StereoSample) :
    (u.GetSample ti inp).2 =
      { first := u.wetParamC_ * inp.first +
          u.wetParam_ * (u.panoramaParamC_ *
              (u.primaryPanningQuotient_ * (u.GetSample ti inp).1.leftBuffer_
                  (u.BufferModulo (u.bufferCursor_ - u.delaySamples ti)) +
                u.secondaryPanningQuotient_ * (u.GetSample ti inp).1.rightBuffer_
                  (u.BufferModulo (u.bufferCursor_ - u.delaySamples ti))) +
            u.panoramaParam_ *
              (u.secondaryPanningQuotient_ * (u.GetSample ti inp).1.leftBuffer_
                  (u.BufferModulo (u.bufferCursor_ - u.delaySamples ti * 2)) +
                u.primaryPanningQuotient_ * (u.GetSample ti inp).1.rightBuffer_
                  (u.BufferModulo (u.bufferCursor_ - u.delaySamples ti * 2))))
        second := u.wetParamC_ * inp.second +
          u.wetParam_ * (u.panoramaParam_ *
              (u.primaryPanningQuotient_ * (u.GetSample ti inp).1.leftBuffer_
                  (u.BufferModulo (u.bufferCursor_ - u.delaySamples ti)) +
                u.secondaryPanningQuotient_ * (u.GetSample ti inp).1.rightBuffer_
                  (u.BufferModulo (u.bufferCursor_ - u.delaySamples ti))) +
            u.panoramaParamC_ *
              (u.secondaryPanningQuotient_ * (u.GetSample ti inp).1.leftBuffer_
                  (u.BufferModulo (u.bufferCursor_ - u.delaySamples ti * 2)) +
                u.primaryPanningQuotient_ * (u.GetSample ti inp).1.rightBuffer_
                  (u.BufferModulo (u.bufferCursor_ - u.delaySamples ti * 2)))) } := by
  simp only [GetSample_fst]
  rfl

/-- Every call keeps the capacity. -/
theorem bufferSize_step (u : PingPongDelayUnit) (c : Call) :
    (step u c).bufferSize_ = u.bufferSize_ := by
  cases c <;> simp [step, SetDelayParam, SetFeedbackParam, SetPanoramaParam, SetWetParam,
    SetSyncParam, GetSample_fst]

/-- The cursor after a call: advanced by one modulo the capacity by `GetSample`, kept by a
setter. -/
theorem bufferCursor_step (u : PingPongDelayUnit) (c : Call) (_hcap : 1 ≤ u.bufferSize_)
    (h0 : 0 ≤ u.bufferCursor_) (h1 : u.bufferCursor_ < u.bufferSize_) :
    (step u c).bufferCursor_ =
      (u.bufferCursor_ + (if c.isGetSample then 1 else 0)) % u.bufferSize_ := by
  cases c with
  | getSample ti inp =>
    simp only [step, GetSample_fst, Call.isGetSample, if_true]
    split_ifs with hne
    · rw [Int.emod_eq_of_lt (by omega) (by omega)]
    · push_neg at hne
      have : u.bufferCursor_ + 1 = u.bufferSize_ := by omega
      rw [this, Int.emod_self]
  | setDelay x =>
    simp only [step, SetDelayParam, Call.isGetSample]
    simp [Int.emod_eq_of_lt h0 h1]
  | setFeedback x =>
    simp only [step, SetFeedbackParam, Call.isGetSample]
    simp [Int.emod_eq_of_lt h0 h1]
  | setPanorama x =>
    simp only [step, SetPanoramaParam, Call.isGetSample]
    simp [Int.emod_eq_of_lt h0 h1]
  | setWet x =>
    simp only [step, SetWetParam, Call.isGetSample]
    simp [Int.emod_eq_of_lt h0 h1]
  | setSync x =>
    simp only [step, SetSyncParam, Call.isGetSample]
    simp [Int.emod_eq_of_lt h0 h1]

/-- The cursor after a sequence of calls is the starting cursor plus the number of `GetSample`
calls, modulo the capacity. -/
theorem bufferCursor_run (calls : List Call) (u : PingPongDelayUnit) (hcap : 1 ≤ u.bufferSize_)
    (h0 : 0 ≤ u.bufferCursor_) (h1 : u.bufferCursor_ < u.bufferSize_) :
    (run u calls).bufferSize_ = u.bufferSize_ ∧
      (run u calls).bufferCursor_ =
        (u.bufferCursor_ + (calls.countP Call.isGetSample : Int)) % u.bufferSize_ := by
  induction calls generalizing u with
  | nil => exact ⟨rfl, by simp [run, Int.emod_eq_of_lt h0 h1]⟩
  | cons c cs ih =>
    have hs := bufferSize_step u c
    have hc := bufferCursor_step u c hcap h0 h1
    have hpos : 0 < u.bufferSize_ := by omega
    have hr0 : 0 ≤ (step u c).bufferCursor_ := by
      rw [hc]; exact Int.emod_nonneg _ (by omega)
    have hr1 : (step u c).bufferCursor_ < (step u c).bufferSize_ := by
      rw [hc, hs]; exact Int.emod_lt_of_pos _ hpos
    obtain ⟨ih1, ih2⟩ := ih (step u c) (by rw [hs]; exact hcap) hr0 hr1
    have hrun : run u (c :: cs) = run (step u c) cs := rfl
    rw [hrun, ih1, ih2, hs, hc]
    refine ⟨rfl, ?_⟩
    rw [Int.emod_add_emod, List.countP_cons]
    by_cases hg : c.isGetSample = true
    · simp only [hg, if_true]
      push_cast
      congr 1
      ring
    · simp only [hg]
      simp

/-- C11: for a capacity of at least 1 and a starting cursor in `[0, capacity)`, after a sequence
of calls (setters and `GetSample` calls with any arguments) that has exactly `capacity` calls of
`GetSample` the cursor is the starting one, and after a sequence that has a positive number of
them below `capacity` it is not. -/
theorem cursor_wraps (u : PingPongDelayUnit) (calls : List Call) (hcap : 1 ≤ u.bufferSize_)
    (h0 : 0 ≤ u.bufferCursor_) (h1 : u.bufferCursor_ < u.bufferSize_) :
    ((calls.countP Call.isGetSample : Int) = u.bufferSize_ →
        (run u calls).bufferCursor_ = u.bufferCursor_) ∧
      (0 < calls.countP Call.isGetSample →
        (calls.countP Call.isGetSample : Int) < u.bufferSize_ →
        (run u calls).bufferCursor_ ≠ u.bufferCursor_) := by
  have hrun := (bufferCursor_run calls u hcap h0 h1).2
  constructor
  · intro hk
    rw [hrun, hk, Int.add_emod_self, Int.emod_eq_of_lt h0 h1]
  · intro hk0 hk1
    rw [hrun]
    have hk0' : (0 : Int) < (calls.countP Call.isGetSample : Int) := by exact_mod_cast hk0
    by_cases hlt : u.bufferCursor_ + (calls.countP Call.isGetSample : Int) < u.bufferSize_
    · rw [Int.emod_eq_of_lt (by omega) hlt]
      omega
    · rw [Int.emod_eq_sub_self_emod, Int.emod_eq_of_lt (by omega) (by omega)]
      omega

/-- C11 at `demoUnit` (capacity 4, cursor 1): after four processed samples and a parameter
change in between the cursor is 1 again. -/
theorem cursor_wraps_witness :
    1 ≤ demoUnit.bufferSize_ ∧ 0 ≤ demoUnit.bufferCursor_ ∧
      demoUnit.bufferCursor_ < demoUnit.bufferSize_ ∧
      (run demoUnit [Call.getSample ⟨100, 120⟩ ⟨1, 0⟩, Call.getSample ⟨100, 120⟩ ⟨0, 1⟩,
        Call.setDelay 1, Call.getSample ⟨100, 120⟩ ⟨0, 0⟩,
        Call.getSample ⟨200, 90⟩ ⟨2, 2⟩]).bufferCursor_ = 1 := by
  have hs := demoUnit_bufferSize
  have hc := demoUnit_bufferCursor
  have h := (cursor_wraps demoUnit [Call.getSample ⟨100, 120⟩ ⟨1, 0⟩,
    Call.getSample ⟨100, 120⟩ ⟨0, 1⟩, Call.setDelay 1, Call.getSample ⟨100, 120⟩ ⟨0, 0⟩,
    Call.getSample ⟨200, 90⟩ ⟨2, 2⟩] (by rw [hs]; decide) (by rw [hc]; decide)
    (by rw [hs, hc]; decide)).1 (by rw [hs]; decide)
  rw [hc] at h
  exact ⟨by rw [hs]; decide, by rw [hc]; decide, by rw [hs, hc]; decide, h⟩


/-- With silent buffers a silent input gives a silent output and leaves the buffers silent. -/
theorem GetSample_silent (u : PingPongDelayUnit) (ti : VstTimeInfo)
    (hL : ∀ i, u.leftBuffer_ i = 0) (hR : ∀ i, u.rightBuffer_ i = 0) :
    (u.GetSample ti ⟨0, 0⟩).2 = ⟨0, 0⟩ ∧
      (∀ i, (u.GetSample ti ⟨0, 0⟩).1.leftBuffer_ i = 0) ∧
      (∀ i, (u.GetSample ti ⟨0, 0⟩).1.rightBuffer_ i = 0) := by
  have hL2 : ∀ i, (u.GetSample ti ⟨0, 0⟩).1.leftBuffer_ i = 0 := by
    intro i
    simp only [GetSample_fst, writeAt, hL]
    split_ifs <;> simp
  have hR2 : ∀ i, (u.GetSample ti ⟨0, 0⟩).1.rightBuffer_ i = 0 := by
    intro i
    simp only [GetSample_fst, writeAt, hR]
    split_ifs <;> simp
  refine ⟨?_, hL2, hR2⟩
  rw [GetSample_snd]
  simp only [hL2, hR2]
  simp

/-- Silence is kept by any calls whose inputs are silent, from any object with silent buffers. -/
theorem outputs_silent (calls : List Call) (u : PingPongDelayUnit)
    (hL : ∀ i, u.leftBuffer_ i = 0) (hR : ∀ i, u.rightBuffer_ i = 0)
    (hzero : ∀ c ∈ calls, ∀ (ti : VstTimeInfo) (inp : StereoSample),
      c = Call.getSample ti inp → inp = ⟨0, 0⟩) :
    ∀ o ∈ outputs u calls, o = ⟨0, 0⟩ := by
  induction calls generalizing u with
  | nil => intro o ho; simp [outputs] at ho
  | cons c cs ih =>
    have hcs : ∀ c' ∈ cs, ∀ (ti : VstTimeInfo) (inp : StereoSample),
        c' = Call.getSample ti inp → inp = ⟨0, 0⟩ :=
      fun c' h' => hzero c' (List.mem_cons_of_mem c h')
    cases c with
    | getSample ti inp =>
      have hinp : inp = ⟨0, 0⟩ := hzero _ (List.mem_cons_self _ _) ti inp rfl
      subst hinp
      obtain ⟨ho, hL2, hR2⟩ := GetSample_silent u ti hL hR
      intro o hmem
      simp only [outputs, List.mem_cons] at hmem
      rcases hmem with rfl | hmem
      · exact ho
      · exact ih _ hL2 hR2 hcs o hmem
    | setDelay x => exact ih (u.SetDelayParam x) hL hR hcs
    | setFeedback x => exact ih (u.SetFeedbackParam x) hL hR hcs
    | setPanorama x => exact ih (u.SetPanoramaParam x) hL hR hcs
    | setWet x => exact ih (u.SetWetParam x) hL hR hcs
    | setSync x => exact ih (u.SetSyncParam x) hL hR hcs

/-- In exact arithmetic, with a finite value `g` in the storage of `primaryPanningQuotient_` at
construction: for an engine constructed with any capacity and any delay, panorama, wet and sync
parameters (and any feedback parameter `f`, so in particular for `f = 0`), through any sequence
of calls in which every `GetSample` input is `(0, 0)` (setters may be called in between), every
sample `GetSample` returns is `(0, 0)`. -/
theorem silence_in_silence_out (bufferSize : Int) (d f p w s g : ℚ) (calls : List Call)
    (hzero : ∀ c ∈ calls, ∀ (ti : VstTimeInfo) (inp : StereoSample),
      c = Call.getSample ti inp → inp = ⟨0, 0⟩) :
    ∀ o ∈ outputs (new bufferSize d f p w s g) calls, o = ⟨0, 0⟩ :=
  outputs_silent calls (new bufferSize d f p w s g) (fun _ => rfl) (fun _ => rfl) hzero

/-- Silent output with feedback parameter 0, three silent frames and a change of the wet
parameter. -/
theorem silence_in_silence_out_witness :
    outputs (new 8 (1 / 2) 0 (1 / 4) (3 / 4) 0 (1 / 3))
        [Call.getSample ⟨44100, 120⟩ ⟨0, 0⟩, Call.setWet (1 / 2),
          Call.getSample ⟨44100, 120⟩ ⟨0, 0⟩, Call.getSample ⟨48000, 90⟩ ⟨0, 0⟩] =
      [⟨0, 0⟩, ⟨0, 0⟩, ⟨0, 0⟩] := by
  have h := silence_in_silence_out 8 (1 / 2) 0 (1 / 4) (3 / 4) 0 (1 / 3)
    [Call.getSample ⟨44100, 120⟩ ⟨0, 0⟩, Call.setWet (1 / 2),
      Call.getSample ⟨44100, 120⟩ ⟨0, 0⟩, Call.getSample ⟨48000, 90⟩ ⟨0, 0⟩]
    (by
      intro c hc ti inp hci
      simp only [List.mem_cons, List.mem_singleton, List.not_mem_nil, or_false] at hc
      rcases hc with rfl | rfl | rfl | rfl
      · injection hci with h1 h2; exact h2.symm
      · cases hci
      · injection hci with h1 h2; exact h2.symm
      · injection hci with h1 h2; exact h2.symm)
  simp only [outputs] at h ⊢
  simp only [List.mem_cons, List.mem_singleton, List.not_mem_nil, or_false, forall_eq_or_imp,
    forall_eq] at h
  obtain ⟨h1, h2, h3⟩ := h
  rw [h1, h2, h3]

end PingPongDelayUnit

end PingPongDelay

/-! ## Construction and the real mapping -/

namespace PingPongDelay

namespace PingPongDelayUnit

/-- C17: after construction with capacity `N` and parameters (delay, feedback, panorama, wet,
sync) the capacity is `N`, every cell of both buffers (so each of the `N` allocated ones) is 0,
the cursor is 0, each raw getter returns the parameter given, and `asyncDelayMs_`,
`syncDelayRatioIndex_`, `feedback_`, `panoramaParamC_`, `wetParamC_` and `isAsync_` are what the
setter of that parameter computes, from any object. -/
theorem new_state (N : Int) (d f p w s g : ℚ) :
    (new N d f p w s g).bufferSize_ = N ∧
      (∀ i : Int, 0 ≤ i → i < N →
        (new N d f p w s g).leftBuffer_ i = 0 ∧ (new N d f p w s g).rightBuffer_ i = 0) ∧
      (new N d f p w s g).bufferCursor_ = 0 ∧
      ((new N d f p w s g).GetDelayParam = d ∧ (new N d f p w s g).GetFeedbackParam = f ∧
        (new N d f p w s g).GetPanoramaParam = p ∧ (new N d f p w s g).GetWetParam = w ∧
        (new N d f p w s g).GetSyncParam = s) ∧
      ((new N d f p w s g).asyncDelayMs_ = Corresponding d 10 2000 ∧
        (new N d f p w s g).syncDelayRatioIndex_ = Corresponding d 0 6 ∧
        (new N d f p w s g).feedback_ = CorrespondingF f 0 (8 / 10) ∧
        (new N d f p w s g).panoramaParamC_ = 1 - p ∧
        (new N d f p w s g).wetParamC_ = 1 - w ∧
        (new N d f p w s g).isAsync_ = decide (s = 0)) ∧
      (∀ v : PingPongDelayUnit,
        (new N d f p w s g).asyncDelayMs_ = (v.SetDelayParam d).asyncDelayMs_ ∧
        (new N d f p w s g).syncDelayRatioIndex_ = (v.SetDelayParam d).syncDelayRatioIndex_ ∧
        (new N d f p w s g).feedback_ = (v.SetFeedbackParam f).feedback_ ∧
        (new N d f p w s g).panoramaParamC_ = (v.SetPanoramaParam p).panoramaParamC_ ∧
        (new N d f p w s g).wetParamC_ = (v.SetWetParam w).wetParamC_ ∧
        (new N d f p w s g).isAsync_ = (v.SetSyncParam s).isAsync_) := by
  refine ⟨rfl, fun i _ _ => ⟨rfl, rfl⟩, rfl, ⟨rfl, rfl, rfl, rfl, rfl⟩, ⟨rfl, rfl, rfl, rfl, rfl, rfl⟩,
    fun v => ⟨rfl, rfl, rfl, rfl, rfl, rfl⟩⟩

end PingPongDelayUnit

namespace PingPongDelayEffect

/-- C15: for an index `i` of `0..4` (Delay, Feedback, Panorama, Wet, Sync) and any value `v`,
after `setParameter(i, v)` `getParameter(i)` is `v` and `getParameter(j)` is unchanged for every
other index `j`, and the two buffers and the cursor of the unit are unchanged. -/
theorem setParameter_getParameter (e : PingPongDelayEffect) (i : Int) (v : ℚ)
    (hi0 : 0 ≤ i) (hi4 : i ≤ 4) :
    (e.setParameter i v).getParameter i = v ∧
      (∀ j : Int, j ≠ i → (e.setParameter i v).getParameter j = e.getParameter j) ∧
      (e.setParameter i v).unit_.leftBuffer_ = e.unit_.leftBuffer_ ∧
      (e.setParameter i v).unit_.rightBuffer_ = e.unit_.rightBuffer_ ∧
      (e.setParameter i v).unit_.bufferCursor_ = e.unit_.bufferCursor_ := by
  have hcases : i = 0 ∨ i = 1 ∨ i = 2 ∨ i = 3 ∨ i = 4 := by omega
  rcases hcases with rfl | rfl | rfl | rfl | rfl
  all_goals
    refine ⟨?_, ?_, ?_, ?_, ?_⟩
    · simp [setParameter, getParameter, DelayParam, FeedbackParam, PanoramaParam, WetParam,
        SyncParam, PingPongDelayUnit.SetDelayParam, PingPongDelayUnit.SetFeedbackParam,
        PingPongDelayUnit.SetPanoramaParam, PingPongDelayUnit.SetWetParam,
        PingPongDelayUnit.SetSyncParam, PingPongDelayUnit.GetDelayParam,
        PingPongDelayUnit.GetFeedbackParam, PingPongDelayUnit.GetPanoramaParam,
        PingPongDelayUnit.GetWetParam, PingPongDelayUnit.GetSyncParam]
    · intro j hj
      simp only [setParameter, getParameter, DelayParam, FeedbackParam, PanoramaParam, WetParam,
        SyncParam, PingPongDelayUnit.SetDelayParam, PingPongDelayUnit.SetFeedbackParam,
        PingPongDelayUnit.SetPanoramaParam, PingPongDelayUnit.SetWetParam,
        PingPongDelayUnit.SetSyncParam, PingPongDelayUnit.GetDelayParam,
        PingPongDelayUnit.GetFeedbackParam, PingPongDelayUnit.GetPanoramaParam,
        PingPongDelayUnit.GetWetParam, PingPongDelayUnit.GetSyncParam]
      simp [hj]
    · simp [setParameter, DelayParam, FeedbackParam, PanoramaParam, WetParam, SyncParam,
        PingPongDelayUnit.SetDelayParam, PingPongDelayUnit.SetFeedbackParam,
        PingPongDelayUnit.SetPanoramaParam, PingPongDelayUnit.SetWetParam,
        PingPongDelayUnit.SetSyncParam]
    · simp [setParameter, DelayParam, FeedbackParam, PanoramaParam, WetParam, SyncParam,
        PingPongDelayUnit.SetDelayParam, PingPongDelayUnit.SetFeedbackParam,
        PingPongDelayUnit.SetPanoramaParam, PingPongDelayUnit.SetWetParam,
        PingPongDelayUnit.SetSyncParam]
    · simp [setParameter, DelayParam, FeedbackParam, PanoramaParam, WetParam, SyncParam,
        PingPongDelayUnit.SetDelayParam, PingPongDelayUnit.SetFeedbackParam,
        PingPongDelayUnit.SetPanoramaParam, PingPongDelayUnit.SetWetParam,
        PingPongDelayUnit.SetSyncParam]

end PingPongDelayEffect

end PingPongDelay

namespace PingPongDelay

/-- A string not longer than the limit is copied whole. -/
theorem vst_strncpy_of_length_le (src : String) (maxLen : Nat) (h : src.length ≤ maxLen) :
    vst_strncpy src maxLen = src := by
  unfold vst_strncpy
  have h2 : src.data.length ≤ maxLen := h
  rw [List.take_of_length_le h2]

/-- An integer of `[0, 10^8)` is rendered by `int2string` in full, as its decimal digits. -/
theorem int2string_of_lt (value : Int) (h0 : 0 ≤ value) (h8 : value < 10 ^ 8) :
    int2string value kVstMaxParamStrLen = toString value := by
  unfold int2string
  apply vst_strncpy_of_length_le
  obtain ⟨n, rfl⟩ := Int.eq_ofNat_of_zero_le h0
  have hn : n < 10 ^ 8 := by exact_mod_cast h8
  exact Nat.repr_length n 8 (by decide) hn

namespace PingPongDelayEffect

/-- C20 as stated fails: for a unit constructed with sync parameter 0, which is async, the
Sync display is `"Off"`, not `"On"`. -/
theorem sync_display_async_is_not_On :
    (PingPongDelayUnit.new 4 0 0 0 0 0 0).syncParam_ = 0 ∧
      (PingPongDelayUnit.new 4 0 0 0 0 0 0).IsAsync = true ∧
      getParameterDisplay (fun _ _ => "") ⟨PingPongDelayUnit.new 4 0 0 0 0 0 0⟩ SyncParam "" =
        "Off" ∧
      getParameterDisplay (fun _ _ => "") ⟨PingPongDelayUnit.new 4 0 0 0 0 0 0⟩ SyncParam "" ≠
        "On" := by
  have hs : (PingPongDelayUnit.new 4 0 0 0 0 0 0).syncParam_ = 0 := rfl
  have ha : (PingPongDelayUnit.new 4 0 0 0 0 0 0).IsAsync = true := by
    simp [PingPongDelayUnit.new, PingPongDelayUnit.SetSyncParam, PingPongDelayUnit.IsAsync]
  have hd : getParameterDisplay (fun _ _ => "") ⟨PingPongDelayUnit.new 4 0 0 0 0 0 0⟩
      SyncParam "" = "Off" := by
    simp only [getParameterDisplay, ha]
    decide
  refine ⟨hs, ha, hd, ?_⟩
  rw [hd]
  decide

/-- C20, amended: `getParameterDisplay` for the Sync index yields `"Off"` when the unit is async
and `"On"` when it is synced; after `setParameter(Sync, s)` it is `"Off"` for `s = 0` and
`"On"` for any other `s`. -/
theorem sync_display (float2string : ℚ → Nat → String) (e : PingPongDelayEffect)
    (text : String) (s : ℚ) :
    (e.unit_.IsAsync = true →
        getParameterDisplay float2string e SyncParam text = "Off") ∧
      (e.unit_.IsAsync = false →
        getParameterDisplay float2string e SyncParam text = "On") ∧
      getParameterDisplay float2string (e.setParameter SyncParam s) SyncParam text =
        (if s = 0 then "Off" else "On") := by
  have hoff : vst_strncpy offLabel_ kVstMaxParamStrLen = "Off" := by decide
  have hon : vst_strncpy onLabel_ kVstMaxParamStrLen = "On" := by decide
  have hidx : SyncParam ≠ DelayParam ∧ SyncParam ≠ FeedbackParam ∧ SyncParam ≠ PanoramaParam ∧
      SyncParam ≠ WetParam := by decide
  have hgen : ∀ e' : PingPongDelayEffect, getParameterDisplay float2string e' SyncParam text =
      if e'.unit_.IsAsync = true then "Off" else "On" := by
    intro e'
    simp only [getParameterDisplay, if_neg hidx.1, if_neg hidx.2.1, if_neg hidx.2.2.1,
      if_neg hidx.2.2.2, if_true, hoff, hon]
  refine ⟨?_, ?_, ?_⟩
  · intro h; rw [hgen, if_pos h]
  · intro h; rw [hgen, h]; simp
  · rw [hgen]
    simp only [setParameter, if_neg hidx.1, if_neg hidx.2.1, if_neg hidx.2.2.1,
      if_neg hidx.2.2.2, if_true, PingPongDelayUnit.SetSyncParam, PingPongDelayUnit.IsAsync]
    by_cases hs : s = 0 <;> simp [hs]

/-- C19: the Delay display is chosen by the mode.  When the unit is async it is `int2string` of
`asyncDelayMs_`, which for a value of `[0, 10^8)` is its decimal rendering; when the unit is
synced and the ratio index is in `0..6` it is the string at that index of
`{"1/4", "1/3", "1/2", "2/3", "1", "3/2", "2"}`; and for every index `i` of `0..6` the string
at `i` denotes the fraction `a/b` that is the entry `i` of the ratio table `GetSample` reads. -/
theorem delay_display (float2string : ℚ → Nat → String) (e : PingPongDelayEffect)
    (text : String) :
    (e.unit_.IsAsync = true →
        getParameterDisplay float2string e DelayParam text =
          int2string e.unit_.asyncDelayMs_ kVstMaxParamStrLen ∧
        (0 ≤ e.unit_.asyncDelayMs_ → e.unit_.asyncDelayMs_ < 10 ^ 8 →
          getParameterDisplay float2string e DelayParam text =
            toString e.unit_.asyncDelayMs_)) ∧
      (e.unit_.IsAsync = false → 0 ≤ e.unit_.syncDelayRatioIndex_ →
        e.unit_.syncDelayRatioIndex_ < 7 →
        ["1/4", "1/3", "1/2", "2/3", "1", "3/2", "2"][e.unit_.syncDelayRatioIndex_.toNat]? =
          some (getParameterDisplay float2string e DelayParam text)) ∧
      (∀ i : Nat, i < 7 → ∃ (str : String) (a b : Nat),
        syncDelayRatioStrings_[i]? = some str ∧ denotedRatio str = some (a, b) ∧
        syncDelayRatios_[i]? = some ((a : ℚ) / (b : ℚ)) ∧
        tableAt syncDelayRatios_ (i : Int) 0 = (a : ℚ) / (b : ℚ)) := by
  refine ⟨?_, ?_, ?_⟩
  · intro ha
    have h1 : getParameterDisplay float2string e DelayParam text =
        int2string e.unit_.asyncDelayMs_ kVstMaxParamStrLen := by
      simp [getParameterDisplay, ha, PingPongDelayUnit.GetAsyncDelayMs]
    refine ⟨h1, ?_⟩
    intro h0 h8
    rw [h1, int2string_of_lt _ h0 h8]
  · intro ha h0 h7
    have h1 : getParameterDisplay float2string e DelayParam text =
        vst_strncpy (tableAt syncDelayRatioStrings_ e.unit_.syncDelayRatioIndex_ "")
          kVstMaxParamStrLen := by
      simp [getParameterDisplay, ha, PingPongDelayUnit.GetSyncDelayRatio]
    rw [h1]
    obtain ⟨k, hk⟩ := Int.eq_ofNat_of_zero_le h0
    have hk7 : k < 7 := by omega
    rw [hk]
    interval_cases k <;> decide
  · intro i hi
    have t2 : Int.toNat 2 = 2 := rfl
    have t3 : Int.toNat 3 = 3 := rfl
    have t4 : Int.toNat 4 = 4 := rfl
    have t5 : Int.toNat 5 = 5 := rfl
    have t6 : Int.toNat 6 = 6 := rfl
    interval_cases i
    · exact ⟨"1/4", 1, 4, by decide, by decide, by norm_num [syncDelayRatios_],
        by norm_num [syncDelayRatios_, tableAt, t2, t3, t4, t5, t6]⟩
    · exact ⟨"1/3", 1, 3, by decide, by decide, by norm_num [syncDelayRatios_],
        by norm_num [syncDelayRatios_, tableAt, t2, t3, t4, t5, t6]⟩
    · exact ⟨"1/2", 1, 2, by decide, by decide, by norm_num [syncDelayRatios_],
        by norm_num [syncDelayRatios_, tableAt, t2, t3, t4, t5, t6]⟩
    · exact ⟨"2/3", 2, 3, by decide, by decide, by norm_num [syncDelayRatios_],
        by norm_num [syncDelayRatios_, tableAt, t2, t3, t4, t5, t6]⟩
    · exact ⟨"1", 1, 1, by decide, by decide, by norm_num [syncDelayRatios_],
        by norm_num [syncDelayRatios_, tableAt, t2, t3, t4, t5, t6]⟩
    · exact ⟨"3/2", 3, 2, by decide, by decide, by norm_num [syncDelayRatios_],
        by norm_num [syncDelayRatios_, tableAt, t2, t3, t4, t5, t6]⟩
    · exact ⟨"2", 2, 1, by decide, by decide, by norm_num [syncDelayRatios_],
        by norm_num [syncDelayRatios_, tableAt, t2, t3, t4, t5, t6]⟩

end PingPongDelayEffect

end PingPongDelay

namespace PingPongDelay

namespace PingPongDelayUnit

/-- Processing frames changes no member other than the buffers and the cursor. -/
theorem afterFrames_params (u : PingPongDelayUnit) (ti : VstTimeInfo)
    (inp : Nat → StereoSample) (n : Nat) :
    (afterFrames u ti inp n).bufferSize_ = u.bufferSize_ ∧
      (afterFrames u ti inp n).feedback_ = u.feedback_ ∧
      (afterFrames u ti inp n).wetParam_ = u.wetParam_ ∧
      (afterFrames u ti inp n).wetParamC_ = u.wetParamC_ ∧
      (afterFrames u ti inp n).panoramaParam_ = u.panoramaParam_ ∧
      (afterFrames u ti inp n).panoramaParamC_ = u.panoramaParamC_ ∧
      (afterFrames u ti inp n).primaryPanningQuotient_ = u.primaryPanningQuotient_ ∧
      (afterFrames u ti inp n).secondaryPanningQuotient_ = u.secondaryPanningQuotient_ ∧
      (afterFrames u ti inp n).isAsync_ = u.isAsync_ ∧
      (afterFrames u ti inp n).asyncDelayMs_ = u.asyncDelayMs_ ∧
      (afterFrames u ti inp n).syncDelayRatioIndex_ = u.syncDelayRatioIndex_ := by
  induction n with
  | zero => exact ⟨rfl, rfl, rfl, rfl, rfl, rfl, rfl, rfl, rfl, rfl, rfl⟩
  | succ n ih =>
    simp only [afterFrames, GetSample_fst]
    exact ih

/-- Processing frames keeps the delay length, for a given transport record. -/
theorem afterFrames_delaySamples (u : PingPongDelayUnit) (ti : VstTimeInfo)
    (inp : Nat → StereoSample) (n : Nat) (ti2 : VstTimeInfo) :
    (afterFrames u ti inp n).delaySamples ti2 = u.delaySamples ti2 := by
  obtain ⟨_, _, _, _, _, _, _, _, h1, h2, h3⟩ := afterFrames_params u ti inp n
  simp only [delaySamples, IsAsync, h1, h2, h3]

/-- With feedback gain 0 and silent buffers at the start, the buffers stay silent whatever the
input is. -/
theorem afterFrames_silent_of_gain_zero (u : PingPongDelayUnit) (ti : VstTimeInfo)
    (inp : Nat → StereoSample) (hg : u.feedback_ = 0)
    (hL : ∀ i, u.leftBuffer_ i = 0) (hR : ∀ i, u.rightBuffer_ i = 0) (n : Nat) :
    (∀ i, (afterFrames u ti inp n).leftBuffer_ i = 0) ∧
      (∀ i, (afterFrames u ti inp n).rightBuffer_ i = 0) := by
  induction n with
  | zero => exact ⟨hL, hR⟩
  | succ n ih =>
    have hgn : (afterFrames u ti inp n).feedback_ = 0 := by
      rw [(afterFrames_params u ti inp n).2.1, hg]
    constructor
    · intro i
      simp only [afterFrames, GetSample_fst, writeAt, hgn, mul_zero, ih.1]
      split_ifs <;> rfl
    · intro i
      simp only [afterFrames, GetSample_fst, writeAt, hgn, mul_zero, ih.2]
      split_ifs <;> rfl

/-- With feedback gain 0 and silent buffers at the start, every output is the dry part of the
input. -/
theorem outputAt_of_gain_zero (u : PingPongDelayUnit) (ti : VstTimeInfo)
    (inp : Nat → StereoSample) (hg : u.feedback_ = 0)
    (hL : ∀ i, u.leftBuffer_ i = 0) (hR : ∀ i, u.rightBuffer_ i = 0) (n : Nat) :
    outputAt u ti inp n = ⟨u.wetParamC_ * (inp n).first, u.wetParamC_ * (inp n).second⟩ := by
  have hs := afterFrames_silent_of_gain_zero u ti inp hg hL hR (n + 1)
  have hp := afterFrames_params u ti inp n
  unfold outputAt
  rw [GetSample_snd]
  have hL2 : ∀ i, ((afterFrames u ti inp n).GetSample ti (inp n)).1.leftBuffer_ i = 0 := hs.1
  have hR2 : ∀ i, ((afterFrames u ti inp n).GetSample ti (inp n)).1.rightBuffer_ i = 0 := hs.2
  simp only [hL2, hR2, hp.2.2.2.1, mul_zero, add_zero]

end PingPongDelayUnit

end PingPongDelay

namespace PingPongDelay

namespace PingPongDelayUnit

/-- The cursor after `n` frames is the starting cursor plus `n`, modulo the capacity. -/
theorem afterFrames_cursor (u : PingPongDelayUnit) (ti : VstTimeInfo)
    (inp : Nat → StereoSample) (h0 : 0 ≤ u.bufferCursor_) (h1 : u.bufferCursor_ < u.bufferSize_)
    (n : Nat) :
    (afterFrames u ti inp n).bufferCursor_ = (u.bufferCursor_ + (n : Int)) % u.bufferSize_ := by
  induction n with
  | zero => simp [afterFrames, Int.emod_eq_of_lt h0 h1]
  | succ n ih =>
    have hs := (afterFrames_params u ti inp n).1
    have hpos : 0 < u.bufferSize_ := by omega
    have hstep := bufferCursor_step (afterFrames u ti inp n) (Call.getSample ti (inp n))
      (by rw [hs]; omega) (by rw [ih]; exact Int.emod_nonneg _ (by omega))
      (by rw [ih, hs]; exact Int.emod_lt_of_pos _ hpos)
    simp only [step, Call.isGetSample, if_true] at hstep
    show ((afterFrames u ti inp n).GetSample ti (inp n)).1.bufferCursor_ = _
    rw [hstep, ih, hs, Int.emod_add_emod]
    push_cast
    rw [add_assoc]

/-- The sample returned by `GetSample` for a positive capacity, the delayed cursors being the
non-negative remainders. -/
theorem GetSample_snd_emod (u : PingPongDelayUnit) (ti : VstTimeInfo) (inp : StereoSample)
    (hpos : 0 < u.bufferSize_) :
    (u.GetSample ti inp).2 =
      { first := u.wetParamC_ * inp.first +
          u.wetParam_ * (u.panoramaParamC_ *
              (u.primaryPanningQuotient_ * (u.GetSample ti inp).1.leftBuffer_
                  ((u.bufferCursor_ - u.delaySamples ti) % u.bufferSize_) +
                u.secondaryPanningQuotient_ * (u.GetSample ti inp).1.rightBuffer_
                  ((u.bufferCursor_ - u.delaySamples ti) % u.bufferSize_)) +
            u.panoramaParam_ *
              (u.secondaryPanningQuotient_ * (u.GetSample ti inp).1.leftBuffer_
                  ((u.bufferCursor_ - 2 * u.delaySamples ti) % u.bufferSize_) +
                u.primaryPanningQuotient_ * (u.GetSample ti inp).1.rightBuffer_
                  ((u.bufferCursor_ - 2 * u.delaySamples ti) % u.bufferSize_)))
        second := u.wetParamC_ * inp.second +
          u.wetParam_ * (u.panoramaParam_ *
              (u.primaryPanningQuotient_ * (u.GetSample ti inp).1.leftBuffer_
                  ((u.bufferCursor_ - u.delaySamples ti) % u.bufferSize_) +
                u.secondaryPanningQuotient_ * (u.GetSample ti inp).1.rightBuffer_
                  ((u.bufferCursor_ - u.delaySamples ti) % u.bufferSize_)) +
            u.panoramaParamC_ *
              (u.secondaryPanningQuotient_ * (u.GetSample ti inp).1.leftBuffer_
                  ((u.bufferCursor_ - 2 * u.delaySamples ti) % u.bufferSize_) +
                u.primaryPanningQuotient_ * (u.GetSample ti inp).1.rightBuffer_
                  ((u.bufferCursor_ - 2 * u.delaySamples ti) % u.bufferSize_))) } := by
  have h := GetSample_snd u ti inp
  rw [BufferModulo_eq_emod u hpos, BufferModulo_eq_emod u hpos,
    mul_comm (u.delaySamples ti) 2] at h
  exact h

/-- The output for frame `n` of a stream, by the output formula read in the buffers after the
write of that call. -/
theorem outputAt_first_eq (u0 : PingPongDelayUnit) (ti : VstTimeInfo)
    (inp : Nat → StereoSample) (n : Nat)
    (hpos : 0 < (afterFrames u0 ti inp n).bufferSize_) :
    (outputAt u0 ti inp n).first =
      (afterFrames u0 ti inp n).wetParamC_ * (inp n).first +
        (afterFrames u0 ti inp n).wetParam_ * ((afterFrames u0 ti inp n).panoramaParamC_ *
            ((afterFrames u0 ti inp n).primaryPanningQuotient_ *
                ((afterFrames u0 ti inp n).GetSample ti (inp n)).1.leftBuffer_
                  (((afterFrames u0 ti inp n).bufferCursor_ -
                    (afterFrames u0 ti inp n).delaySamples ti) %
                      (afterFrames u0 ti inp n).bufferSize_) +
              (afterFrames u0 ti inp n).secondaryPanningQuotient_ *
                ((afterFrames u0 ti inp n).GetSample ti (inp n)).1.rightBuffer_
                  (((afterFrames u0 ti inp n).bufferCursor_ -
                    (afterFrames u0 ti inp n).delaySamples ti) %
                      (afterFrames u0 ti inp n).bufferSize_)) +
          (afterFrames u0 ti inp n).panoramaParam_ *
            ((afterFrames u0 ti inp n).secondaryPanningQuotient_ *
                ((afterFrames u0 ti inp n).GetSample ti (inp n)).1.leftBuffer_
                  (((afterFrames u0 ti inp n).bufferCursor_ -
                    2 * (afterFrames u0 ti inp n).delaySamples ti) %
                      (afterFrames u0 ti inp n).bufferSize_) +
              (afterFrames u0 ti inp n).primaryPanningQuotient_ *
                ((afterFrames u0 ti inp n).GetSample ti (inp n)).1.rightBuffer_
                  (((afterFrames u0 ti inp n).bufferCursor_ -
                    2 * (afterFrames u0 ti inp n).delaySamples ti) %
                      (afterFrames u0 ti inp n).bufferSize_))) :=
  congrArg StereoSample.first (GetSample_snd_emod (afterFrames u0 ti inp n) ti (inp n) hpos)

/-- The members of the unit of the scenario: capacity 10000, delay parameter 0, feedback
parameter 0, panorama 0.5, wet 1, sync 0. -/
theorem scenario_params (garb tempo : ℚ) :
    (new 10000 0 0 (1 / 2) 1 0 garb).IsAsync = true ∧
      (new 10000 0 0 (1 / 2) 1 0 garb).asyncDelayMs_ = 10 ∧
      (new 10000 0 0 (1 / 2) 1 0 garb).delaySamples ⟨44100, tempo⟩ = 441 ∧
      (new 10000 0 0 (1 / 2) 1 0 garb).feedback_ = 0 ∧
      (new 10000 0 0 (1 / 2) 1 0 garb).wetParam_ = 1 ∧
      (new 10000 0 0 (1 / 2) 1 0 garb).wetParamC_ = 0 ∧
      (new 10000 0 0 (1 / 2) 1 0 garb).panoramaParam_ = 1 / 2 ∧
      (new 10000 0 0 (1 / 2) 1 0 garb).bufferSize_ = 10000 ∧
      (new 10000 0 0 (1 / 2) 1 0 garb).bufferCursor_ = 0 := by
  have ha : (new 10000 0 0 (1 / 2) 1 0 garb).isAsync_ = true := by
    simp [PingPongDelayUnit.new, SetSyncParam]
  have hm : (new 10000 0 0 (1 / 2) 1 0 garb).asyncDelayMs_ = 10 := by
    norm_num [PingPongDelayUnit.new, SetSyncParam, SetWetParam, SetPanoramaParam,
      SetFeedbackParam, SetDelayParam, Corresponding, toInt, minAsyncDelayMs_, maxAsyncDelayMs_]
  refine ⟨ha, hm, ?_, ?_, rfl, ?_, rfl, rfl, rfl⟩
  · rw [delaySamples_of_isAsync _ _ ha, hm]
    simp only [Int.cast_ofNat]
    exact asyncDelay_10_44100
  · norm_num [PingPongDelayUnit.new, SetSyncParam, SetWetParam, SetPanoramaParam,
      SetFeedbackParam, CorrespondingF, minFeedback_, maxFeedback_]
  · norm_num [PingPongDelayUnit.new, SetSyncParam, SetWetParam]

/-- C13: in the scenario (fresh engine of capacity 10000, async, delay parameter 0 so 10 ms and
441 samples at 44100 samples per second, feedback parameter 0, wet 1, panorama 0.5, both
quotients 0.5) the impulse `(1, 1)` at sample 0 followed by zeros gives the output `(0, 0)` at
the samples `0..440`; at sample 441 the cursor is 441, the semi-delayed cursor is 0, the left
and right outputs are equal, and they are the value of the output formula read in the buffers
after the write.  That value is 0: the feedback gain 0 multiplies every sample written. -/
theorem impulse_scenario (garb tempo : ℚ) (hq : |1 / 2 - garb| = 1 / 2) :
    let u0 : PingPongDelayUnit := new 10000 0 0 (1 / 2) 1 0 garb
    let ti : VstTimeInfo := ⟨44100, tempo⟩
    let u : PingPongDelayUnit := afterFrames u0 ti impulse 441
    let L : Int → ℚ := (u.GetSample ti (impulse 441)).1.leftBuffer_
    let R : Int → ℚ := (u.GetSample ti (impulse 441)).1.rightBuffer_
    let semi : Int := (u.bufferCursor_ - u.delaySamples ti) % u.bufferSize_
    let full : Int := (u.bufferCursor_ - 2 * u.delaySamples ti) % u.bufferSize_
    (u0.IsAsync = true ∧ u0.asyncDelayMs_ = 10 ∧ u0.delaySamples ti = 441 ∧
        u0.feedback_ = 0 ∧ u0.wetParam_ = 1 ∧ u0.panoramaParam_ = 1 / 2 ∧
        u0.primaryPanningQuotient_ = 1 / 2 ∧ u0.secondaryPanningQuotient_ = 1 / 2) ∧
      (∀ n : Nat, n ≤ 440 → outputAt u0 ti impulse n = ⟨0, 0⟩) ∧
      (u.bufferCursor_ = 441 ∧ semi = 0) ∧
      (outputAt u0 ti impulse 441).first = (outputAt u0 ti impulse 441).second ∧
      (outputAt u0 ti impulse 441).first =
        u.wetParamC_ * (impulse 441).first +
          u.wetParam_ * (u.panoramaParamC_ *
              (u.primaryPanningQuotient_ * L semi + u.secondaryPanningQuotient_ * R semi) +
            u.panoramaParam_ *
              (u.secondaryPanningQuotient_ * L full + u.primaryPanningQuotient_ * R full)) ∧
      outputAt u0 ti impulse 441 = ⟨0, 0⟩ := by
  dsimp only
  obtain ⟨ha, hm, hd, hg, hw, hwc, hp, hsz, hcur⟩ := scenario_params garb tempo
  have hq1 : (new 10000 0 0 (1 / 2) 1 0 garb).secondaryPanningQuotient_ = 1 / 2 := hq
  have hq2 : (new 10000 0 0 (1 / 2) 1 0 garb).primaryPanningQuotient_ = 1 / 2 := by
    show 1 - |1 / 2 - garb| = 1 / 2
    rw [hq]; norm_num
  have hL : ∀ i, (new 10000 0 0 (1 / 2) 1 0 garb).leftBuffer_ i = 0 := fun _ => rfl
  have hR : ∀ i, (new 10000 0 0 (1 / 2) 1 0 garb).rightBuffer_ i = 0 := fun _ => rfl
  generalize new 10000 0 0 (1 / 2) 1 0 garb = u0 at *
  generalize (⟨44100, tempo⟩ : VstTimeInfo) = ti at *
  have hout : ∀ n : Nat, outputAt u0 ti impulse n = ⟨0, 0⟩ := by
    intro n
    rw [outputAt_of_gain_zero u0 ti impulse hg hL hR n, hwc]
    simp
  have hucur : (afterFrames u0 ti impulse 441).bufferCursor_ = 441 := by
    rw [afterFrames_cursor u0 ti impulse (by rw [hcur]) (by rw [hcur, hsz]; norm_num) 441,
      hcur, hsz]
    norm_num
  have husz : (afterFrames u0 ti impulse 441).bufferSize_ = 10000 := by
    rw [(afterFrames_params u0 ti impulse 441).1, hsz]
  have hud : (afterFrames u0 ti impulse 441).delaySamples ti = 441 := by
    rw [afterFrames_delaySamples u0 ti impulse 441 ti, hd]
  have hpos : 0 < (afterFrames u0 ti impulse 441).bufferSize_ := by rw [husz]; norm_num
  refine ⟨⟨ha, hm, hd, hg, hw, hp, hq2, hq1⟩, fun n _ => hout n, ⟨hucur, ?_⟩, ?_, ?_, hout 441⟩
  · rw [hucur, hud, husz]; norm_num
  · rw [hout 441]
  · exact outputAt_first_eq u0 ti impulse 441 hpos

/-- C13 with the indeterminate quotient value 0, which makes both quotients 0.5. -/
theorem impulse_scenario_witness :
    |(1 : ℚ) / 2 - 0| = 1 / 2 ∧
      outputAt (new 10000 0 0 (1 / 2) 1 0 0) ⟨44100, 120⟩ impulse 441 = ⟨0, 0⟩ := by
  have hq : |(1 : ℚ) / 2 - 0| = 1 / 2 := by norm_num [abs_of_nonneg]
  exact ⟨hq, (impulse_scenario 0 120 hq).2.2.2.2.2⟩

end PingPongDelayUnit

end PingPongDelay

/-! ## The history kept by the delay line -/

namespace PingPongDelay

namespace PingPongDelayUnit

theorem emod_ne_of_lt (a b N : Int) (h1 : a < b) (h2 : b - a < N) : a % N ≠ b % N := by
  intro h
  have h3 : (b - a) % N = 0 := Int.emod_eq_emod_iff_emod_sub_eq_zero.mp h.symm
  rw [Int.emod_eq_of_lt (by omega) h2] at h3
  omega

theorem emod_sub_emod_left (a b N : Int) : (a % N - b) % N = (a - b) % N := by
  rw [sub_eq_add_neg, Int.emod_add_emod, ← sub_eq_add_neg]

/-- The non-negative remainder of a negative number above `-N`. -/
theorem emod_of_neg (a N : Int) (h1 : a < 0) (h2 : 0 ≤ a + N) : a % N = a + N := by
  rw [← Int.add_emod_self, Int.emod_eq_of_lt h2 (by omega)]

/-- From a fresh delay line (cursor 0, silent buffers), after `n` frames: the cell at
`m mod capacity` holds what the call for frame `m` stored, for each of the last `capacity`
frames `m`, and the cells from `n` on, not yet written, are silent. -/
theorem afterFrames_history (u : PingPongDelayUnit) (ti : VstTimeInfo)
    (inp : Nat → StereoSample) (hc : u.bufferCursor_ = 0) (hN : 0 < u.bufferSize_)
    (hL : ∀ i, u.leftBuffer_ i = 0) (hR : ∀ i, u.rightBuffer_ i = 0) (n : Nat) :
    (∀ m : Nat, m < n → (n : Int) ≤ (m : Int) + u.bufferSize_ →
        (afterFrames u ti inp n).leftBuffer_ ((m : Int) % u.bufferSize_) =
          (writtenAt u ti inp m).first ∧
        (afterFrames u ti inp n).rightBuffer_ ((m : Int) % u.bufferSize_) =
          (writtenAt u ti inp m).second) ∧
      (∀ j : Int, (n : Int) ≤ j → j < u.bufferSize_ →
        (afterFrames u ti inp n).leftBuffer_ j = 0 ∧
        (afterFrames u ti inp n).rightBuffer_ j = 0) := by
  have hcur : ∀ k : Nat, (afterFrames u ti inp k).bufferCursor_ = (k : Int) % u.bufferSize_ := by
    intro k
    rw [afterFrames_cursor u ti inp (by omega) (by omega) k, hc, zero_add]
  induction n with
  | zero =>
    refine ⟨fun m hm => absurd hm (Nat.not_lt_zero m), fun j _ _ => ⟨hL j, hR j⟩⟩
  | succ n ih =>
    have hleft : ∀ j : Int, j ≠ (n : Int) % u.bufferSize_ →
        (afterFrames u ti inp (n + 1)).leftBuffer_ j = (afterFrames u ti inp n).leftBuffer_ j ∧
        (afterFrames u ti inp (n + 1)).rightBuffer_ j =
          (afterFrames u ti inp n).rightBuffer_ j := by
      intro j hj
      show ((afterFrames u ti inp n).GetSample ti (inp n)).1.leftBuffer_ j = _ ∧
        ((afterFrames u ti inp n).GetSample ti (inp n)).1.rightBuffer_ j = _
      rw [GetSample_fst]
      simp only [writeAt, hcur n, if_neg hj, and_self]
    constructor
    · intro m hm hle
      rcases Nat.lt_succ_iff_lt_or_eq.mp hm with hlt | rfl
      · have hne : (m : Int) % u.bufferSize_ ≠ (n : Int) % u.bufferSize_ :=
          emod_ne_of_lt _ _ _ (by exact_mod_cast hlt) (by push_cast at hle; omega)
        obtain ⟨h1, h2⟩ := hleft _ hne
        rw [h1, h2]
        exact ih.1 m hlt (by push_cast at hle; omega)
      · simp only [writtenAt, hcur m, and_self]
    · intro j hj1 hj2
      have hne : j ≠ (n : Int) % u.bufferSize_ := by
        rw [Int.emod_eq_of_lt (by omega) (by push_cast at hj1; omega)]
        push_cast at hj1
        omega
      obtain ⟨h1, h2⟩ := hleft _ hne
      rw [h1, h2]
      exact ih.2 j (by push_cast at hj1; omega) hj2

/-- From a fresh delay line, the cell `e` frames behind the cursor of the call for frame `n`
(`0 < e < capacity`) holds what the call for frame `n - e` stored, or 0 when `n < e`, both
before and after the write of the call for frame `n`. -/
theorem afterFrames_read (u : PingPongDelayUnit) (ti : VstTimeInfo)
    (inp : Nat → StereoSample) (hc : u.bufferCursor_ = 0) (hN : 0 < u.bufferSize_)
    (hL : ∀ i, u.leftBuffer_ i = 0) (hR : ∀ i, u.rightBuffer_ i = 0) (n e : Nat)
    (he0 : 0 < e) (he : (e : Int) < u.bufferSize_) (k : Nat) (hk : k = n ∨ k = n + 1) :
    (afterFrames u ti inp k).leftBuffer_ (((n : Int) - (e : Int)) % u.bufferSize_) =
        (if e ≤ n then (writtenAt u ti inp (n - e)).first else 0) ∧
      (afterFrames u ti inp k).rightBuffer_ (((n : Int) - (e : Int)) % u.bufferSize_) =
        (if e ≤ n then (writtenAt u ti inp (n - e)).second else 0) := by
  have hist := afterFrames_history u ti inp hc hN hL hR k
  by_cases hen : e ≤ n
  · simp only [if_pos hen]
    have hcast : ((n - e : Nat) : Int) = (n : Int) - (e : Int) := by
      push_cast [Nat.cast_sub hen]; ring
    rw [← hcast]
    apply hist.1 (n - e)
    · rcases hk with rfl | rfl <;> omega
    · rw [hcast]; rcases hk with rfl | rfl <;> push_cast <;> omega
  · simp only [if_neg hen]
    push_neg at hen
    have hlt : (n : Int) - (e : Int) < 0 := by
      have : (n : Int) < (e : Int) := by exact_mod_cast hen
      omega
    rw [emod_of_neg _ _ hlt (by omega)]
    apply hist.2
    · rcases hk with rfl | rfl <;> push_cast <;> omega
    · omega

end PingPongDelayUnit

end PingPongDelay

namespace PingPongDelay

namespace PingPongDelayUnit

/-- From a fresh delay line with a constant delay of `d` samples, `0 < 2 * d < capacity`: what
the call for frame `n` stores is the input plus what the call for frame `n - 2 * d` stored
(nothing when `n < 2 * d`), times the feedback gain, in each channel. -/
theorem writtenAt_rec (u : PingPongDelayUnit) (ti : VstTimeInfo)
    (inp : Nat → StereoSample) (hc : u.bufferCursor_ = 0)
    (hL : ∀ i, u.leftBuffer_ i = 0) (hR : ∀ i, u.rightBuffer_ i = 0) (d : Nat)
    (hd : u.delaySamples ti = (d : Int)) (hpos : 0 < d) (hcap : 2 * (d : Int) < u.bufferSize_)
    (n : Nat) :
    (writtenAt u ti inp n).first =
        ((inp n).first + (if 2 * d ≤ n then (writtenAt u ti inp (n - 2 * d)).first else 0)) *
          u.feedback_ ∧
      (writtenAt u ti inp n).second =
        ((inp n).second + (if 2 * d ≤ n then (writtenAt u ti inp (n - 2 * d)).second else 0)) *
          u.feedback_ := by
  have hN : 0 < u.bufferSize_ := by omega
  have hp := afterFrames_params u ti inp n
  have hcur : (afterFrames u ti inp n).bufferCursor_ = (n : Int) % u.bufferSize_ := by
    rw [afterFrames_cursor u ti inp (by omega) (by omega) n, hc, zero_add]
  have hread := afterFrames_read u ti inp hc hN hL hR n (2 * d) (by omega)
    (by push_cast; omega) n (Or.inl rfl)
  have hidx : (afterFrames u ti inp n).BufferModulo
      ((afterFrames u ti inp n).bufferCursor_ - (afterFrames u ti inp n).delaySamples ti * 2) =
      ((n : Int) - ((2 * d : Nat) : Int)) % u.bufferSize_ := by
    rw [BufferModulo_eq_emod _ (by rw [hp.1]; exact hN), hp.1, hcur,
      afterFrames_delaySamples u ti inp n ti, hd, emod_sub_emod_left]
    push_cast
    rw [mul_comm]
  have hfst := GetSample_fst (afterFrames u ti inp n) ti (inp n)
  rw [hidx, hread.1, hread.2, hp.2.1] at hfst
  have hw1 : (writtenAt u ti inp n).first =
      ((afterFrames u ti inp n).GetSample ti (inp n)).1.leftBuffer_
        (afterFrames u ti inp n).bufferCursor_ := rfl
  have hw2 : (writtenAt u ti inp n).second =
      ((afterFrames u ti inp n).GetSample ti (inp n)).1.rightBuffer_
        (afterFrames u ti inp n).bufferCursor_ := rfl
  rw [hw1, hw2, hfst]
  simp only [writeAt, if_true, and_self]

/-- From a fresh delay line with a constant delay of `d` samples, `0 < 2 * d < capacity`: the
output for frame `n` is the output formula applied to what the calls for the frames `n - d` and
`n - 2 * d` stored (0 for a frame before the first). -/
theorem outputAt_history (u : PingPongDelayUnit) (ti : VstTimeInfo)
    (inp : Nat → StereoSample) (hc : u.bufferCursor_ = 0)
    (hL : ∀ i, u.leftBuffer_ i = 0) (hR : ∀ i, u.rightBuffer_ i = 0) (d : Nat)
    (hd : u.delaySamples ti = (d : Int)) (hpos : 0 < d) (hcap : 2 * (d : Int) < u.bufferSize_)
    (n : Nat) :
    outputAt u ti inp n =
      { first := u.wetParamC_ * (inp n).first +
          u.wetParam_ * (u.panoramaParamC_ *
              (u.primaryPanningQuotient_ *
                  (if d ≤ n then (writtenAt u ti inp (n - d)).first else 0) +
                u.secondaryPanningQuotient_ *
                  (if d ≤ n then (writtenAt u ti inp (n - d)).second else 0)) +
            u.panoramaParam_ *
              (u.secondaryPanningQuotient_ *
                  (if 2 * d ≤ n then (writtenAt u ti inp (n - 2 * d)).first else 0) +
                u.primaryPanningQuotient_ *
                  (if 2 * d ≤ n then (writtenAt u ti inp (n - 2 * d)).second else 0)))
        second := u.wetParamC_ * (inp n).second +
          u.wetParam_ * (u.panoramaParam_ *
              (u.primaryPanningQuotient_ *
                  (if d ≤ n then (writtenAt u ti inp (n - d)).first else 0) +
                u.secondaryPanningQuotient_ *
                  (if d ≤ n then (writtenAt u ti inp (n - d)).second else 0)) +
            u.panoramaParamC_ *
              (u.secondaryPanningQuotient_ *
                  (if 2 * d ≤ n then (writtenAt u ti inp (n - 2 * d)).first else 0) +
                u.primaryPanningQuotient_ *
                  (if 2 * d ≤ n then (writtenAt u ti inp (n - 2 * d)).second else 0))) } := by
  have hN : 0 < u.bufferSize_ := by omega
  obtain ⟨hp1, _, hp3, hp4, hp5, hp6, hp7, hp8, _, _, _⟩ := afterFrames_params u ti inp n
  have hcur : (afterFrames u ti inp n).bufferCursor_ = (n : Int) % u.bufferSize_ := by
    rw [afterFrames_cursor u ti inp (by omega) (by omega) n, hc, zero_add]
  have hsemi := afterFrames_read u ti inp hc hN hL hR n d hpos (by omega) (n + 1) (Or.inr rfl)
  have hfull := afterFrames_read u ti inp hc hN hL hR n (2 * d) (by omega)
    (by push_cast; omega) (n + 1) (Or.inr rfl)
  have h2 : ((2 * d : Nat) : Int) = 2 * (d : Int) := by push_cast; rfl
  rw [h2] at hfull
  have hout := GetSample_snd_emod (afterFrames u ti inp n) ti (inp n) (by rw [hp1]; exact hN)
  rw [hp1, hcur, afterFrames_delaySamples u ti inp n ti, hd, emod_sub_emod_left,
    emod_sub_emod_left, hp3, hp4, hp5, hp6, hp7, hp8] at hout
  have hsL : ((afterFrames u ti inp n).GetSample ti (inp n)).1.leftBuffer_
      (((n : Int) - (d : Int)) % u.bufferSize_) = _ := hsemi.1
  have hsR : ((afterFrames u ti inp n).GetSample ti (inp n)).1.rightBuffer_
      (((n : Int) - (d : Int)) % u.bufferSize_) = _ := hsemi.2
  have hfL : ((afterFrames u ti inp n).GetSample ti (inp n)).1.leftBuffer_
      (((n : Int) - 2 * (d : Int)) % u.bufferSize_) = _ := hfull.1
  have hfR : ((afterFrames u ti inp n).GetSample ti (inp n)).1.rightBuffer_
      (((n : Int) - 2 * (d : Int)) % u.bufferSize_) = _ := hfull.2
  rw [hsL, hsR, hfL, hfR] at hout
  exact hout

end PingPongDelayUnit

end PingPongDelay

/-! ## The impulse response -/

namespace PingPongDelay

namespace PingPongDelayUnit

/-- From a fresh delay line with a constant delay of `d` samples, `0 < 2 * d < capacity`, and
feedback gain `g`: on the impulse the call for frame `n` stores `g ^ (k + 1)` in both channels
when `n = 2 * d * k`, and 0 at every other frame. -/
theorem writtenAt_impulse (u : PingPongDelayUnit) (ti : VstTimeInfo)
    (hc : u.bufferCursor_ = 0) (hL : ∀ i, u.leftBuffer_ i = 0) (hR : ∀ i, u.rightBuffer_ i = 0)
    (d : Nat) (hd : u.delaySamples ti = (d : Int)) (hpos : 0 < d)
    (hcap : 2 * (d : Int) < u.bufferSize_) (n : Nat) :
    (writtenAt u ti impulse n).first =
        (if 2 * d ∣ n then u.feedback_ ^ (n / (2 * d) + 1) else 0) ∧
      (writtenAt u ti impulse n).second =
        (if 2 * d ∣ n then u.feedback_ ^ (n / (2 * d) + 1) else 0) := by
  induction n using Nat.strong_induction_on with
  | _ n ih =>
    obtain ⟨h1, h2⟩ := writtenAt_rec u ti impulse hc hL hR d hd hpos hcap n
    rw [h1, h2]
    have h2d : 0 < 2 * d := by omega
    rcases Nat.eq_zero_or_pos n with rfl | hn
    · simp [impulse, Nat.le_zero, Nat.ne_of_gt h2d]
    · have himp : impulse n = ⟨0, 0⟩ := by simp [impulse, Nat.ne_of_gt hn]
      rw [himp]
      by_cases hle : 2 * d ≤ n
      · obtain ⟨i1, i2⟩ := ih (n - 2 * d) (by omega)
        simp only [if_pos hle, i1, i2, zero_add]
        have hdvd : 2 * d ∣ n - 2 * d ↔ 2 * d ∣ n := by
          constructor
          · intro h
            have := Nat.dvd_add h (Nat.dvd_refl (2 * d))
            rwa [Nat.sub_add_cancel hle] at this
          · intro h
            exact Nat.dvd_sub' h (Nat.dvd_refl (2 * d))
        by_cases hdv : 2 * d ∣ n
        · have hq : n / (2 * d) = (n - 2 * d) / (2 * d) + 1 := by
            obtain ⟨q, rfl⟩ := hdv
            have hq1 : 1 ≤ q := by
              rcases Nat.eq_zero_or_pos q with rfl | hq0
              · omega
              · exact hq0
            have e1 : 2 * d * q - 2 * d = 2 * d * (q - 1) := by
              rw [Nat.mul_sub, Nat.mul_one]
            rw [e1, Nat.mul_div_cancel_left _ h2d, Nat.mul_div_cancel_left _ h2d]
            omega
          simp only [if_pos hdv, if_pos (hdvd.mpr hdv), hq, and_self]
          rw [pow_succ _ ((n - 2 * d) / (2 * d) + 1)]
        · simp only [if_neg hdv, if_neg (fun h => hdv (hdvd.mp h)), zero_mul, and_self]
      · have hnd : ¬ 2 * d ∣ n := by
          intro h
          have := Nat.le_of_dvd hn h
          omega
        simp only [if_neg hle, if_neg hnd, add_zero, zero_mul, and_self]

end PingPongDelayUnit

end PingPongDelay

namespace PingPongDelay

namespace PingPongDelayUnit

theorem not_two_mul_dvd_odd_mul (d k : Nat) (hd : 0 < d) : ¬ 2 * d ∣ (2 * k + 1) * d := by
  rintro ⟨q, hq⟩
  have h : d * (2 * k + 1) = d * (2 * q) := by
    rw [mul_comm d (2 * k + 1), hq]; ring
  have := Nat.eq_of_mul_eq_mul_left hd h
  omega

/-- C14: for a fresh delay line (cursor 0 and silent buffers, as the constructor leaves them)
with panorama 0 (complement 1), wet 1 (complement 0), any quotients with `q1 + q2 = 1`, feedback
gain `g` and a constant delay of `d` samples with `0 < 2 * d < capacity`, the impulse `(1, 1)`
at sample 0 followed by zeros gives, for every `k`, the output `(g ^ (k + 1), 0)` at sample
`(2 * k + 1) * d` and `(0, g ^ (k + 1))` at sample `(2 * k + 2) * d`, and `(0, 0)` at every other
sample; the gain is 0.4 for the feedback parameter 0.5. -/
theorem impulse_repeats (u : PingPongDelayUnit) (ti : VstTimeInfo) (d : Nat)
    (hc : u.bufferCursor_ = 0) (hL : ∀ i, u.leftBuffer_ i = 0) (hR : ∀ i, u.rightBuffer_ i = 0)
    (hpan : u.panoramaParam_ = 0) (hpanC : u.panoramaParamC_ = 1)
    (hwet : u.wetParam_ = 1) (hwetC : u.wetParamC_ = 0)
    (hq : u.primaryPanningQuotient_ + u.secondaryPanningQuotient_ = 1)
    (hd : u.delaySamples ti = (d : Int)) (hpos : 0 < d)
    (hcap : 2 * (d : Int) < u.bufferSize_) :
    (∀ k : Nat,
        outputAt u ti impulse ((2 * k + 1) * d) = ⟨u.feedback_ ^ (k + 1), 0⟩ ∧
        outputAt u ti impulse ((2 * k + 2) * d) = ⟨0, u.feedback_ ^ (k + 1)⟩) ∧
      (∀ n : Nat, (∀ k : Nat, n ≠ (2 * k + 1) * d ∧ n ≠ (2 * k + 2) * d) →
        outputAt u ti impulse n = ⟨0, 0⟩) ∧
      (u.SetFeedbackParam (1 / 2)).feedback_ = 4 / 10 := by
  have h2d : 0 < 2 * d := by omega
  have hW := writtenAt_impulse u ti hc hL hR d hd hpos hcap
  have hout : ∀ n : Nat, outputAt u ti impulse n =
      ⟨if d ≤ n then (if 2 * d ∣ n - d then u.feedback_ ^ ((n - d) / (2 * d) + 1) else 0) else 0,
        if 2 * d ≤ n then
          (if 2 * d ∣ n - 2 * d then u.feedback_ ^ ((n - 2 * d) / (2 * d) + 1) else 0)
        else 0⟩ := by
    intro n
    rw [outputAt_history u ti impulse hc hL hR d hd hpos hcap n, hpan, hpanC, hwet, hwetC,
      (hW (n - d)).1, (hW (n - d)).2, (hW (n - 2 * d)).1, (hW (n - 2 * d)).2]
    have hq2 : u.secondaryPanningQuotient_ = 1 - u.primaryPanningQuotient_ := by linarith
    rw [hq2]
    congr 1 <;> ring
  refine ⟨fun k => ⟨?_, ?_⟩, ?_, ?_⟩
  · rw [hout]
    have hle : d ≤ (2 * k + 1) * d := Nat.le_mul_of_pos_left d (by omega)
    have hsub : (2 * k + 1) * d - d = 2 * d * k := by
      have : (2 * k + 1) * d = 2 * d * k + d := by ring
      omega
    have hnd : 2 * d ≤ (2 * k + 1) * d → ¬ 2 * d ∣ (2 * k + 1) * d - 2 * d := by
      intro h2 hdv
      have := Nat.dvd_add hdv (Nat.dvd_refl (2 * d))
      rw [Nat.sub_add_cancel h2] at this
      exact not_two_mul_dvd_odd_mul d k hpos this
    rw [if_pos hle, hsub, if_pos (Nat.dvd_mul_right _ _), Nat.mul_div_cancel_left _ h2d]
    by_cases h2 : 2 * d ≤ (2 * k + 1) * d
    · rw [if_pos h2, if_neg (hnd h2)]
    · rw [if_neg h2]
  · rw [hout]
    have hexp : (2 * k + 2) * d = 2 * d * k + 2 * d := by ring
    have hle : d ≤ (2 * k + 2) * d := by omega
    have hle2 : 2 * d ≤ (2 * k + 2) * d := by omega
    have hsub1 : (2 * k + 2) * d - d = (2 * k + 1) * d := by
      have : (2 * k + 1) * d = 2 * d * k + d := by ring
      omega
    have hsub2 : (2 * k + 2) * d - 2 * d = 2 * d * k := by omega
    rw [if_pos hle, if_pos hle2, hsub1, hsub2, if_neg (not_two_mul_dvd_odd_mul d k hpos),
      if_pos (Nat.dvd_mul_right _ _), Nat.mul_div_cancel_left _ h2d]
  · intro n hn
    rw [hout]
    have h1 : (if d ≤ n then
        (if 2 * d ∣ n - d then u.feedback_ ^ ((n - d) / (2 * d) + 1) else 0) else 0) = 0 := by
      by_cases hle : d ≤ n
      · rw [if_pos hle]
        by_cases hdv : 2 * d ∣ n - d
        · exfalso
          obtain ⟨q, hq⟩ := hdv
          apply (hn q).1
          have : (2 * q + 1) * d = 2 * d * q + d := by ring
          omega
        · rw [if_neg hdv]
      · rw [if_neg hle]
    have h2 : (if 2 * d ≤ n then
        (if 2 * d ∣ n - 2 * d then u.feedback_ ^ ((n - 2 * d) / (2 * d) + 1) else 0)
        else 0) = 0 := by
      by_cases hle : 2 * d ≤ n
      · rw [if_pos hle]
        by_cases hdv : 2 * d ∣ n - 2 * d
        · exfalso
          obtain ⟨q, hq⟩ := hdv
          apply (hn q).2
          have : (2 * q + 2) * d = 2 * d * q + 2 * d := by ring
          omega
        · rw [if_neg hdv]
      · rw [if_neg hle]
    rw [h1, h2]
  · norm_num [SetFeedbackParam, CorrespondingF, minFeedback_, maxFeedback_]

/-- C14 for the engine constructed with capacity 10, feedback parameter 0.5, panorama 0 and
wet 1, at 200 samples per second (a delay of 2 samples): the first repeats are `(0.4, 0)` at
sample 2 and `(0, 0.4)` at sample 4. -/
theorem impulse_repeats_witness :
    outputAt (new 10 0 (1 / 2) 0 1 0 (1 / 3)) ⟨200, 120⟩ impulse 2 = ⟨2 / 5, 0⟩ ∧
      outputAt (new 10 0 (1 / 2) 0 1 0 (1 / 3)) ⟨200, 120⟩ impulse 4 = ⟨0, 2 / 5⟩ := by
  have hd : (new 10 0 (1 / 2) 0 1 0 (1 / 3)).delaySamples ⟨200, 120⟩ = ((2 : Nat) : Int) := by
    rw [delaySamples_of_isAsync _ _ (new_isAsync _ _ _ _ _ _), new_asyncDelayMs]
    simp only [Int.cast_ofNat, Nat.cast_ofNat]
    exact asyncDelay_10_200
  have hg : (new 10 0 (1 / 2) 0 1 0 (1 / 3)).feedback_ = 2 / 5 := by
    norm_num [PingPongDelayUnit.new, SetSyncParam, SetWetParam, SetPanoramaParam,
      SetFeedbackParam, CorrespondingF, minFeedback_, maxFeedback_]
  have h := (impulse_repeats (new 10 0 (1 / 2) 0 1 0 (1 / 3)) ⟨200, 120⟩ 2 rfl (fun _ => rfl)
    (fun _ => rfl) rfl
    (by norm_num [PingPongDelayUnit.new, SetSyncParam, SetWetParam, SetPanoramaParam])
    rfl (by norm_num [PingPongDelayUnit.new, SetSyncParam, SetWetParam])
    (by simp [PingPongDelayUnit.new, SetSyncParam, SetWetParam, SetPanoramaParam])
    hd (by decide) (by
      show (2 : Int) * ((2 : Nat) : Int) < 10
      decide)).1 0
  rw [hg] at h
  simpa using h

end PingPongDelayUnit

end PingPongDelay

/-! ## Block processing -/

namespace PingPongDelay

namespace PingPongDelayUnit

/-- Processing `n + 1` frames is processing the first one, then the `n` following ones. -/
theorem afterFrames_shift (u : PingPongDelayUnit) (ti : VstTimeInfo)
    (inp : Nat → StereoSample) (n : Nat) :
    afterFrames u ti inp (n + 1) =
      afterFrames (u.GetSample ti (inp 0)).1 ti (fun k => inp (k + 1)) n := by
  induction n with
  | zero => rfl
  | succ n ih =>
    show ((afterFrames u ti inp (n + 1)).GetSample ti (inp (n + 1))).1 = _
    rw [ih]
    rfl

/-- The output for frame `n + 1` is the output for frame `n` of the stream without its first
frame, from the object after that first frame. -/
theorem outputAt_shift (u : PingPongDelayUnit) (ti : VstTimeInfo)
    (inp : Nat → StereoSample) (n : Nat) :
    outputAt u ti inp (n + 1) =
      outputAt (u.GetSample ti (inp 0)).1 ti (fun k => inp (k + 1)) n := by
  unfold outputAt
  rw [afterFrames_shift]

end PingPongDelayUnit

namespace PingPongDelayEffect

open PingPongDelayUnit

/-- The loop of `processReplacing` started with `n` frames left, the pointers advanced by
`pos`: the unit processed the `n` frames from `pos` on, each output array holds the outputs of
these calls at `pos .. pos + n - 1` and is unchanged elsewhere. -/
theorem processReplacingLoop_eq (ti : VstTimeInfo) (leftInput rightInput : Int → ℚ) (n : Nat) :
    ∀ (pos : Int) (unit : PingPongDelayUnit) (leftOutput rightOutput : Int → ℚ),
      processReplacingLoop ti leftInput rightInput (n : Int) pos unit leftOutput rightOutput =
        (afterFrames unit ti (fun k => ⟨leftInput (pos + k), rightInput (pos + k)⟩) n,
          (fun j => if pos ≤ j ∧ j < pos + n then
            (outputAt unit ti (fun k => ⟨leftInput (pos + k), rightInput (pos + k)⟩)
              (j - pos).toNat).first else leftOutput j),
          (fun j => if pos ≤ j ∧ j < pos + n then
            (outputAt unit ti (fun k => ⟨leftInput (pos + k), rightInput (pos + k)⟩)
              (j - pos).toNat).second else rightOutput j)) := by
  induction n with
  | zero =>
    intro pos unit leftOutput rightOutput
    rw [processReplacingLoop]
    have h0 : ¬ ((0 : Nat) : Int) - 1 ≥ 0 := by decide
    rw [if_neg h0]
    have hc : ∀ j : Int, ¬ (pos ≤ j ∧ j < pos + ((0 : Nat) : Int)) := by
      intro j; push_cast; omega
    simp only [hc, if_false]
    rfl
  | succ n ih =>
    intro pos unit leftOutput rightOutput
    rw [processReplacingLoop]
    have h1 : ((n + 1 : Nat) : Int) - 1 ≥ 0 := by push_cast; omega
    have h2 : ((n + 1 : Nat) : Int) - 1 = (n : Int) := by push_cast; omega
    rw [if_pos h1]
    simp only [h2]
    rw [ih]
    obtain ⟨S, hS⟩ : ∃ S : Nat → StereoSample,
        S = fun k => ⟨leftInput (pos + k), rightInput (pos + k)⟩ := ⟨_, rfl⟩
    have hstream : (fun k : Nat => (⟨leftInput (pos + 1 + k), rightInput (pos + 1 + k)⟩ :
        StereoSample)) = fun k : Nat => S (k + 1) := by
      funext k
      have : pos + 1 + (k : Int) = pos + ((k + 1 : Nat) : Int) := by push_cast; ring
      rw [hS, this]
    have hin0 : (⟨leftInput pos, rightInput pos⟩ : StereoSample) = S 0 := by
      rw [hS]; simp
    rw [hstream, hin0, ← hS, ← afterFrames_shift]
    refine Prod.ext rfl (Prod.ext ?_ ?_)
    · funext j
      simp only
      by_cases hj : j = pos
      · subst hj
        have hc1 : ¬ (j + 1 ≤ j ∧ j < j + 1 + (n : Int)) := by omega
        have hc2 : j ≤ j ∧ j < j + ((n + 1 : Nat) : Int) := by push_cast; omega
        rw [if_neg hc1, if_pos hc2]
        simp [writeAt, outputAt, afterFrames]
      · by_cases hr : pos + 1 ≤ j ∧ j < pos + 1 + (n : Int)
        · have hc2 : pos ≤ j ∧ j < pos + ((n + 1 : Nat) : Int) := by push_cast; omega
          have ht : (j - pos).toNat = (j - (pos + 1)).toNat + 1 := by omega
          rw [if_pos hr, if_pos hc2, ht, outputAt_shift]
        · have hc2 : ¬ (pos ≤ j ∧ j < pos + ((n + 1 : Nat) : Int)) := by push_cast; omega
          rw [if_neg hr, if_neg hc2]
          simp [writeAt, hj]
    · funext j
      simp only
      by_cases hj : j = pos
      · subst hj
        have hc1 : ¬ (j + 1 ≤ j ∧ j < j + 1 + (n : Int)) := by omega
        have hc2 : j ≤ j ∧ j < j + ((n + 1 : Nat) : Int) := by push_cast; omega
        rw [if_neg hc1, if_pos hc2]
        simp [writeAt, outputAt, afterFrames]
      · by_cases hr : pos + 1 ≤ j ∧ j < pos + 1 + (n : Int)
        · have hc2 : pos ≤ j ∧ j < pos + ((n + 1 : Nat) : Int) := by push_cast; omega
          have ht : (j - pos).toNat = (j - (pos + 1)).toNat + 1 := by omega
          rw [if_pos hr, if_pos hc2, ht, outputAt_shift]
        · have hc2 : ¬ (pos ≤ j ∧ j < pos + ((n + 1 : Nat) : Int)) := by push_cast; omega
          rw [if_neg hr, if_neg hc2]
          simp [writeAt, hj]

/-- C16: `processReplacing` with `sampleFrames = n >= 0` processes exactly `n` frames: the unit
after it is the unit after `n` successive `GetSample` calls on the input frames `0 .. n - 1` in
order, the output frame `i < n` is what the `i`-th of these calls returns, and the output arrays
are unchanged outside `0 .. n - 1`; for `sampleFrames <= 0` nothing is written and the effect is
unchanged. -/
theorem processReplacing_frames (e : PingPongDelayEffect) (ti : VstTimeInfo)
    (leftInput rightInput leftOutput rightOutput : Int → ℚ) (n : Nat) :
    let stream : Nat → StereoSample := fun k => ⟨leftInput k, rightInput k⟩
    (e.processReplacing ti leftInput rightInput leftOutput rightOutput n).1.unit_ =
        afterFrames e.unit_ ti stream n ∧
      (∀ i : Nat, i < n →
        (e.processReplacing ti leftInput rightInput leftOutput rightOutput n).2.1 i =
          (outputAt e.unit_ ti stream i).first ∧
        (e.processReplacing ti leftInput rightInput leftOutput rightOutput n).2.2 i =
          (outputAt e.unit_ ti stream i).second) ∧
      (∀ j : Int, j < 0 ∨ (n : Int) ≤ j →
        (e.processReplacing ti leftInput rightInput leftOutput rightOutput n).2.1 j =
          leftOutput j ∧
        (e.processReplacing ti leftInput rightInput leftOutput rightOutput n).2.2 j =
          rightOutput j) ∧
      (∀ m : Int, m ≤ 0 →
        e.processReplacing ti leftInput rightInput leftOutput rightOutput m =
          (e, leftOutput, rightOutput)) := by
  intro stream
  have hstream : (fun k : Nat => (⟨leftInput (0 + k), rightInput (0 + k)⟩ : StereoSample)) =
      stream := by
    funext k
    simp only [zero_add, stream]
  have hloop := processReplacingLoop_eq ti leftInput rightInput n 0 e.unit_ leftOutput
    rightOutput
  rw [hstream] at hloop
  refine ⟨?_, ?_, ?_, ?_⟩
  · simp only [processReplacing, hloop]
  · intro i hi
    have hc : (0 : Int) ≤ (i : Int) ∧ (i : Int) < 0 + (n : Int) := by omega
    have ht : ((i : Int) - 0).toNat = i := by omega
    simp only [processReplacing, hloop, if_pos hc, ht, and_self]
  · intro j hj
    have hc : ¬ ((0 : Int) ≤ j ∧ j < 0 + (n : Int)) := by omega
    simp only [processReplacing, hloop, if_neg hc, and_self]
  · intro m hm
    have hc : ¬ (m - 1 ≥ 0) := by omega
    simp only [processReplacing]
    rw [processReplacingLoop, if_neg hc]

/-- C16 on a block of two frames for the effect around `demoUnit` (cursor 1, capacity 4): the
cursor advances by two. -/
theorem processReplacing_frames_witness :
    (processReplacing ⟨demoUnit⟩ ⟨100, 120⟩ (fun _ => 1) (fun _ => 0) (fun _ => 0) (fun _ => 0)
      ((2 : Nat) : Int)).1.unit_.bufferCursor_ = 3 := by
  rw [(processReplacing_frames ⟨demoUnit⟩ ⟨100, 120⟩ (fun _ => 1) (fun _ => 0) (fun _ => 0)
    (fun _ => 0) 2).1]
  rw [afterFrames_cursor _ _ _ (by rw [demoUnit_bufferCursor]; decide)
    (by rw [demoUnit_bufferCursor, demoUnit_bufferSize]; decide) 2, demoUnit_bufferCursor,
    demoUnit_bufferSize]
  decide

/-- C15 for the effect around `demoUnit`: setting Wet (index 3) to 0.125 is read back and
leaves the Delay parameter (index 0). -/
theorem setParameter_getParameter_witness :
    (0 : Int) ≤ 3 ∧ (3 : Int) ≤ 4 ∧
      (setParameter ⟨demoUnit⟩ 3 (1 / 8)).getParameter 3 = 1 / 8 ∧
      (setParameter ⟨demoUnit⟩ 3 (1 / 8)).getParameter 0 = getParameter ⟨demoUnit⟩ 0 :=
  ⟨by decide, by decide,
    (setParameter_getParameter ⟨demoUnit⟩ 3 (1 / 8) (by decide) (by decide)).1,
    (setParameter_getParameter ⟨demoUnit⟩ 3 (1 / 8) (by decide) (by decide)).2.1 0
      (by decide)⟩

/-- C19 for the effect around `demoUnit`, which is async with a delay of 10 ms: the Delay
display is `"10"`. -/
theorem delay_display_witness :
    getParameterDisplay (fun _ _ => "") ⟨demoUnit⟩ DelayParam "" = "10" := by
  have hm : demoUnit.asyncDelayMs_ = 10 := by rw [demoUnit_eq]
  have ha : demoUnit.IsAsync = true := by rw [demoUnit_eq]; rfl
  rw [((delay_display (fun _ _ => "") ⟨demoUnit⟩ "").1 ha).2 (by rw [hm]; decide)
    (by rw [hm]; norm_num)]
  show toString demoUnit.asyncDelayMs_ = "10"
  rw [hm]
  decide

end PingPongDelayEffect

end PingPongDelay

/-! ## The parameter mappings, continued -/

namespace PingPongDelay

/-- The cast `(int)x` is monotone. -/
theorem toInt_mono {x y : ℚ} (h : x ≤ y) : toInt x ≤ toInt y := by
  unfold toInt
  split_ifs with hx hy hy
  · exact Int.floor_mono h
  · exact absurd (le_trans hx h) hy
  · push_neg at hx
    have h1 : ⌈x⌉ ≤ 0 := Int.ceil_le.mpr (by exact_mod_cast le_of_lt hx)
    have h2 : 0 ≤ ⌊y⌋ := Int.floor_nonneg.mpr hy
    omega
  · exact Int.ceil_mono h

/-- The cast `(int)x` of an integer value is that integer. -/
theorem toInt_intCast (k : Int) : toInt (k : ℚ) = k := by
  unfold toInt
  split_ifs <;> simp

/-- Where `param * range + min` is not negative the cast is the floor, and the integer mapping
is `floor(param * range) + min`. -/
theorem Corresponding_eq_floor_of_nonneg (p : ℚ) (min max : Int) (hp : p ≠ 1)
    (hv : 0 ≤ p * ((max - min + 1 : Int) : ℚ) + (min : ℚ)) :
    Corresponding p min max = ⌊p * ((max - min + 1 : Int) : ℚ)⌋ + min := by
  unfold Corresponding
  rw [if_neg hp]
  simp only [toInt, if_pos hv]
  exact Int.floor_add_int _ _

/-- C22: the integer `Corresponding` is documented as the floor mapping ("conversion from float
to int gives the same outcome as floor"), but for `p = 0.25`, `min = -1`, `max = 0` it returns
`(int)(0.25 * 2 + (-1)) = (int)(-0.5) = 0` where `floor(0.25 * 2) + (-1) = -1`: the cast
truncates toward zero, and with a negative `min` the value cast can be negative. -/
theorem Corresponding_not_floor_negative_min :
    (0 : ℚ) ≤ 1 / 4 ∧ (1 / 4 : ℚ) < 1 ∧ (-1 : Int) ≤ 0 ∧
      Corresponding (1 / 4) (-1) 0 = 0 ∧
      ⌊(1 / 4 : ℚ) * (((0 : Int) - (-1) + 1 : Int) : ℚ)⌋ + (-1) = -1 ∧
      Corresponding (1 / 4) (-1) 0 ≠
        ⌊(1 / 4 : ℚ) * (((0 : Int) - (-1) + 1 : Int) : ℚ)⌋ + (-1) := by
  have h1 : Corresponding (1 / 4) (-1) 0 = 0 := by
    norm_num [Corresponding, toInt]
  have h2 : ⌊(1 / 4 : ℚ) * (((0 : Int) - (-1) + 1 : Int) : ℚ)⌋ + (-1) = -1 := by
    norm_num
  refine ⟨by norm_num, by norm_num, by decide, h1, h2, ?_⟩
  rw [h1, h2]
  decide

/-- C23: every integer of `[min, max]` is a value of the integer `Corresponding` on `[0, 1]`,
and the mapping is monotone on `[0, 1]` when `max` is not negative; for a negative `max` it is
not monotone: `Corresponding(0.75, -3, -1) = (int)(-0.75) = 0` is above
`Corresponding(1, -3, -1) = -1`, the cast truncating toward zero where a floor is documented. -/
theorem Corresponding_reachable_not_monotone :
    (∀ (min max k : Int), min ≤ max → min ≤ k → k ≤ max →
        ∃ p : ℚ, 0 ≤ p ∧ p ≤ 1 ∧ Corresponding p min max = k) ∧
      (∀ (min max : Int) (p1 p2 : ℚ), min ≤ max → 0 ≤ max → 0 ≤ p1 → p1 ≤ p2 → p2 ≤ 1 →
        Corresponding p1 min max ≤ Corresponding p2 min max) ∧
      ((3 / 4 : ℚ) ≤ 1 ∧ Corresponding (3 / 4) (-3) (-1) = 0 ∧
        Corresponding 1 (-3) (-1) = -1 ∧
        ¬ Corresponding (3 / 4) (-3) (-1) ≤ Corresponding 1 (-3) (-1)) := by
  refine ⟨?_, ?_, ?_⟩
  · intro min max k hle hk1 hk2
    have hr : (0 : ℚ) < ((max - min + 1 : Int) : ℚ) := by
      have : (0 : Int) < max - min + 1 := by omega
      exact_mod_cast this
    refine ⟨((k - min : Int) : ℚ) / ((max - min + 1 : Int) : ℚ), ?_, ?_, ?_⟩
    · apply div_nonneg
      · have : (0 : Int) ≤ k - min := by omega
        exact_mod_cast this
      · exact le_of_lt hr
    · rw [div_le_one hr]
      have : k - min ≤ max - min + 1 := by omega
      exact_mod_cast this
    · have hne : ((k - min : Int) : ℚ) / ((max - min + 1 : Int) : ℚ) ≠ 1 := by
        intro h
        rw [div_eq_one_iff_eq (ne_of_gt hr)] at h
        have : k - min = max - min + 1 := by exact_mod_cast h
        omega
      unfold Corresponding
      rw [if_neg hne]
      have hval : ((k - min : Int) : ℚ) / ((max - min + 1 : Int) : ℚ) *
          ((max - min + 1 : Int) : ℚ) + (min : ℚ) = ((k : Int) : ℚ) := by
        rw [div_mul_cancel₀ _ (ne_of_gt hr)]
        push_cast
        ring
      simp only [hval]
      exact toInt_intCast k
  · intro min max p1 p2 hle hmax h0 h12 h1
    by_cases hp2 : p2 = 1
    · subst hp2
      have := (Corresponding_mem_of_nonneg p1 min max h0 h12 hle hmax).2
      simpa [Corresponding] using this
    · have hp1 : p1 ≠ 1 := by
        intro h
        apply hp2
        rw [h] at h12
        exact le_antisymm h1 h12
      unfold Corresponding
      rw [if_neg hp1, if_neg hp2]
      apply toInt_mono
      have hr : (0 : ℚ) ≤ ((max - min + 1 : Int) : ℚ) := by
        have : (0 : Int) ≤ max - min + 1 := by omega
        exact_mod_cast this
      have := mul_le_mul_of_nonneg_right h12 hr
      linarith
  · have h1 : Corresponding (3 / 4) (-3) (-1) = 0 := by
      norm_num [Corresponding, toInt]
    have h2 : Corresponding 1 (-3) (-1) = -1 := by
      simp [Corresponding]
    refine ⟨by norm_num, h1, h2, ?_⟩
    rw [h1, h2]
    decide

end PingPongDelay

/-! ## The panning quotients -/

namespace PingPongDelay

namespace PingPongDelayUnit

/-- After construction and any calls the two panning quotients sum to 1. -/
theorem quotients_sum_run_new (bufferSize : Int) (d f p w s g : ℚ) (calls : List Call) :
    (run (new bufferSize d f p w s g) calls).primaryPanningQuotient_ +
      (run (new bufferSize d f p w s g) calls).secondaryPanningQuotient_ = 1 := by
  apply run_invariant (fun u => u.primaryPanningQuotient_ + u.secondaryPanningQuotient_ = 1)
  · intro u c hu
    cases c <;>
      simp [step, SetDelayParam, SetFeedbackParam, SetPanoramaParam, SetWetParam, SetSyncParam,
        GetSample_fst, hu]
  · simp [PingPongDelayUnit.new, SetDelayParam, SetFeedbackParam, SetPanoramaParam, SetWetParam,
      SetSyncParam]

/-- C21: the documentation of `SetPanoramaParam` has the quotients follow the panorama value
(mono, 0.5 and 0.5, for panorama 0 or 1), but the code never reads that value.  For the engine
constructed with panorama 0 from a zeroed primary quotient, the quotients are 0.5 and 0.5, and
one more `SetPanoramaParam(0)` makes them secondary 0 and primary 1; from no state do two
successive `SetPanoramaParam(0)` both give the secondary quotient 0.5. -/
theorem SetPanoramaParam_ignores_panorama :
    ((new 4 0 0 0 0 0 0).primaryPanningQuotient_ = 1 / 2 ∧
        (new 4 0 0 0 0 0 0).secondaryPanningQuotient_ = 1 / 2) ∧
      (((new 4 0 0 0 0 0 0).SetPanoramaParam 0).secondaryPanningQuotient_ = 0 ∧
        ((new 4 0 0 0 0 0 0).SetPanoramaParam 0).primaryPanningQuotient_ = 1) ∧
      ((new 4 0 0 0 0 0 0).SetPanoramaParam 0).secondaryPanningQuotient_ ≠ |1 / 2 - 0| ∧
      (∀ u : PingPongDelayUnit,
        ¬ ((u.SetPanoramaParam 0).secondaryPanningQuotient_ = 1 / 2 ∧
          ((u.SetPanoramaParam 0).SetPanoramaParam 0).secondaryPanningQuotient_ = 1 / 2)) := by
  have h0 : (new 4 0 0 0 0 0 0).secondaryPanningQuotient_ = 1 / 2 := by
    show |(1 : ℚ) / 2 - 0| = 1 / 2
    norm_num [abs_of_nonneg]
  have h1 : (new 4 0 0 0 0 0 0).primaryPanningQuotient_ = 1 / 2 := by
    show 1 - |(1 : ℚ) / 2 - 0| = 1 / 2
    norm_num [abs_of_nonneg]
  have h2 : ((new 4 0 0 0 0 0 0).SetPanoramaParam 0).secondaryPanningQuotient_ = 0 := by
    show |1 / 2 - (new 4 0 0 0 0 0 0).primaryPanningQuotient_| = 0
    rw [h1]; norm_num
  have h3 : ((new 4 0 0 0 0 0 0).SetPanoramaParam 0).primaryPanningQuotient_ = 1 := by
    show 1 - |1 / 2 - (new 4 0 0 0 0 0 0).primaryPanningQuotient_| = 1
    rw [h1]; norm_num
  refine ⟨⟨h1, h0⟩, ⟨h2, h3⟩, ?_, ?_⟩
  · rw [h2]; norm_num [abs_of_nonneg]
  · rintro u ⟨ha, hb⟩
    have hp : (u.SetPanoramaParam 0).primaryPanningQuotient_ =
        1 - (u.SetPanoramaParam 0).secondaryPanningQuotient_ := rfl
    have hs : ((u.SetPanoramaParam 0).SetPanoramaParam 0).secondaryPanningQuotient_ =
        |1 / 2 - (u.SetPanoramaParam 0).primaryPanningQuotient_| := rfl
    rw [hs, hp, ha] at hb
    norm_num at hb

/-- C24: for every argument `x` and every primary quotient `P` stored before the call,
`SetPanoramaParam(x)` leaves secondary `|0.5 - P|` and primary `1 - |0.5 - P|`, so the
quotients after the call are the same for all arguments; after construction they are
`|0.5 - g|` and `1 - |0.5 - g|` for the indeterminate value `g` the member held. -/
theorem SetPanoramaParam_stale_primary (u : PingPongDelayUnit) (x : ℚ) :
    (u.SetPanoramaParam x).secondaryPanningQuotient_ = |1 / 2 - u.primaryPanningQuotient_| ∧
      (u.SetPanoramaParam x).primaryPanningQuotient_ =
        1 - |1 / 2 - u.primaryPanningQuotient_| ∧
      (∀ y : ℚ,
        (u.SetPanoramaParam x).secondaryPanningQuotient_ =
          (u.SetPanoramaParam y).secondaryPanningQuotient_ ∧
        (u.SetPanoramaParam x).primaryPanningQuotient_ =
          (u.SetPanoramaParam y).primaryPanningQuotient_) ∧
      (∀ (N : Int) (d f p w s g : ℚ),
        (new N d f p w s g).secondaryPanningQuotient_ = |1 / 2 - g| ∧
        (new N d f p w s g).primaryPanningQuotient_ = 1 - |1 / 2 - g|) :=
  ⟨rfl, rfl, fun _ => ⟨rfl, rfl⟩, fun _ _ _ _ _ _ _ => ⟨rfl, rfl⟩⟩

/-- C30: in a state reached from construction whose primary quotient `P` is in `[0.5, 1]`, one
`SetPanoramaParam` call with any argument sets primary to `1.5 - P` and secondary to `P - 0.5`,
two calls with any arguments restore both quotients, and the primary quotient is kept by a call
exactly when `P = 0.75`; from any object with a primary quotient of `[0, 1]` a call leaves a
primary quotient of `[0.5, 1]`. -/
theorem quotients_period_two (bufferSize : Int) (d f p w s g : ℚ) (calls : List Call)
    (x y : ℚ)
    (h0 : 1 / 2 ≤ (run (new bufferSize d f p w s g) calls).primaryPanningQuotient_)
    (h1 : (run (new bufferSize d f p w s g) calls).primaryPanningQuotient_ ≤ 1) :
    let u : PingPongDelayUnit := run (new bufferSize d f p w s g) calls
    ((u.SetPanoramaParam x).primaryPanningQuotient_ = 3 / 2 - u.primaryPanningQuotient_ ∧
        (u.SetPanoramaParam x).secondaryPanningQuotient_ = u.primaryPanningQuotient_ - 1 / 2) ∧
      (((u.SetPanoramaParam x).SetPanoramaParam y).primaryPanningQuotient_ =
          u.primaryPanningQuotient_ ∧
        ((u.SetPanoramaParam x).SetPanoramaParam y).secondaryPanningQuotient_ =
          u.secondaryPanningQuotient_) ∧
      ((u.SetPanoramaParam x).primaryPanningQuotient_ = u.primaryPanningQuotient_ ↔
        u.primaryPanningQuotient_ = 3 / 4) ∧
      (∀ (v : PingPongDelayUnit) (z : ℚ), 0 ≤ v.primaryPanningQuotient_ →
        v.primaryPanningQuotient_ ≤ 1 →
        1 / 2 ≤ (v.SetPanoramaParam z).primaryPanningQuotient_ ∧
        (v.SetPanoramaParam z).primaryPanningQuotient_ ≤ 1) := by
  intro u
  have hsum : u.primaryPanningQuotient_ + u.secondaryPanningQuotient_ = 1 :=
    quotients_sum_run_new bufferSize d f p w s g calls
  have h0u : 1 / 2 ≤ u.primaryPanningQuotient_ := h0
  have h1u : u.primaryPanningQuotient_ ≤ 1 := h1
  have habs : |1 / 2 - u.primaryPanningQuotient_| = u.primaryPanningQuotient_ - 1 / 2 := by
    rw [abs_of_nonpos (by linarith)]; ring
  have hs1 : (u.SetPanoramaParam x).secondaryPanningQuotient_ =
      u.primaryPanningQuotient_ - 1 / 2 := habs
  have hp1 : (u.SetPanoramaParam x).primaryPanningQuotient_ =
      3 / 2 - u.primaryPanningQuotient_ := by
    show 1 - |1 / 2 - u.primaryPanningQuotient_| = _
    rw [habs]; ring
  have habs2 : |1 / 2 - (u.SetPanoramaParam x).primaryPanningQuotient_| =
      1 - u.primaryPanningQuotient_ := by
    rw [hp1, abs_of_nonpos (by linarith)]; ring
  have hs2 : ((u.SetPanoramaParam x).SetPanoramaParam y).secondaryPanningQuotient_ =
      u.secondaryPanningQuotient_ := by
    show |1 / 2 - (u.SetPanoramaParam x).primaryPanningQuotient_| = _
    rw [habs2]; linarith
  have hp2 : ((u.SetPanoramaParam x).SetPanoramaParam y).primaryPanningQuotient_ =
      u.primaryPanningQuotient_ := by
    show 1 - |1 / 2 - (u.SetPanoramaParam x).primaryPanningQuotient_| = _
    rw [habs2]; ring
  refine ⟨⟨hp1, hs1⟩, ⟨hp2, hs2⟩, ?_, ?_⟩
  · rw [hp1]
    constructor <;> intro h <;> linarith
  · intro v z hv0 hv1
    have hv : (v.SetPanoramaParam z).primaryPanningQuotient_ =
        1 - |1 / 2 - v.primaryPanningQuotient_| := rfl
    rw [hv]
    have hb : |1 / 2 - v.primaryPanningQuotient_| ≤ 1 / 2 := by
      rw [abs_le]; constructor <;> linarith
    have hn : 0 ≤ |1 / 2 - v.primaryPanningQuotient_| := abs_nonneg _
    constructor <;> linarith

/-- C30 for the engine constructed from the indeterminate primary quotient 0.25 (primary 0.75
after construction), after one processed sample: a call keeps the primary quotient 0.75. -/
theorem quotients_period_two_witness :
    (1 / 2 ≤ (run (new 4 0 0 0 0 0 (1 / 4))
        [Call.getSample ⟨100, 120⟩ ⟨1, 1⟩]).primaryPanningQuotient_ ∧
      (run (new 4 0 0 0 0 0 (1 / 4))
        [Call.getSample ⟨100, 120⟩ ⟨1, 1⟩]).primaryPanningQuotient_ ≤ 1) ∧
      ((run (new 4 0 0 0 0 0 (1 / 4))
        [Call.getSample ⟨100, 120⟩ ⟨1, 1⟩]).SetPanoramaParam 1).primaryPanningQuotient_ =
        3 / 4 := by
  have hP : (run (new 4 0 0 0 0 0 (1 / 4))
      [Call.getSample ⟨100, 120⟩ ⟨1, 1⟩]).primaryPanningQuotient_ = 3 / 4 := by
    have h : |(1 : ℚ) / 2 - 1 / 4| = 1 / 4 := by norm_num [abs_of_nonneg]
    simp only [run, List.foldl, step, GetSample_fst]
    show 1 - |(1 : ℚ) / 2 - 1 / 4| = 3 / 4
    rw [h]; norm_num
  have h := (quotients_period_two 4 0 0 0 0 0 (1 / 4) [Call.getSample ⟨100, 120⟩ ⟨1, 1⟩] 1 0
    (by rw [hP]; norm_num) (by rw [hP]; norm_num)).1.1
  rw [hP] at h
  refine ⟨⟨by rw [hP]; norm_num, by rw [hP]; norm_num⟩, ?_⟩
  rw [h]; norm_num

end PingPongDelayUnit

end PingPongDelay

/-! ## The circular indexing -/

namespace PingPongDelay

namespace PingPongDelayUnit

/-- C25: for a capacity `n >= 1` and any integer `x`, `BufferModulo(x)` is the non-negative
`x mod n`: it is in `[0, n)` and differs from `x` by a multiple of `n`, although `%` truncates
toward zero (`(-1) % 4` is `-1`); the intermediate `x % n` is in `(-n, n)` and `x % n + n` in
`(0, 2 * n)`; hence the semi and full delayed cursors of `GetSample` are in `[0, n)` for any
delay length. -/
theorem BufferModulo_is_mod (u : PingPongDelayUnit) (x : Int) (hcap : 1 ≤ u.bufferSize_) :
    u.BufferModulo x = x % u.bufferSize_ ∧
      (0 ≤ u.BufferModulo x ∧ u.BufferModulo x < u.bufferSize_) ∧
      u.bufferSize_ ∣ x - u.BufferModulo x ∧
      ((-1 : Int).tmod 4 = -1 ∧ -u.bufferSize_ < x.tmod u.bufferSize_ ∧
        x.tmod u.bufferSize_ < u.bufferSize_ ∧ 0 < x.tmod u.bufferSize_ + u.bufferSize_ ∧
        x.tmod u.bufferSize_ + u.bufferSize_ < 2 * u.bufferSize_) ∧
      (∀ ti : VstTimeInfo,
        (0 ≤ u.BufferModulo (u.bufferCursor_ - u.delaySamples ti) ∧
          u.BufferModulo (u.bufferCursor_ - u.delaySamples ti) < u.bufferSize_) ∧
        (0 ≤ u.BufferModulo (u.bufferCursor_ - u.delaySamples ti * 2) ∧
          u.BufferModulo (u.bufferCursor_ - u.delaySamples ti * 2) < u.bufferSize_)) := by
  have hpos : 0 < u.bufferSize_ := by omega
  have hne : u.bufferSize_ ≠ 0 := by omega
  have hrange : ∀ y : Int, 0 ≤ u.BufferModulo y ∧ u.BufferModulo y < u.bufferSize_ := by
    intro y
    rw [BufferModulo_eq_emod u hpos]
    exact ⟨Int.emod_nonneg _ hne, Int.emod_lt_of_pos _ hpos⟩
  have h1 := neg_lt_tmod x u.bufferSize_ hpos
  have h2 := Int.tmod_lt_of_pos x hpos
  refine ⟨BufferModulo_eq_emod u hpos x, hrange x, ?_, ⟨by decide, h1, h2, by omega, by omega⟩,
    fun ti => ⟨hrange _, hrange _⟩⟩
  rw [BufferModulo_eq_emod u hpos]
  refine ⟨x / u.bufferSize_, ?_⟩
  have := Int.emod_add_ediv x u.bufferSize_
  omega

/-- C25 at `demoUnit` (capacity 4): `BufferModulo(-1)` is 3. -/
theorem BufferModulo_is_mod_witness :
    1 ≤ demoUnit.bufferSize_ ∧ demoUnit.BufferModulo (-1) = 3 := by
  have hs := demoUnit_bufferSize
  refine ⟨by rw [hs]; decide, ?_⟩
  rw [(BufferModulo_is_mod demoUnit (-1) (by rw [hs]; decide)).1, hs]
  decide

end PingPongDelayUnit

end PingPongDelay

/-! ## Feedback and wet extremes, bounded delay line -/

namespace PingPongDelay

namespace PingPongDelayUnit

/-- A property that holds of an object and that every call of a given kind preserves holds
after any sequence of calls of that kind. -/
theorem run_invariant_of_mem (P : PingPongDelayUnit → Prop) (Q : Call → Prop)
    (hstep : ∀ (u : PingPongDelayUnit) (c : Call), Q c → P u → P (step u c)) :
    ∀ (calls : List Call) (u : PingPongDelayUnit), (∀ c ∈ calls, Q c) → P u →
      P (run u calls) := by
  intro calls
  induction calls with
  | nil => intro u _ hu; exact hu
  | cons c cs ih =>
    intro u hq hu
    exact ih (step u c) (fun c' h' => hq c' (List.mem_cons_of_mem c h'))
      (hstep u c (hq c (List.mem_cons_self c cs)) hu)

/-- In exact arithmetic, with a finite value `g` in the storage of `primaryPanningQuotient_` at
construction: for an engine constructed with feedback parameter 0, through any calls in which
every `SetFeedbackParam` argument is 0 (any inputs, any delay, panorama, wet and sync settings),
the feedback gain is 0 and both buffers are silent; the next `GetSample` stores 0 in both
channels and returns `(wetParamC_ * inL, wetParamC_ * inR)`. -/
theorem no_delayed_signal_of_zero_feedback (N : Int) (d p w s g : ℚ) (calls : List Call)
    (ti : VstTimeInfo) (inp : StereoSample)
    (hfb : ∀ c ∈ calls, ∀ x : ℚ, c = Call.setFeedback x → x = 0) :
    let u : PingPongDelayUnit := run (new N d 0 p w s g) calls
    u.feedback_ = 0 ∧ (∀ i : Int, u.leftBuffer_ i = 0 ∧ u.rightBuffer_ i = 0) ∧
      ((u.GetSample ti inp).1.leftBuffer_ u.bufferCursor_ = 0 ∧
        (u.GetSample ti inp).1.rightBuffer_ u.bufferCursor_ = 0) ∧
      (u.GetSample ti inp).2 = ⟨u.wetParamC_ * inp.first, u.wetParamC_ * inp.second⟩ := by
  intro u
  have hinv : u.feedback_ = 0 ∧ (∀ i : Int, u.leftBuffer_ i = 0) ∧
      (∀ i : Int, u.rightBuffer_ i = 0) := by
    apply run_invariant_of_mem
      (fun v => v.feedback_ = 0 ∧ (∀ i : Int, v.leftBuffer_ i = 0) ∧
        (∀ i : Int, v.rightBuffer_ i = 0))
      (fun c => ∀ x : ℚ, c = Call.setFeedback x → x = 0) ?_ calls _ hfb ?_
    · intro v c hc ⟨hg, hL, hR⟩
      cases c with
      | setDelay x => exact ⟨hg, hL, hR⟩
      | setFeedback x =>
        have hx : x = 0 := hc x rfl
        subst hx
        refine ⟨?_, hL, hR⟩
        simp [step, SetFeedbackParam, CorrespondingF, minFeedback_]
      | setPanorama x => exact ⟨hg, hL, hR⟩
      | setWet x => exact ⟨hg, hL, hR⟩
      | setSync x => exact ⟨hg, hL, hR⟩
      | getSample ti2 inp2 =>
        refine ⟨?_, ?_, ?_⟩
        · simp only [step, GetSample_fst]; exact hg
        · intro i
          simp only [step, GetSample_fst, writeAt, hg, mul_zero, hL]
          split_ifs <;> rfl
        · intro i
          simp only [step, GetSample_fst, writeAt, hg, mul_zero, hR]
          split_ifs <;> rfl
    · refine ⟨?_, fun _ => rfl, fun _ => rfl⟩
      simp [PingPongDelayUnit.new, SetSyncParam, SetWetParam, SetPanoramaParam,
        SetFeedbackParam, CorrespondingF, minFeedback_]
  obtain ⟨hg, hL, hR⟩ := hinv
  have hL2 : ∀ i, (u.GetSample ti inp).1.leftBuffer_ i = 0 := by
    intro i
    simp only [GetSample_fst, writeAt, hg, mul_zero, hL]
    split_ifs <;> rfl
  have hR2 : ∀ i, (u.GetSample ti inp).1.rightBuffer_ i = 0 := by
    intro i
    simp only [GetSample_fst, writeAt, hg, mul_zero, hR]
    split_ifs <;> rfl
  refine ⟨hg, fun i => ⟨hL i, hR i⟩, ⟨hL2 _, hR2 _⟩, ?_⟩
  rw [GetSample_snd]
  simp only [hL2, hR2, mul_zero, add_zero]

/-- Zero feedback with a change of the wet parameter and a non-silent frame before the call. -/
theorem no_delayed_signal_of_zero_feedback_witness :
    ((run (new 8 (1 / 2) 0 (1 / 4) (3 / 4) 1 (1 / 3))
        [Call.getSample ⟨44100, 120⟩ ⟨1, 2⟩, Call.setFeedback 0, Call.setWet (1 / 4)]).GetSample
      ⟨44100, 120⟩ ⟨4, 8⟩).2 = ⟨3, 6⟩ := by
  have h := (no_delayed_signal_of_zero_feedback 8 (1 / 2) (1 / 4) (3 / 4) 1 (1 / 3)
    [Call.getSample ⟨44100, 120⟩ ⟨1, 2⟩, Call.setFeedback 0, Call.setWet (1 / 4)]
    ⟨44100, 120⟩ ⟨4, 8⟩ (by
      intro c hc x hcx
      simp only [List.mem_cons, List.mem_singleton, List.not_mem_nil, or_false] at hc
      rcases hc with rfl | rfl | rfl
      · cases hcx
      · injection hcx with h1; exact h1.symm
      · cases hcx)).2.2.2
  rw [h]
  have hw : (run (new 8 (1 / 2) 0 (1 / 4) (3 / 4) 1 (1 / 3))
      [Call.getSample ⟨44100, 120⟩ ⟨1, 2⟩, Call.setFeedback 0,
        Call.setWet (1 / 4)]).wetParamC_ = 3 / 4 := by
    simp only [run, List.foldl, step, SetWetParam]
    norm_num
  rw [hw]
  norm_num

/-- In exact arithmetic, all members and buffer cells being finite: after `SetWetParam(0)`, from
any object (any buffer content, cursor, delay, feedback and panorama setting) and through any
calls other than `SetWetParam`, `GetSample(input)` returns exactly `input`, while it stores
`(input + buffer[full]) * feedback_` at the cursor in each channel and advances the cursor. -/
theorem dry_pass_through (u : PingPongDelayUnit) (calls : List Call) (ti : VstTimeInfo)
    (inp : StereoSample) (hno : ∀ c ∈ calls, ∀ x : ℚ, c ≠ Call.setWet x) :
    let v : PingPongDelayUnit := run (u.SetWetParam 0) calls
    ((u.SetWetParam 0).GetSample ti inp).2 = inp ∧ (v.GetSample ti inp).2 = inp ∧
      ((v.GetSample ti inp).1.leftBuffer_ v.bufferCursor_ =
          (inp.first +
            v.leftBuffer_ (v.BufferModulo (v.bufferCursor_ - v.delaySamples ti * 2))) *
              v.feedback_ ∧
        (v.GetSample ti inp).1.rightBuffer_ v.bufferCursor_ =
          (inp.second +
            v.rightBuffer_ (v.BufferModulo (v.bufferCursor_ - v.delaySamples ti * 2))) *
              v.feedback_) ∧
      (v.GetSample ti inp).1.bufferCursor_ =
        (if v.bufferCursor_ ≠ v.bufferSize_ - 1 then v.bufferCursor_ + 1 else 0) := by
  intro v
  have hout : ∀ t : PingPongDelayUnit, t.wetParam_ = 0 ∧ t.wetParamC_ = 1 →
      (t.GetSample ti inp).2 = inp := by
    intro t ht
    rw [GetSample_snd, ht.1, ht.2]
    cases inp
    simp
  have hv : v.wetParam_ = 0 ∧ v.wetParamC_ = 1 := by
    apply run_invariant_of_mem (fun t => t.wetParam_ = 0 ∧ t.wetParamC_ = 1)
      (fun c => ∀ x : ℚ, c ≠ Call.setWet x) ?_ calls _ hno ?_
    · intro t c hc ht
      cases c with
      | setWet x => exact absurd rfl (hc x)
      | setDelay x => exact ht
      | setFeedback x => exact ht
      | setPanorama x => exact ht
      | setSync x => exact ht
      | getSample ti2 inp2 => simpa only [step, GetSample_fst] using ht
    · simp [SetWetParam]
  refine ⟨hout _ (by simp [SetWetParam]), hout v hv, ⟨?_, ?_⟩, ?_⟩
  · simp only [GetSample_fst, writeAt, if_true]
  · simp only [GetSample_fst, writeAt, if_true]
  · simp only [GetSample_fst]

/-- Dry pass-through at `demoUnit`, with a change of the feedback parameter after
`SetWetParam(0)`. -/
theorem dry_pass_through_witness :
    ((run (demoUnit.SetWetParam 0) [Call.setFeedback 1]).GetSample ⟨100, 120⟩ ⟨3, 5⟩).2 =
      ⟨3, 5⟩ :=
  (dry_pass_through demoUnit [Call.setFeedback 1] ⟨100, 120⟩ ⟨3, 5⟩ (by
    intro c hc x hcx
    simp only [List.mem_singleton] at hc
    subst hc
    cases hcx)).2.1

/-- C29: from a constructed engine whose feedback parameter is in `[0, 1]`, through any calls
in which every `SetFeedbackParam` argument is in `[0, 1]` and every `GetSample` input has
`|inL| <= M` and `|inR| <= M` (any transport records, so any delay lengths, and any other
parameter changes), every buffer cell has `|value| <= 4 * M`. -/
theorem delay_line_bounded (N : Int) (d f p w s g M : ℚ) (calls : List Call) (hM : 0 ≤ M)
    (hf0 : 0 ≤ f) (hf1 : f ≤ 1)
    (hcalls : ∀ c ∈ calls,
      (∀ x : ℚ, c = Call.setFeedback x → 0 ≤ x ∧ x ≤ 1) ∧
      (∀ (ti : VstTimeInfo) (inp : StereoSample), c = Call.getSample ti inp →
        |inp.first| ≤ M ∧ |inp.second| ≤ M)) :
    ∀ i : Int, |(run (new N d f p w s g) calls).leftBuffer_ i| ≤ 4 * M ∧
      |(run (new N d f p w s g) calls).rightBuffer_ i| ≤ 4 * M := by
  have hgain : ∀ x : ℚ, 0 ≤ x → x ≤ 1 →
      0 ≤ CorrespondingF x minFeedback_ maxFeedback_ ∧
        CorrespondingF x minFeedback_ maxFeedback_ ≤ 4 / 5 := by
    intro x h0 h1
    simp only [CorrespondingF, minFeedback_, maxFeedback_]
    constructor <;> linarith
  have hwrite : ∀ (a b gain : ℚ), |a| ≤ M → |b| ≤ 4 * M → 0 ≤ gain → gain ≤ 4 / 5 →
      |(a + b) * gain| ≤ 4 * M := by
    intro a b gain ha hb hg0 hg1
    rw [abs_mul, abs_of_nonneg hg0]
    have h1 : |a + b| ≤ 5 * M := by
      calc |a + b| ≤ |a| + |b| := abs_add a b
        _ ≤ M + 4 * M := add_le_add ha hb
        _ = 5 * M := by ring
    calc |a + b| * gain ≤ 5 * M * gain :=
          mul_le_mul_of_nonneg_right h1 hg0
      _ ≤ 5 * M * (4 / 5) := mul_le_mul_of_nonneg_left hg1 (by linarith)
      _ = 4 * M := by ring
  have hinv : (0 ≤ (run (new N d f p w s g) calls).feedback_ ∧
      (run (new N d f p w s g) calls).feedback_ ≤ 4 / 5) ∧
      (∀ i : Int, |(run (new N d f p w s g) calls).leftBuffer_ i| ≤ 4 * M) ∧
      (∀ i : Int, |(run (new N d f p w s g) calls).rightBuffer_ i| ≤ 4 * M) := by
    apply run_invariant_of_mem
      (fun v => (0 ≤ v.feedback_ ∧ v.feedback_ ≤ 4 / 5) ∧
        (∀ i : Int, |v.leftBuffer_ i| ≤ 4 * M) ∧ (∀ i : Int, |v.rightBuffer_ i| ≤ 4 * M))
      (fun c => (∀ x : ℚ, c = Call.setFeedback x → 0 ≤ x ∧ x ≤ 1) ∧
        (∀ (ti : VstTimeInfo) (inp : StereoSample), c = Call.getSample ti inp →
          |inp.first| ≤ M ∧ |inp.second| ≤ M)) ?_ calls _ hcalls ?_
    · intro v c hc ⟨hg, hL, hR⟩
      cases c with
      | setDelay x => exact ⟨hg, hL, hR⟩
      | setFeedback x =>
        obtain ⟨hx0, hx1⟩ := hc.1 x rfl
        exact ⟨hgain x hx0 hx1, hL, hR⟩
      | setPanorama x => exact ⟨hg, hL, hR⟩
      | setWet x => exact ⟨hg, hL, hR⟩
      | setSync x => exact ⟨hg, hL, hR⟩
      | getSample ti inp =>
        obtain ⟨hi1, hi2⟩ := hc.2 ti inp rfl
        refine ⟨?_, ?_, ?_⟩
        · simp only [step, GetSample_fst]; exact hg
        · intro i
          simp only [step, GetSample_fst, writeAt]
          split_ifs
          · exact hwrite _ _ _ hi1 (hL _) hg.1 hg.2
          · exact hL i
        · intro i
          simp only [step, GetSample_fst, writeAt]
          split_ifs
          · exact hwrite _ _ _ hi2 (hR _) hg.1 hg.2
          · exact hR i
    · refine ⟨hgain f hf0 hf1, fun i => ?_, fun i => ?_⟩
      · show |(0 : ℚ)| ≤ 4 * M
        rw [abs_zero]; linarith
      · show |(0 : ℚ)| ≤ 4 * M
        rw [abs_zero]; linarith
  exact fun i => ⟨hinv.2.1 i, hinv.2.2 i⟩

/-- C29 with `M = 1` and full feedback: after the frames `(1, -1)` and `(1, 1)` every left cell
is within 4. -/
theorem delay_line_bounded_witness :
    (0 : ℚ) ≤ 1 ∧ (0 : ℚ) ≤ 1 ∧ (1 : ℚ) ≤ 1 ∧
      ∀ i : Int, |(run (new 8 0 1 0 1 0 0) [Call.getSample ⟨100, 120⟩ ⟨1, -1⟩,
        Call.getSample ⟨100, 120⟩ ⟨1, 1⟩]).leftBuffer_ i| ≤ 4 * 1 := by
  refine ⟨by norm_num, by norm_num, by norm_num, fun i => ?_⟩
  exact (delay_line_bounded 8 0 1 0 1 0 0 1 [Call.getSample ⟨100, 120⟩ ⟨1, -1⟩,
    Call.getSample ⟨100, 120⟩ ⟨1, 1⟩] (by norm_num) (by norm_num) (by norm_num) (by
      intro c hc
      simp only [List.mem_cons, List.mem_singleton, List.not_mem_nil, or_false] at hc
      rcases hc with rfl | rfl
      · refine ⟨fun x hx => (by cases hx), fun ti inp h => ?_⟩
        injection h with h1 h2
        subst h2
        norm_num
      · refine ⟨fun x hx => (by cases hx), fun ti inp h => ?_⟩
        injection h with h1 h2
        subst h2
        norm_num) i).1

end PingPongDelayUnit

end PingPongDelay

/-! ## The indeterminate primary quotient, in binary32 -/

namespace PingPongDelay

namespace Float32

theorem add_nan (a : Float32) : a + nan = nan := by
  cases a <;> rfl

theorem nan_add (a : Float32) : nan + a = nan := by
  cases a <;> rfl

theorem mul_nan (a : Float32) : a * nan = nan := by
  cases a <;> rfl

theorem nan_mul (a : Float32) : nan * a = nan := by
  cases a <;> rfl

theorem sub_nan (a : Float32) : a - nan = nan := by
  cases a <;> rfl

theorem fabs_nan : fabs nan = nan := rfl

end Float32

namespace Binary32

namespace PingPongDelayUnit

/-- Constructed over a NaN in the storage of `primaryPanningQuotient_`, the engine has both
panning quotients NaN, whatever the arguments of the constructor. -/
theorem new_quotients_of_nan (N : Int) (d f p w s : Float32) :
    (new N d f p w s Float32.nan).primaryPanningQuotient_ = Float32.nan ∧
      (new N d f p w s Float32.nan).secondaryPanningQuotient_ = Float32.nan := by
  have h2 : (new N d f p w s Float32.nan).secondaryPanningQuotient_ = Float32.nan := by
    show Float32.fabs (Float32.finite (1 / 2) - Float32.nan) = Float32.nan
    rw [Float32.sub_nan, Float32.fabs_nan]
  have h1 : (new N d f p w s Float32.nan).primaryPanningQuotient_ = Float32.nan := by
    show Float32.ofInt 1 - Float32.fabs (Float32.finite (1 / 2) - Float32.nan) = Float32.nan
    rw [Float32.sub_nan, Float32.fabs_nan, Float32.sub_nan]
  exact ⟨h1, h2⟩

/-- With both panning quotients NaN, `GetSample` returns NaN in both channels. -/
theorem GetSample_snd_of_nan_quotients (u : PingPongDelayUnit) (ti : VstTimeInfo)
    (inp : StereoSample) (h1 : u.primaryPanningQuotient_ = Float32.nan)
    (h2 : u.secondaryPanningQuotient_ = Float32.nan) :
    (u.GetSample ti inp).2 = ⟨Float32.nan, Float32.nan⟩ := by
  simp only [GetSample, h1, h2, Float32.nan_mul, Float32.add_nan, Float32.mul_nan]

end PingPongDelayUnit

end Binary32

end PingPongDelay

namespace PingPongDelay

namespace Float32

/-- An operation whose rounded result is within the finite range gives that finite value. -/
theorem ofRat_eq (x v : ℚ) (h : toFloat x = v) (hv : |v| ≤ maxFinite) :
    ofRat x = finite v := by
  unfold ofRat
  rw [h, if_neg (not_lt.mpr hv)]

/-- The conversion of the `int` 1 is the `float` 1. -/
theorem ofInt_one : ofInt 1 = finite 1 := by
  apply ofRat_eq
  · rw [toFloat_eq (((1 : Int) : ℚ)) (0) (8388608) (by rw [abs_of_pos (by norm_num)]; norm_num)
      (by rw [abs_of_pos (by norm_num)]; norm_num) (by norm_num) (by norm_num [roundHalfEven])]
    norm_num
  · rw [abs_of_pos (by norm_num)]
    norm_num [maxFinite]

end Float32

namespace Binary32

namespace PingPongDelayUnit

/-- C8: the quotients are not complementary in every state reached from construction.  When the
storage of `primaryPanningQuotient_` holds -431602080 (the bit pattern `0xCDCDCDCD`) at
construction, `SetPanoramaParam` leaves secondary `|0.5 - (-431602080)| = 431602080` and primary
`1 - 431602080 = -431602080`, both rounded to `float`, whatever the arguments of the
constructor: their sum is 0, not 1.  When it holds a NaN, both quotients and their sum are
NaN. -/
theorem quotients_not_complementary (N : Int) (d f p w s : Float32) :
    ((new N d f p w s (Float32.finite (-431602080))).secondaryPanningQuotient_ =
        Float32.finite 431602080 ∧
      (new N d f p w s (Float32.finite (-431602080))).primaryPanningQuotient_ =
        Float32.finite (-431602080) ∧
      (new N d f p w s (Float32.finite (-431602080))).primaryPanningQuotient_ +
          (new N d f p w s (Float32.finite (-431602080))).secondaryPanningQuotient_ =
        Float32.finite 0 ∧
      (new N d f p w s (Float32.finite (-431602080))).primaryPanningQuotient_ +
          (new N d f p w s (Float32.finite (-431602080))).secondaryPanningQuotient_ ≠
        Float32.finite 1) ∧
      ((new N d f p w s Float32.nan).primaryPanningQuotient_ +
          (new N d f p w s Float32.nan).secondaryPanningQuotient_ = Float32.nan ∧
        (new N d f p w s Float32.nan).primaryPanningQuotient_ +
          (new N d f p w s Float32.nan).secondaryPanningQuotient_ ≠ Float32.finite 1) := by
  have ha : Float32.fabs (Float32.finite (1 / 2) - Float32.finite (-431602080)) =
      Float32.finite 431602080 := by
    have h1 : Float32.finite (1 / 2) - Float32.finite (-431602080) =
        Float32.finite 431602080 := by
      show Float32.ofRat (1 / 2 + -(-431602080)) = _
      apply Float32.ofRat_eq
      · rw [toFloat_eq (1 / 2 + -(-431602080)) (28) (13487565)
          (by rw [abs_of_pos (by norm_num)]; norm_num)
          (by rw [abs_of_pos (by norm_num)]; norm_num) (by norm_num)
          (by norm_num [roundHalfEven])]
        norm_num
      · rw [abs_of_pos (by norm_num)]
        norm_num [Float32.maxFinite]
    rw [h1]
    show Float32.finite |431602080| = _
    rw [abs_of_pos (by norm_num)]
  have hb : Float32.ofInt 1 - Float32.finite 431602080 = Float32.finite (-431602080) := by
    rw [Float32.ofInt_one]
    show Float32.ofRat (1 + -431602080) = _
    apply Float32.ofRat_eq
    · rw [toFloat_eq (1 + -431602080) (28) (-13487565)
        (by rw [abs_of_neg (by norm_num)]; norm_num)
        (by rw [abs_of_neg (by norm_num)]; norm_num) (by norm_num)
        (by norm_num [roundHalfEven])]
      norm_num
    · rw [abs_of_neg (by norm_num)]
      norm_num [Float32.maxFinite]
  have h2 : (new N d f p w s (Float32.finite (-431602080))).secondaryPanningQuotient_ =
      Float32.finite 431602080 := ha
  have h1 : (new N d f p w s (Float32.finite (-431602080))).primaryPanningQuotient_ =
      Float32.finite (-431602080) := by
    show Float32.ofInt 1 -
      Float32.fabs (Float32.finite (1 / 2) - Float32.finite (-431602080)) = _
    rw [ha, hb]
  have hsum : Float32.finite (-431602080) + Float32.finite 431602080 = Float32.finite 0 := by
    show Float32.ofRat (-431602080 + 431602080) = _
    apply Float32.ofRat_eq
    · rw [show (-431602080 + 431602080 : ℚ) = 0 by norm_num]
      simp [toFloat, roundBinary]
    · rw [abs_zero]
      norm_num [Float32.maxFinite]
  obtain ⟨n1, n2⟩ := new_quotients_of_nan N d f p w s
  refine ⟨⟨h2, h1, ?_, ?_⟩, ?_, ?_⟩
  · rw [h1, h2, hsum]
  · rw [h1, h2, hsum]
    intro h
    injection h with h
    norm_num at h
  · rw [n1, n2]
    rfl
  · rw [n1, n2]
    intro h
    cases h

/-- C12: silent input does not always give silent output.  For an engine constructed with
feedback parameter 0 over a NaN in the storage of `primaryPanningQuotient_`, whatever the other
arguments, the capacity and the transport record, `GetSample` returns `(NaN, NaN)` for the
input `(0, 0)`: the quotients are NaN and `NaN * 0` is NaN. -/
theorem silence_in_nan_out (N : Int) (d p w s : Float32) (ti : VstTimeInfo) :
    ((new N d (Float32.finite 0) p w s Float32.nan).GetSample ti
        ⟨Float32.finite 0, Float32.finite 0⟩).2 = ⟨Float32.nan, Float32.nan⟩ ∧
      ((new N d (Float32.finite 0) p w s Float32.nan).GetSample ti
        ⟨Float32.finite 0, Float32.finite 0⟩).2 ≠ ⟨Float32.finite 0, Float32.finite 0⟩ := by
  obtain ⟨n1, n2⟩ := new_quotients_of_nan N d (Float32.finite 0) p w s
  have h := GetSample_snd_of_nan_quotients _ ti ⟨Float32.finite 0, Float32.finite 0⟩ n1 n2
  refine ⟨h, ?_⟩
  rw [h]
  intro h0
  injection h0 with h1 _
  cases h1

/-- C27: with feedback gain 0 the output is not always `(wetParamC_ * inL, wetParamC_ * inR)`.
For an engine constructed with feedback parameter 0 over a NaN in the storage of
`primaryPanningQuotient_`, `GetSample` returns `(NaN, NaN)` for every input; with wet parameter
0.5 and the input `(1, 1)` the products `wetParamC_ * inL` and `wetParamC_ * inR` are 0.5. -/
theorem zero_feedback_nan_out (N : Int) (d p w s : Float32) (ti : VstTimeInfo)
    (inp : StereoSample) :
    ((new N d (Float32.finite 0) p w s Float32.nan).GetSample ti inp).2 =
        ⟨Float32.nan, Float32.nan⟩ ∧
      (new N d (Float32.finite 0) p (Float32.finite (1 / 2)) s Float32.nan).wetParamC_ *
          Float32.finite 1 = Float32.finite (1 / 2) ∧
      ((new N d (Float32.finite 0) p (Float32.finite (1 / 2)) s Float32.nan).GetSample ti
          ⟨Float32.finite 1, Float32.finite 1⟩).2 ≠
        ⟨(new N d (Float32.finite 0) p (Float32.finite (1 / 2)) s Float32.nan).wetParamC_ *
            Float32.finite 1,
          (new N d (Float32.finite 0) p (Float32.finite (1 / 2)) s Float32.nan).wetParamC_ *
            Float32.finite 1⟩ := by
  obtain ⟨n1, n2⟩ := new_quotients_of_nan N d (Float32.finite 0) p w s
  obtain ⟨m1, m2⟩ := new_quotients_of_nan N d (Float32.finite 0) p (Float32.finite (1 / 2)) s
  have hc : (new N d (Float32.finite 0) p (Float32.finite (1 / 2)) s Float32.nan).wetParamC_ =
      Float32.finite (1 / 2) := by
    show Float32.ofInt 1 - Float32.finite (1 / 2) = _
    rw [Float32.ofInt_one]
    show Float32.ofRat (1 + -(1 / 2)) = _
    apply Float32.ofRat_eq
    · rw [toFloat_eq (1 + -(1 / 2)) (-1) (8388608)
        (by rw [abs_of_pos (by norm_num)]; norm_num)
        (by rw [abs_of_pos (by norm_num)]; norm_num) (by norm_num)
        (by norm_num [roundHalfEven])]
      norm_num
    · rw [abs_of_pos (by norm_num)]
      norm_num [Float32.maxFinite]
  have hp : (new N d (Float32.finite 0) p (Float32.finite (1 / 2)) s Float32.nan).wetParamC_ *
      Float32.finite 1 = Float32.finite (1 / 2) := by
    rw [hc]
    show Float32.ofRat (1 / 2 * 1) = _
    apply Float32.ofRat_eq
    · rw [toFloat_eq (1 / 2 * 1) (-1) (8388608)
        (by rw [abs_of_pos (by norm_num)]; norm_num)
        (by rw [abs_of_pos (by norm_num)]; norm_num) (by norm_num)
        (by norm_num [roundHalfEven])]
      norm_num
    · rw [abs_of_pos (by norm_num)]
      norm_num [Float32.maxFinite]
  refine ⟨GetSample_snd_of_nan_quotients _ ti inp n1 n2, hp, ?_⟩
  rw [GetSample_snd_of_nan_quotients _ ti _ m1 m2, hp]
  intro h0
  injection h0 with h1 _
  cases h1

/-- C28: with wet 0 the unit is not always a dry pass-through.  For an engine constructed over
a NaN in the storage of `primaryPanningQuotient_`, after `SetWetParam(0)` `GetSample` returns
`(NaN, NaN)` for every input, since `0 * NaN` is NaN: not the input, for a finite input. -/
theorem wet_zero_nan_out (N : Int) (d f p w s : Float32) (ti : VstTimeInfo)
    (inp : StereoSample) :
    (((new N d f p w s Float32.nan).SetWetParam (Float32.finite 0)).GetSample ti inp).2 =
        ⟨Float32.nan, Float32.nan⟩ ∧
      ∀ a b : ℚ,
        (((new N d f p w s Float32.nan).SetWetParam (Float32.finite 0)).GetSample ti
          ⟨Float32.finite a, Float32.finite b⟩).2 ≠ ⟨Float32.finite a, Float32.finite b⟩ := by
  obtain ⟨n1, n2⟩ := new_quotients_of_nan N d f p w s
  have hq : ∀ x : StereoSample,
      (((new N d f p w s Float32.nan).SetWetParam (Float32.finite 0)).GetSample ti x).2 =
        ⟨Float32.nan, Float32.nan⟩ :=
    fun x => GetSample_snd_of_nan_quotients _ ti x n1 n2
  refine ⟨hq inp, fun a b => ?_⟩
  rw [hq]
  intro h0
  injection h0 with h1 _
  cases h1

end PingPongDelayUnit

end Binary32

end PingPongDelay
